import Mathlib

/-!
Verification development for the SQL metadata / lineage extractor.

This file gives a shallow embedding of the core of the repository
(`sql_file_processor.py`, `metadata_extractor.py`, `lineage_graph_manager.py`)
and proves or refutes the specification claims about it.

Modelling conventions:
* SQLite tables are modelled as association lists keyed by their primary key
  (`tables` by table id, `columns` by `(table_id, column_name)`, etc.).
  `INSERT OR REPLACE` is `setA` (replace-first-binding-or-append), SQL
  `UPDATE ... WHERE key` is `updA` (update matching bindings, no-op when the
  key is absent), `DELETE ... WHERE p` is a filter.
* Python dictionaries with a fixed key set (the per-column metadata dicts)
  are records of `Option` fields; a `none` field models an absent key, and
  Python truthiness of a value is the `truthy*` functions below.  A key that
  is present but bound to `None` is collapsed to `none` (the code only ever
  observes such values through truthiness).
* The sqlglot AST is external input; we model exactly the shape that
  `_classify_statement_type` inspects (`Ast` below), and the AST-derived
  table type (`_determine_table_type`) is carried as a field of the fact
  record, since the claims never depend on its derivation.
* Text fields use Lean `String`; the statement kinds are the literal strings
  of the source (`"CREATE_TABLE"`, `"INSERT_SELECT"`, ...).
-/

namespace MetadataExtractor

/-- Decidable equality for `Except` results (used to evaluate the model on
concrete inputs). -/
instance {ε α : Type} [DecidableEq ε] [DecidableEq α] :
    DecidableEq (Except ε α) := fun x y =>
  match x, y with
  | .ok a, .ok b =>
    if h : a = b then isTrue (by rw [h])
    else isFalse (by intro hc; cases hc; exact h rfl)
  | .ok _, .error _ => isFalse (by intro hc; cases hc)
  | .error _, .ok _ => isFalse (by intro hc; cases hc)
  | .error e1, .error e2 =>
    if h : e1 = e2 then isTrue (by rw [h])
    else isFalse (by intro hc; cases hc; exact h rfl)

/-! ## Generic association-list operations (the SQLite row stores) -/

/-- First binding for key `q`, mirroring a `SELECT ... WHERE key = ?`. -/
def lookupA {κ ρ : Type} [DecidableEq κ] : List (κ × ρ) → κ → Option ρ
  | [], _ => none
  | (k, r) :: rest, q => if k = q then some r else lookupA rest q

/-- Replace the first binding of `q`, or append one: `INSERT OR REPLACE`. -/
def setA {κ ρ : Type} [DecidableEq κ] : List (κ × ρ) → κ → ρ → List (κ × ρ)
  | [], q, v => [(q, v)]
  | (k, r) :: rest, q, v =>
    if k = q then (q, v) :: rest else (k, r) :: setA rest q v

/-- Update every binding of `q` in place (SQL `UPDATE ... WHERE key = ?`);
a no-op when the key is absent. -/
def updA {κ ρ : Type} [DecidableEq κ] (l : List (κ × ρ)) (q : κ) (f : ρ → ρ) :
    List (κ × ρ) :=
  l.map (fun p => if p.1 = q then (p.1, f p.2) else p)

/-- `INSERT OR REPLACE` of a whole batch of keyed rows, in order. -/
def insertListA {κ ρ : Type} [DecidableEq κ] (l : List (κ × ρ))
    (rows : List (κ × ρ)) : List (κ × ρ) :=
  rows.foldl (fun acc p => setA acc p.1 p.2) l

/-! ## Character-level string primitives

Python string operations, implemented over the character list of the
string so that they evaluate by kernel reduction (the built-in `String`
byte-position versions do not). -/

/-- Python `c in s` for a single character. -/
def strContains (s : String) (c : Char) : Bool :=
  s.data.contains c

/-- Python `s.upper()` (ASCII case mapping, which covers every marker the
code compares against). -/
def strToUpper (s : String) : String :=
  ⟨s.data.map Char.toUpper⟩

/-- `listStartsWith l p`: `p` is an initial segment of `l`. -/
def listStartsWith : List Char → List Char → Bool
  | _, [] => true
  | [], _ :: _ => false
  | a :: as, b :: bs => a = b && listStartsWith as bs

/-- Python `s.startswith(p)`. -/
def strStartsWith (s p : String) : Bool :=
  listStartsWith s.data p.data

/-- Split a character list at every occurrence of `c`. -/
def splitOnChar (c : Char) (l : List Char) : List (List Char) :=
  l.foldr
    (fun x acc =>
      match acc with
      | [] => [[]]
      | cur :: rest => if x = c then [] :: cur :: rest else (x :: cur) :: rest)
    [[]]

/-- Python `s.split('.')` restricted to the single-character separator the
code uses. -/
def strSplitOn (s : String) (c : Char) : List String :=
  (splitOnChar c s.data).map (fun l => ⟨l⟩)

/-- Python `s.strip()`. -/
def pyStrip (s : String) : String :=
  ⟨((s.data.dropWhile Char.isWhitespace).reverse.dropWhile Char.isWhitespace).reverse⟩

/-! ## Statement kinds and the conflict strategy table
(`get_conflict_strategy`, `sql_file_processor.py` lines 333-392) -/

/-- The table-creation statement kinds (`ddl_types` in the source). -/
def ddlTypes : List String := ["CREATE_TABLE", "CREATE_TABLE_AS", "CREATE_VIEW"]

/-- The DML statement kinds (`dml_types` in the source). -/
def dmlTypes : List String := ["INSERT_SELECT", "INSERT_VALUES", "UPDATE", "MERGE"]

/-- The `merge_strategies` dictionary of `get_conflict_strategy`, as the
literal key/value list of the source. -/
def mergeStrategies : List ((String × String) × String) :=
  [ (("CREATE_TABLE_AS", "INSERT_SELECT"), "SUPPLEMENT_CHINESE_NAMES"),
    (("CREATE_TABLE_AS", "INSERT_VALUES"), "SUPPLEMENT_CHINESE_NAMES"),
    (("CREATE_TABLE_AS", "UPDATE"), "SUPPLEMENT_CHINESE_NAMES"),
    (("CREATE_TABLE_AS", "MERGE"), "SUPPLEMENT_CHINESE_NAMES"),
    (("CREATE_VIEW", "INSERT_SELECT"), "SUPPLEMENT_CHINESE_NAMES"),
    (("CREATE_VIEW", "INSERT_VALUES"), "SUPPLEMENT_CHINESE_NAMES"),
    (("CREATE_VIEW", "UPDATE"), "SUPPLEMENT_CHINESE_NAMES"),
    (("CREATE_VIEW", "MERGE"), "SUPPLEMENT_CHINESE_NAMES"),
    (("INSERT_SELECT", "INSERT_SELECT"), "MERGE_INFO"),
    (("INSERT_SELECT", "INSERT_VALUES"), "MERGE_INFO"),
    (("INSERT_SELECT", "UPDATE"), "MERGE_INFO"),
    (("INSERT_SELECT", "MERGE"), "MERGE_INFO"),
    (("INSERT_VALUES", "INSERT_VALUES"), "MERGE_INFO"),
    (("INSERT_VALUES", "UPDATE"), "MERGE_INFO"),
    (("INSERT_VALUES", "MERGE"), "MERGE_INFO"),
    (("UPDATE", "UPDATE"), "MERGE_INFO"),
    (("UPDATE", "MERGE"), "MERGE_INFO"),
    (("MERGE", "MERGE"), "MERGE_INFO") ]

/-- `merge_strategies.get((existing_type, new_type))` (a `dict` lookup;
`none` makes the caller default to `MERGE_INFO`). -/
def mergeStrategyDict (p : String × String) : Option String :=
  lookupA mergeStrategies p

/-- `get_conflict_strategy(existing_type, new_type)`. -/
def getConflictStrategy (existing_type new_type : String) : String :=
  if existing_type ∈ ddlTypes ∨ new_type ∈ ddlTypes then
    if existing_type ∈ ddlTypes ∧ new_type ∈ ddlTypes then
      if existing_type = new_type then "ERROR"
      else if existing_type = "CREATE_TABLE" ∨ new_type = "CREATE_TABLE" then
        "KEEP_CREATE_TABLE"
      else "KEEP_CREATE_TABLE"
    else "KEEP_CREATE_TABLE"
  else
    (mergeStrategyDict (existing_type, new_type)).getD "MERGE_INFO"

/-! ## The statement classifier
(`_classify_statement_type`, `metadata_extractor.py` lines 37-71) -/

/-- Shape of the expression attached to an `exp.Insert` node: the code only
asks whether it is an `exp.Select`. -/
inductive InsExprKind : Type
  | selectE
  | valuesE
  | otherE
deriving DecidableEq, Repr

/-- The part of a sqlglot `exp.Insert` node that the repository inspects:
whether an explicit target column list (`exp.Schema` with expressions) is
present, and the attached expression, if any. -/
structure InsertShape : Type where
  hasColumnSchema : Bool
  expr : Option InsExprKind
deriving DecidableEq, Repr

/-- The part of a parsed sqlglot statement that `_classify_statement_type`
inspects.  `create kind hasExpr`: `kind` is `parsed_sql.kind` (`none` for
Python `None`) and `hasExpr` is the truthiness of `parsed_sql.expression`. -/
inductive Ast : Type
  | create (kind : Option String) (hasExpr : Bool)
  | insertStmt (s : InsertShape)
  | updateStmt
  | mergeStmt
  | otherAst
deriving DecidableEq, Repr

/-- `_classify_statement_type(parsed_sql)`. -/
def classifyStatementType : Ast → String
  | .create kind hasExpr =>
    match kind with
    | some k =>
      if k ≠ "" ∧ strToUpper k = "TABLE" then
        if hasExpr then "CREATE_TABLE_AS" else "CREATE_TABLE"
      else if k ≠ "" ∧ strToUpper k = "VIEW" then "CREATE_VIEW"
      else "UNKNOWN"
    | none => "UNKNOWN"
  | .insertStmt s =>
    match s.expr with
    | some .selectE => "INSERT_SELECT"
    | _ => "INSERT_VALUES"
  | .updateStmt => "UPDATE"
  | .mergeStmt => "MERGE"
  | .otherAst => "UNKNOWN"

/-! ## Column metadata dictionaries and the in-script merge
(`_consolidate_metadata`, `sql_file_processor.py` lines 236-330) -/

/-- Python truthiness of an optional string field (absent or `''` is falsy). -/
def truthyS (o : Option String) : Bool :=
  match o with
  | some s => !s.isEmpty
  | none => false

/-- Python truthiness of an optional integer field (absent or `0` is falsy). -/
def truthyI (o : Option Int) : Bool :=
  match o with
  | some n => decide (n ≠ 0)
  | none => false

/-- Python truthiness of an optional boolean field. -/
def truthyB (o : Option Bool) : Bool :=
  match o with
  | some b => b
  | none => false

/-- One per-column metadata dictionary, as produced by the extractors.  A
`none` field is an absent key. -/
structure ColInfo : Type where
  col_no : Option Int := none
  col_en_nm : Option String := none
  col_cn_nm : Option String := none
  data_type : Option String := none
  is_null : Option Bool := none
  default_value : Option String := none
  is_pri_key : Option Bool := none
  is_foreign_key : Option Bool := none
deriving DecidableEq, Repr

/-- DDL merge of one non-special field:
`if value or key in [...]: existing_col[key] = value` with a truthy check. -/
def ddlFieldS (ex new : Option String) : Option String :=
  match new with
  | none => ex
  | some v => if !v.isEmpty then some v else ex

/-- DDL merge of the ordinal field. -/
def ddlFieldI (ex new : Option Int) : Option Int :=
  match new with
  | none => ex
  | some v => if v ≠ 0 then some v else ex

/-- DDL merge of one of the special keys `is_null`, `is_pri_key`,
`is_foreign_key`: a present value always overwrites. -/
def ddlFieldB (ex new : Option Bool) : Option Bool :=
  match new with
  | none => ex
  | some v => some v

/-- DML merge of one field:
`if value and not existing_col.get(key): existing_col[key] = value`. -/
def dmlFieldS (ex new : Option String) : Option String :=
  match new with
  | none => ex
  | some v => if !v.isEmpty && !truthyS ex then some v else ex

/-- DML merge of the ordinal field. -/
def dmlFieldI (ex new : Option Int) : Option Int :=
  match new with
  | none => ex
  | some v => if decide (v ≠ 0) && !truthyI ex then some v else ex

/-- DML merge of a boolean field. -/
def dmlFieldB (ex new : Option Bool) : Option Bool :=
  match new with
  | none => ex
  | some v => if v && !truthyB ex then some v else ex

/-- Merge a later statement's column contribution `c` into the accumulated
column `ex` (`_consolidate_metadata` lines 290-302).  When the later
statement is a DDL kind, truthy values (and the three flag keys) overwrite;
otherwise only currently-falsy fields are filled in. -/
def mergeColInto (isDDL : Bool) (ex c : ColInfo) : ColInfo :=
  if isDDL then
    { col_no := ddlFieldI ex.col_no c.col_no
      col_en_nm := ddlFieldS ex.col_en_nm c.col_en_nm
      col_cn_nm := ddlFieldS ex.col_cn_nm c.col_cn_nm
      data_type := ddlFieldS ex.data_type c.data_type
      is_null := ddlFieldB ex.is_null c.is_null
      default_value := ddlFieldS ex.default_value c.default_value
      is_pri_key := ddlFieldB ex.is_pri_key c.is_pri_key
      is_foreign_key := ddlFieldB ex.is_foreign_key c.is_foreign_key }
  else
    { col_no := dmlFieldI ex.col_no c.col_no
      col_en_nm := dmlFieldS ex.col_en_nm c.col_en_nm
      col_cn_nm := dmlFieldS ex.col_cn_nm c.col_cn_nm
      data_type := dmlFieldS ex.data_type c.data_type
      is_null := dmlFieldB ex.is_null c.is_null
      default_value := dmlFieldS ex.default_value c.default_value
      is_pri_key := dmlFieldB ex.is_pri_key c.is_pri_key
      is_foreign_key := dmlFieldB ex.is_foreign_key c.is_foreign_key }

/-- Fold one contributed column into the running column list: the first
column with the same `col_en_nm` is merged in place, otherwise the new
column is appended (lines 283-305). -/
def mergeColList (isDDL : Bool) : List ColInfo → ColInfo → List ColInfo
  | [], c => [c]
  | e :: rest, c =>
    if e.col_en_nm = c.col_en_nm then mergeColInto isDDL e c :: rest
    else e :: mergeColList isDDL rest c

/-- A table reference from a fact record (schema/name already normalised to
`''` for Python `None`, as the source does with `or ''`). -/
structure TableRefFact : Type where
  schema_nm : String := ""
  tbl_en_nm : String := ""
  tbl_cn_nm : String := ""
deriving DecidableEq, Repr

/-- One extracted fact record (the output contract of the external
SQL-to-facts extractor plus the fields the processing loop attaches).
`table_type` carries `_determine_table_type(metadata['_ast'], schema)`,
which depends only on the statement's AST shape. -/
structure Fact : Type where
  target_table : TableRefFact
  statement_type : String
  table_type : String
  target_columns : List ColInfo := []
  source_tables : List TableRefFact := []
deriving DecidableEq, Repr

/-- One consolidated per-table record (`tables_data[key]`). -/
structure TableData : Type where
  schema_name : String
  table_name : String
  table_cn_name : String
  table_type : String
  data_source : String
  columns : List ColInfo
deriving DecidableEq, Repr

/-- Consolidation key: `(schema_name, table_name)`. -/
abbrev TKey := String × String

/-- Process one fact record of `_consolidate_metadata`'s main loop. -/
def consolidateStep (acc : List (TKey × TableData)) (m : Fact) :
    List (TKey × TableData) :=
  let stmtType := m.statement_type
  let sch := m.target_table.schema_nm
  let tnm := m.target_table.tbl_en_nm
  let acc1 :=
    if tnm = "" then acc
    else
      let key : TKey := (sch, tnm)
      let entry :=
        match lookupA acc key with
        | some e => e
        | none =>
          { schema_name := sch
            table_name := tnm
            table_cn_name := m.target_table.tbl_cn_nm
            table_type := m.table_type
            data_source := stmtType
            columns := [] }
      let entry := { entry with data_source := stmtType }
      let isDDL := stmtType ∈ ddlTypes
      let entry :=
        { entry with
          columns := m.target_columns.foldl (mergeColList isDDL) entry.columns }
      setA acc key entry
  m.source_tables.foldl
    (fun a st =>
      if st.tbl_en_nm = "" then a
      else
        let k : TKey := (st.schema_nm, st.tbl_en_nm)
        match lookupA a k with
        | some _ => a
        | none =>
          a ++ [(k,
            { schema_name := st.schema_nm
              table_name := st.tbl_en_nm
              table_cn_name := ""
              table_type := "TABLE"
              data_source := "EXTERNAL"
              columns := [] })])
    acc1

/-- `_consolidate_metadata(extracted_data)`: one consolidated record per
referenced table, keyed by `(schema_name, table_name)` in first-reference
order (Python dict insertion order). -/
def consolidateMetadata (facts : List Fact) : List (TKey × TableData) :=
  facts.foldl consolidateStep []

/-! ## Identifier generation (`_generate_table_id`, `_generate_column_id`) -/

/-- Truthiness of the optional `script_id` argument (Python `if script_id:`,
where both `None` and `''` are falsy). -/
def sidTruthy (sid : Option String) : Bool :=
  match sid with
  | some s => !s.isEmpty
  | none => false

/-- `_generate_table_id(schema_name, table_name, script_id)`. -/
def generateTableId (schema_name table_name : String) (script_id : Option String) :
    String :=
  if schema_name ≠ "" then
    if sidTruthy script_id then
      schema_name ++ "__" ++ table_name ++ "__" ++ script_id.getD ""
    else schema_name ++ "__" ++ table_name ++ "__"
  else
    if sidTruthy script_id then "__" ++ table_name ++ "__" ++ script_id.getD ""
    else "__" ++ table_name ++ "__"

/-- `_generate_column_id(schema_name, table_name, column_name, script_id)`. -/
def generateColumnId (schema_name table_name column_name : String)
    (script_id : Option String) : String :=
  if schema_name ≠ "" then
    if sidTruthy script_id then
      schema_name ++ "__" ++ table_name ++ "__" ++ script_id.getD "" ++ "__" ++ column_name
    else schema_name ++ "__" ++ table_name ++ "____" ++ column_name
  else
    if sidTruthy script_id then
      "__" ++ table_name ++ "__" ++ script_id.getD "" ++ "__" ++ column_name
    else "__" ++ table_name ++ "____" ++ column_name

/-! ## The persisted store -/

/-- One row of the `tables` table (the columns the core reads or writes;
the constant/unused columns `business_purpose`, `refresh_frequency`,
`row_count`, `data_size_mb`, `last_updated` are omitted).  `script_id` is
`Option String` because `_update_table_with_statement` can bind Python
`None` (SQL `NULL`) while the insert paths bind `''`. -/
structure TableRow : Type where
  database_id : String
  schema_name : String
  table_name : String
  table_type : String
  description : String
  data_source : String
  script_id : Option String
deriving DecidableEq, Repr

/-- One row of the `columns` table (keyed externally by
`(table_id, column_name)`; `max_length` is always `NULL` and omitted). -/
structure ColumnRow : Type where
  id : String
  data_type : String
  is_nullable : Bool
  default_value : String
  is_primary_key : Bool
  is_foreign_key : Bool
  description : String
  ordinal_position : Option Int
deriving DecidableEq, Repr

/-- One row of `sql_scripts` (constant columns omitted). -/
structure ScriptRow : Type where
  script_name : String
  script_content : String
deriving DecidableEq, Repr

/-- One row of `script_statements`. -/
structure StatementRow : Type where
  script_id : String
  statement_index : Nat
  statement_type : String
  statement_content : String
  target_table_id : Option String
deriving DecidableEq, Repr

/-- One row of `data_lineage_detail`. -/
structure DetailRow : Type where
  target_table_id : String
  source_table_id : String
  script_id : String
  statement_id : String
deriving DecidableEq, Repr

/-- One row of `data_lineage_summary`. -/
structure SummaryRow : Type where
  target_table_id : String
  source_table_id : String
  script_id : String
deriving DecidableEq, Repr

/-- The SQLite database, one association list per table, keyed by primary
key (`columns` by the `(table_id, column_name)` pair its queries use;
the generated column id is kept as a row field). -/
structure DB : Type where
  databases : List (String × String)
  tables : List (String × TableRow)
  columns : List ((String × String) × ColumnRow)
  sql_scripts : List (String × ScriptRow)
  script_statements : List (String × StatementRow)
  data_lineage_detail : List (String × DetailRow)
  data_lineage_summary : List (String × SummaryRow)
deriving DecidableEq, Repr

/-- The empty database. -/
def DB.empty : DB :=
  { databases := [], tables := [], columns := [], sql_scripts := []
    script_statements := [], data_lineage_detail := [], data_lineage_summary := [] }

/-! ## Conflict resolution against the store
(`_process_table_data` and helpers, lines 395-971) -/

/-- `_insert_columns(cursor, table_id, schema_name, table_name, columns,
script_id)`: plain `INSERT` of each named column (modelled as keyed
replace-or-append; the insert targets are fresh after a `DELETE` or a new
table, so no primary-key conflict arises on the paths the code takes). -/
def insertColumns (db : DB) (table_id schema_name table_name : String)
    (cols : List ColInfo) (script_id : Option String) : DB :=
  cols.foldl
    (fun d col =>
      match col.col_en_nm with
      | none => d
      | some nm =>
        if nm = "" then d
        else
          let cid := generateColumnId schema_name table_name nm script_id
          let row : ColumnRow :=
            { id := cid
              data_type := col.data_type.getD ""
              is_nullable := !(col.is_null = some false)
              default_value := col.default_value.getD ""
              is_primary_key := truthyB col.is_pri_key
              is_foreign_key := truthyB col.is_foreign_key
              description := col.col_cn_nm.getD ""
              ordinal_position :=
                match col.col_no with
                | some n => if n = 0 then none else some n
                | none => none }
          { d with columns := setA d.columns (table_id, nm) row })
    db

/-- `_update_table_with_statement`: overwrite the table row with the new
record, delete its columns and re-insert the new ones. -/
def updateTableWithStatement (db : DB) (table_id : String) (td : TableData)
    (script_id : Option String) (new_data_source : String) : DB :=
  let is_tmp := td.table_type = "TMP_TABLE"
  let current_sid : Option String := if is_tmp then script_id else some ""
  let ds := if new_data_source ≠ "" then new_data_source else td.data_source
  let row : TableRow :=
    { database_id := if td.schema_name ≠ "" then td.schema_name else ""
      schema_name := td.schema_name
      table_name := td.table_name
      table_type := td.table_type
      description := td.table_cn_name
      data_source := ds
      script_id := current_sid }
  let db := { db with tables := updA db.tables table_id (fun _ => row) }
  let db := { db with columns := db.columns.filter (fun p => !(p.1.1 = table_id)) }
  insertColumns db table_id td.schema_name td.table_name td.columns script_id

/-- `_supplement_chinese_names_only`: for each contributed column that
already exists (checked against a snapshot of the stored columns), fill in
an empty description with the contributed Chinese name. -/
def supplementChineseNamesOnly (db : DB) (table_id : String) (td : TableData) : DB :=
  td.columns.foldl
    (fun d col =>
      match col.col_en_nm with
      | none => d
      | some nm =>
        let cn := col.col_cn_nm.getD ""
        match lookupA db.columns (table_id, nm) with
        | some ex =>
          if cn ≠ "" ∧ ex.description = "" then
            { d with columns :=
                (updA d.columns (table_id, nm) (fun r => { r with description := cn })) }
          else d
        | none => d)
    db

/-- `_insert_single_column` (the defaults differ from `_insert_columns`:
`is_null` defaults to `True`, `col_no` to `1`, and a present `0` ordinal is
stored as `0` rather than `NULL`). -/
def insertSingleColumn (db : DB) (table_id schema_name table_name : String)
    (col : ColInfo) (script_id : Option String) : DB :=
  let nm := col.col_en_nm.getD ""
  let cid := generateColumnId schema_name table_name nm
    (if sidTruthy script_id then script_id else none)
  let row : ColumnRow :=
    { id := cid
      data_type := col.data_type.getD ""
      is_nullable := col.is_null.getD true
      default_value := col.default_value.getD ""
      is_primary_key := col.is_pri_key.getD false
      is_foreign_key := col.is_foreign_key.getD false
      description := col.col_cn_nm.getD ""
      ordinal_position := some (col.col_no.getD 1) }
  { db with columns := setA db.columns (table_id, nm) row }

/-- `_merge_statement_info`: per contributed column (conditions read from a
snapshot of the stored columns), keep a conflicting description, fill in an
empty one, and insert genuinely new columns. -/
def mergeStatementInfo (db : DB) (table_id : String) (td : TableData)
    (script_id : Option String) : DB :=
  td.columns.foldl
    (fun d col =>
      let nm := col.col_en_nm.getD ""
      match lookupA db.columns (table_id, nm) with
      | some ex =>
        let cn := col.col_cn_nm.getD ""
        if cn ≠ "" ∧ ex.description ≠ "" ∧ cn ≠ ex.description then d
        else if cn ≠ "" ∧ ex.description = "" then
          { d with columns :=
              (updA d.columns (table_id, nm) (fun r => { r with description := cn })) }
        else d
      | none => insertSingleColumn d table_id td.schema_name td.table_name col script_id)
    db

/-- `_insert_new_table`: create the database record if needed, insert the
table row and its columns. -/
def insertNewTable (db : DB) (td : TableData) (current_sid : Option String) : DB :=
  let table_id := generateTableId td.schema_name td.table_name current_sid
  let db :=
    if td.schema_name ≠ "" then
      match lookupA db.databases td.schema_name with
      | some _ => db
      | none => { db with databases := setA db.databases td.schema_name td.schema_name }
    else db
  let database_id := if td.schema_name ≠ "" then td.schema_name else ""
  let row : TableRow :=
    { database_id := database_id
      schema_name := td.schema_name
      table_name := td.table_name
      table_type := td.table_type
      description := td.table_cn_name
      data_source := td.data_source
      script_id := some (current_sid.getD "") }
  let db := { db with tables := setA db.tables table_id row }
  insertColumns db table_id td.schema_name td.table_name td.columns current_sid

/-- The table id `_process_table_data` computes for a consolidated record. -/
def tidOf (td : TableData) (script_id : Option String) : String :=
  generateTableId td.schema_name td.table_name
    (if td.table_type = "TMP_TABLE" then script_id else none)

/-- `_process_table_data(cursor, table_data, script_id)`: reconcile one
newly consolidated record against the store; `.error` models the raised
exception (which aborts the script's transaction). -/
def processTableData (db : DB) (td : TableData) (script_id : Option String) :
    Except String DB :=
  let is_tmp := td.table_type = "TMP_TABLE"
  let current_sid : Option String := if is_tmp then script_id else none
  let table_id := generateTableId td.schema_name td.table_name current_sid
  match lookupA db.tables table_id with
  | some existing =>
    if td.data_source = "EXTERNAL" then .ok db
    else if existing.data_source = "EXTERNAL" then
      .ok (updateTableWithStatement db table_id td current_sid td.data_source)
    else
      let strategy := getConflictStrategy existing.data_source td.data_source
      if strategy = "ERROR" then
        .error ("table " ++ td.schema_name ++ "." ++ td.table_name ++
          " conflict not allowed: " ++ existing.data_source ++ " vs " ++ td.data_source)
      else if strategy = "KEEP_CREATE_TABLE" then
        .ok (updateTableWithStatement db table_id td current_sid td.data_source)
      else if strategy = "SUPPLEMENT_CHINESE_NAMES" then
        .ok (supplementChineseNamesOnly db table_id td)
      else .ok (mergeStatementInfo db table_id td current_sid)
  | none => .ok (insertNewTable db td current_sid)

/-! ## Dependency graph and target identification
(`_build_dependency_graph`, `_identify_target_and_source_tables`) -/

/-- Full table name used as a dependency-graph node:
`f"{schema}.{name}"` when a schema is present, else the bare name. -/
def fullName (schema_name table_name : String) : String :=
  if schema_name ≠ "" then schema_name ++ "." ++ table_name else table_name

/-- The per-script dependency graph: node list in insertion order plus a
deduplicated edge list (networkx `DiGraph`). -/
structure DepGraph : Type where
  nodes : List String
  edges : List (String × String)
deriving DecidableEq, Repr

/-- `_build_dependency_graph(extracted_data)`. -/
def buildDependencyGraph (facts : List Fact) : DepGraph :=
  facts.foldl
    (fun g m =>
      let tnm := m.target_table.tbl_en_nm
      if tnm = "" then g
      else
        let tfull := fullName m.target_table.schema_nm tnm
        let g := if tfull ∈ g.nodes then g else { g with nodes := g.nodes ++ [tfull] }
        m.source_tables.foldl
          (fun g st =>
            if st.tbl_en_nm = "" then g
            else
              let sfull := fullName st.schema_nm st.tbl_en_nm
              let g :=
                if sfull ∈ g.nodes then g else { g with nodes := g.nodes ++ [sfull] }
              if (sfull, tfull) ∈ g.edges then g
              else { g with edges := g.edges ++ [(sfull, tfull)] })
          g)
    { nodes := [], edges := [] }

/-- In-degree of a node (the deduplicated edge list makes this networkx's
`in_degree`). -/
def inDegree (g : DepGraph) (n : String) : Nat :=
  g.edges.countP (fun e => e.2 = n)

/-- Out-degree of a node. -/
def outDegree (g : DepGraph) (n : String) : Nat :=
  g.edges.countP (fun e => e.1 = n)

/-- The conventional temp-table markers of `is_temp_table`. -/
def tempMarkers : List String := ["VT_", "TMP_", "TEMP_", "VOLATILE_", "#"]

/-- `is_temp_table(table_name)`: no schema part (no `'.'`) and the
upper-cased name starts with a conventional marker. -/
def isTempTable (table_name : String) : Bool :=
  if strContains table_name '.' then false
  else tempMarkers.any (fun m => strStartsWith (strToUpper table_name) m)

/-- `_identify_target_and_source_tables(graph, ...)`: targets by the
two-tier rule, sources as the in-degree-0 nodes. -/
def identifyTargetAndSourceTables (g : DepGraph) : List String × List String :=
  let s1 := g.nodes.filter (fun n => decide (0 < inDegree g n) && !isTempTable n)
  let targets :=
    if s1.isEmpty then g.nodes.filter (fun n => decide (outDegree g n = 0)) else s1
  let sources := g.nodes.filter (fun n => decide (inDegree g n = 0))
  (targets, sources)

/-- The target check of `process_sql_file` (lines 130-136): an empty target
set fails the script with the no-target error before any persistence. -/
def checkTargets (g : DepGraph) : Except String (List String × List String) :=
  let ts := identifyTargetAndSourceTables g
  if ts.1.length = 0 then .error "NoTargetIdentified" else .ok ts

/-! ## Detail graph and summary derivation
(`LineageGraphManager`, `lineage_graph_manager.py`) -/

/-- One detail-graph node: a table id with its stored `table_type`
(`is_entity` is derived as `table_type in ['TABLE', 'VIEW']`). -/
structure DetailNode : Type where
  id : String
  node_type : String
deriving DecidableEq, Repr

/-- The statement-level detail graph (networkx `DiGraph`: node list plus
deduplicated edge list; edge attributes play no role in the claims). -/
structure DetailGraph : Type where
  nodes : List DetailNode
  edges : List (String × String)
deriving DecidableEq, Repr

/-- `is_entity`: the node's table type is `TABLE` or `VIEW`. -/
def isEntityType (t : String) : Bool :=
  t = "TABLE" || t = "VIEW"

/-- The entity nodes of the detail graph, in node order. -/
def entityNodes (g : DetailGraph) : List String :=
  (g.nodes.filter (fun n => isEntityType n.node_type)).map DetailNode.id

/-- Successors of a node (deduplicated: a `DiGraph` stores one edge per
ordered pair). -/
def succOf (g : DetailGraph) (u : String) : List String :=
  ((g.edges.filter (fun e => e.1 = u)).map Prod.snd).dedup

/-- Bounded enumeration of the simple paths from `u` to `t` that avoid
`visited`, with at most `fuel` remaining hops — the behaviour of
`networkx.all_simple_paths(graph, source, target, cutoff)`. -/
def simplePathsAux (adj : String → List String) (t : String) :
    Nat → String → List String → List (List String)
  | 0, u, _ => if u = t then [[u]] else []
  | Nat.succ f, u, visited =>
    if u = t then [[u]]
    else
      (adj u).flatMap
        (fun v =>
          if v ∈ u :: visited then []
          else (simplePathsAux adj t f v (u :: visited)).map (u :: ·))

/-- `nx.all_simple_paths(self.detail_graph, source, target, cutoff)` as a
list of node paths. -/
def allSimplePaths (g : DetailGraph) (s t : String) (cutoff : Nat) :
    List (List String) :=
  simplePathsAux (succOf g) t cutoff s []

/-- Minimum of a list of naturals (`0` for the empty list; only applied to
non-empty lists). -/
def natListMin : List Nat → Nat
  | [] => 0
  | x :: xs => xs.foldl Nat.min x

/-- Maximum of a list of naturals. -/
def natListMax : List Nat → Nat
  | [] => 0
  | x :: xs => xs.foldl Nat.max x

/-- One summary-graph edge with its annotations
(`path_count`, `min_hop_count`, `max_hop_count`). -/
structure SummaryEdge : Type where
  source : String
  target : String
  path_count : Nat
  min_hop_count : Nat
  max_hop_count : Nat
deriving DecidableEq, Repr

/-- The edge `generate_summary_graph` emits for one ordered entity pair, if
any. -/
def summaryEdgeFor (g : DetailGraph) (cutoff : Nat) (source target : String) :
    Option SummaryEdge :=
  if source = target then none
  else
    let paths := allSimplePaths g source target cutoff
    if paths.isEmpty then none
    else
      some
        { source := source
          target := target
          path_count := paths.length
          min_hop_count := natListMin (paths.map (fun p => p.length - 1))
          max_hop_count := natListMax (paths.map (fun p => p.length - 1)) }

/-- `LineageGraphManager.generate_summary_graph(max_path_length)`: the edges
of the derived summary graph, enumerated over ordered pairs of entity
nodes.  The function is total: a pair without a path simply contributes no
edge and no error is raised. -/
def generateSummaryGraph (g : DetailGraph) (maxPathLength : Nat) :
    List SummaryEdge :=
  (entityNodes g).flatMap
    (fun source => (entityNodes g).filterMap (summaryEdgeFor g maxPathLength source))

/-! ## Script persistence
(`_cleanup_script_data`, `_populate_script_tables`, `generate_lineage_summary`) -/

/-- The part of one parsed statement that `_populate_script_tables` uses:
its AST shape (for `_classify_statement_type`) and its SQL text. -/
structure PStmt : Type where
  ast : Ast
  content : String
deriving DecidableEq, Repr

/-- Python `f"{idx:03d}"`. -/
def pad3 (n : Nat) : String :=
  if n < 10 then "00" ++ toString n
  else if n < 100 then "0" ++ toString n
  else toString n

/-- `f"{script_id}__STMT_{idx:03d}"`. -/
def stmtId (sid : String) (idx : Nat) : String :=
  sid ++ "__STMT_" ++ pad3 idx

/-- `_cleanup_script_data(cursor, script_id)`: when the script already has a
record, delete its summary, detail and statement rows (tables are kept). -/
def cleanupScriptData (db : DB) (sid : String) : DB :=
  match lookupA db.sql_scripts sid with
  | none => db
  | some _ =>
    { db with
      data_lineage_summary :=
        db.data_lineage_summary.filter (fun p => !(p.2.script_id = sid))
      data_lineage_detail :=
        db.data_lineage_detail.filter (fun p => !(p.2.script_id = sid))
      script_statements :=
        db.script_statements.filter (fun p => !(p.2.script_id = sid)) }

/-- The per-statement target-table lookup of `_populate_script_tables`
(entity id first, then the script-local temp id).  The loop indexes
`extracted_data` by the parsed-statement index, which the model mirrors. -/
def targetTableIdFor (tables : List (String × TableRow)) (sid : String)
    (facts : List Fact) (idx : Nat) : Option String :=
  if idx ≤ facts.length then
    match facts.get? (idx - 1) with
    | some f =>
      let tsch := f.target_table.schema_nm
      let tnm := f.target_table.tbl_en_nm
      if tnm ≠ "" then
        let t1 := generateTableId tsch tnm none
        if (lookupA tables t1).isSome then some t1
        else
          let t2 := generateTableId tsch tnm (some sid)
          if (lookupA tables t2).isSome then some t2 else none
      else none
    | none => none
  else none

/-- The `script_statements` rows of one script, enumerating the parsed
statements from index `idx` (1-based; `None` entries advance the index
without a row, as in the source). -/
def computeStatementRows (tables : List (String × TableRow)) (facts : List Fact)
    (sid : String) : List (Option PStmt) → Nat → List (String × StatementRow)
  | [], _ => []
  | none :: rest, idx => computeStatementRows tables facts sid rest (idx + 1)
  | some p :: rest, idx =>
    (stmtId sid idx,
      { script_id := sid
        statement_index := idx
        statement_type := classifyStatementType p.ast
        statement_content := p.content
        target_table_id := targetTableIdFor tables sid facts idx }) ::
      computeStatementRows tables facts sid rest (idx + 1)

/-- The source-table loop of the `data_lineage_detail` phase.  When a source
table has neither an entity nor a script-local record, the code calls
`_create_external_table_record`, whose `INSERT` statement supplies 13
values for 12 columns and therefore raises an `OperationalError`; that
branch is modelled as `.error` (it is proved unreachable from the driver). -/
def sourceFold (sid statement_id target_table_id : String) :
    DB → List TableRefFact → Except String DB
  | db, [] => .ok db
  | db, st :: rest =>
    if st.tbl_en_nm = "" then sourceFold sid statement_id target_table_id db rest
    else
      let s1 := generateTableId st.schema_nm st.tbl_en_nm none
      let src? :=
        if (lookupA db.tables s1).isSome then some s1
        else
          let s2 := generateTableId st.schema_nm st.tbl_en_nm (some sid)
          if (lookupA db.tables s2).isSome then some s2 else none
      match src? with
      | none => .error "create external table record: malformed INSERT"
      | some source_table_id =>
        let lid := target_table_id ++ "__" ++ source_table_id ++ "__" ++ statement_id
        let db :=
          { db with data_lineage_detail :=
              (setA db.data_lineage_detail lid
                { target_table_id := target_table_id
                  source_table_id := source_table_id
                  script_id := sid
                  statement_id := statement_id }) }
        sourceFold sid statement_id target_table_id db rest

/-- The `data_lineage_detail` phase: one pass over the extracted facts,
enumerated from `idx` (1-based). -/
def detailPhase (sid : String) : DB → List Fact → Nat → Except String DB
  | db, [], _ => .ok db
  | db, f :: rest, idx =>
    let statement_id := stmtId sid idx
    let tsch := f.target_table.schema_nm
    let tnm := f.target_table.tbl_en_nm
    if tnm = "" then detailPhase sid db rest (idx + 1)
    else
      let t1 := generateTableId tsch tnm none
      let tgt? :=
        if (lookupA db.tables t1).isSome then some t1
        else
          let t2 := generateTableId tsch tnm (some sid)
          if (lookupA db.tables t2).isSome then some t2 else none
      match tgt? with
      | none => detailPhase sid db rest (idx + 1)
      | some target_table_id =>
        match sourceFold sid statement_id target_table_id db f.source_tables with
        | .error e => .error e
        | .ok db => detailPhase sid db rest (idx + 1)

/-- `LineageGraphManager.build_detail_graph`: build the statement-level
graph from the script's detail rows, joining `tables` (for node types) and
`script_statements` (a row without its statement is dropped by the join).
The `ORDER BY statement_index` of the query only affects edge attributes
and node enumeration order, neither of which the claims depend on. -/
def buildDetailGraphFromRows (db : DB) (rows : List DetailRow) : DetailGraph :=
  rows.foldl
    (fun g r =>
      match lookupA db.tables r.source_table_id, lookupA db.tables r.target_table_id,
            lookupA db.script_statements r.statement_id with
      | some srcT, some tgtT, some _ =>
        let g :=
          if g.nodes.any (fun n => n.id = r.source_table_id) then g
          else { g with nodes := g.nodes ++ [⟨r.source_table_id, srcT.table_type⟩] }
        let g :=
          if g.nodes.any (fun n => n.id = r.target_table_id) then g
          else { g with nodes := g.nodes ++ [⟨r.target_table_id, tgtT.table_type⟩] }
        if (r.source_table_id, r.target_table_id) ∈ g.edges then g
        else { g with edges := g.edges ++ [(r.source_table_id, r.target_table_id)] }
      | _, _, _ => g)
    { nodes := [], edges := [] }

/-- `generate_lineage_summary(cursor, script_id)`: rebuild the script's
detail graph from the store, derive the summary edges (cutoff 20) and save
them to `data_lineage_summary`.  The surrounding `try/except` swallows
failures, and the model is total. -/
def generateLineageSummaryDB (db : DB) (sid : String) : DB :=
  let rows := (db.data_lineage_detail.filter (fun p => p.2.script_id = sid)).map Prod.snd
  let dg := buildDetailGraphFromRows db rows
  let edges := generateSummaryGraph dg 20
  edges.foldl
    (fun d e =>
      let lid := e.target ++ "__" ++ e.source ++ "__" ++ sid
      { d with data_lineage_summary :=
          (setA d.data_lineage_summary lid
            { target_table_id := e.target
              source_table_id := e.source
              script_id := sid }) })
    db

/-- `_populate_script_tables`: cleanup, the `sql_scripts` row, the
statement rows, the detail rows, then summary derivation.  The JSON export
of the graphs is a portable artifact outside the persisted state modelled
here. -/
def populateScriptTables (db : DB) (content : String) (facts : List Fact)
    (parsed : List (Option PStmt)) (sid : String) : Except String DB :=
  let script_name := sid
  let db := cleanupScriptData db sid
  let db :=
    { db with sql_scripts :=
        (setA db.sql_scripts sid { script_name := script_name, script_content := content }) }
  let stmtRows := computeStatementRows db.tables facts sid parsed 1
  let db :=
    { db with script_statements := insertListA db.script_statements stmtRows }
  match detailPhase sid db facts 1 with
  | .error e => .error e
  | .ok db => .ok (generateLineageSummaryDB db sid)

/-! ## The global lineage graph (`_update_global_lineage`) -/

/-- The persisted cross-script graph (`datalineage.json`): node attributes
`(schema, table)` keyed by full name, edge `script_paths` keyed by the
`(source, target)` pair. -/
structure GlobalGraph : Type where
  nodes : List (String × (String × String))
  edges : List ((String × String) × List String)
deriving DecidableEq, Repr

/-- `_parse_full_table_name(full_name)`. -/
def parseFullTableName (full : String) : String × String :=
  if strContains full '.' then
    let parts := strSplitOn full '.'
    ((parts.get? 0).getD "", (parts.get? 1).getD "")
  else ("", full)

/-- Add a node with its parsed attributes unless already present. -/
def ensureNode (g : GlobalGraph) (nm : String) : GlobalGraph :=
  match lookupA g.nodes nm with
  | some _ => g
  | none => { g with nodes := setA g.nodes nm (parseFullTableName nm) }

/-- `_update_global_lineage(sql_file_path, target_tables, source_tables)`:
load the graph (or start empty), ensure all nodes, and for every
(source, target) pair ensure an edge whose `script_paths` contains the
script (append, deduplicated).  The Python target/source sets are iterated
here in list order; every individual update is order-independent. -/
def updateGlobalLineage (fs : Option GlobalGraph) (sql_file_path : String)
    (targets sources : List String) : Option GlobalGraph :=
  let g0 := fs.getD { nodes := [], edges := [] }
  some (targets.foldl
    (fun g tgt =>
      let g := ensureNode g tgt
      sources.foldl
        (fun g src =>
          let g := ensureNode g src
          match lookupA g.edges (src, tgt) with
          | some paths =>
            if sql_file_path ∈ paths then g
            else { g with edges := setA g.edges (src, tgt) (paths ++ [sql_file_path]) }
          | none => { g with edges := setA g.edges (src, tgt) [sql_file_path] })
        g)
    g0)

/-! ## The per-script driver (`process_sql_file`) -/

/-- The transaction's per-table loop: first failure rolls the whole
transaction back (modelled by the caller discarding the intermediate
state). -/
def tablePhase (db : DB) (tds : List (TKey × TableData)) (script_id : String) :
    Except String DB :=
  tds.foldlM (fun d p => processTableData d p.2 (some script_id)) db

/-- `process_sql_file` from extraction onwards: consolidation, dependency
graph, target identification, then one all-or-nothing transaction (table
phase, script persistence) plus the global-lineage file update before the
commit.  On any error the returned store and graph are the inputs
(rollback / close-without-commit); the dependency-graph JSON file is a
per-script artifact outside this state. -/
def processScriptCore (db : DB) (fs : Option GlobalGraph)
    (sql_file_path script_id : String) (facts : List Fact)
    (parsed : List (Option PStmt)) (content : String) :
    Except String Unit × DB × Option GlobalGraph :=
  if facts.isEmpty then (.error "no valid metadata extracted", db, fs)
  else
    let tablesData := consolidateMetadata facts
    let g := buildDependencyGraph facts
    match checkTargets g with
    | .error e => (.error e, db, fs)
    | .ok ts =>
      match tablePhase db tablesData script_id with
      | .error e => (.error e, db, fs)
      | .ok db1 =>
        match populateScriptTables db1 content facts parsed script_id with
        | .error e => (.error e, db, fs)
        | .ok db2 =>
          let fs2 := updateGlobalLineage fs sql_file_path ts.1 ts.2
          (.ok (), db2, fs2)

/-- `process_sql_file`, from the content check onwards: an empty or
whitespace-only file succeeds immediately with no writes; an empty parse
fails; otherwise the core pipeline runs. -/
def processSqlFile (content : String) (parsed : List (Option PStmt))
    (facts : List Fact) (sql_file_path script_id : String) (db : DB)
    (fs : Option GlobalGraph) : (Bool × String) × DB × Option GlobalGraph :=
  if pyStrip content = "" then ((true, ""), db, fs)
  else if parsed.isEmpty then ((false, "no SQL statements parsed"), db, fs)
  else
    match processScriptCore db fs sql_file_path script_id facts parsed content with
    | (.ok _, db2, fs2) => ((true, ""), db2, fs2)
    | (.error e, db2, fs2) => ((false, e), db2, fs2)

/-! ## Lemmas about the conflict strategy table -/

theorem lookupA_mem {κ ρ : Type} [DecidableEq κ] {l : List (κ × ρ)} {q : κ}
    {v : ρ} (h : lookupA l q = some v) : (q, v) ∈ l := by
  induction l with
  | nil => simp [lookupA] at h
  | cons p rest ih =>
    obtain ⟨k, r⟩ := p
    simp only [lookupA] at h
    split at h
    · next heq =>
      cases h
      subst heq
      exact List.mem_cons_self _ _
    · exact List.mem_cons_of_mem _ (ih h)

theorem mergeStrategyDict_values (p : String × String) (v : String)
    (h : mergeStrategyDict p = some v) :
    v = "SUPPLEMENT_CHINESE_NAMES" ∨ v = "MERGE_INFO" := by
  have hm := List.mem_map_of_mem Prod.snd (lookupA_mem h)
  simp only [mergeStrategies, List.map_cons, List.map_nil, List.mem_cons,
    List.not_mem_nil, or_false] at hm
  tauto

theorem mergeStrategyDict_supplement (e n : String)
    (h : mergeStrategyDict (e, n) = some "SUPPLEMENT_CHINESE_NAMES") :
    e = "CREATE_TABLE_AS" ∨ e = "CREATE_VIEW" := by
  have hm := List.mem_map_of_mem (fun p => (p.1.1, p.2)) (lookupA_mem h)
  simp only [mergeStrategies, List.map_cons, List.map_nil, List.mem_cons,
    List.not_mem_nil, or_false, Prod.mk.injEq] at hm
  rcases hm with hm | hm | hm | hm | hm | hm | hm | hm | hm | hm | hm | hm |
    hm | hm | hm | hm | hm | hm | hm <;> simp_all

/-- The strategy is `ERROR` exactly for equal table-creation kinds. -/
theorem getConflictStrategy_error_iff (e n : String) :
    getConflictStrategy e n = "ERROR" ↔ (e ∈ ddlTypes ∧ n ∈ ddlTypes ∧ e = n) := by
  unfold getConflictStrategy
  by_cases h1 : e ∈ ddlTypes ∨ n ∈ ddlTypes
  · by_cases h2 : e ∈ ddlTypes ∧ n ∈ ddlTypes
    · by_cases h3 : e = n
      · simp [h1, h2, h3]
      · simp only [if_pos h1, if_pos h2, if_neg h3]
        constructor
        · intro h
          split at h <;> simp_all
        · rintro ⟨_, _, h⟩
          exact absurd h h3
    · simp only [if_pos h1, if_neg h2]
      constructor
      · intro h; simp_all
      · rintro ⟨hA, hB, _⟩; exact absurd ⟨hA, hB⟩ h2
  · simp only [if_neg h1]
    constructor
    · intro h
      cases hd : mergeStrategyDict (e, n) with
      | none => rw [hd] at h; simp at h
      | some v =>
        rw [hd] at h
        simp only [Option.getD_some] at h
        rcases mergeStrategyDict_values _ _ hd with hv | hv <;> simp_all
    · rintro ⟨hA, _, _⟩; exact absurd (Or.inl hA) h1

/-- The `SUPPLEMENT_CHINESE_NAMES` entries of the strategy dictionary are
dead: the first branch of `get_conflict_strategy` intercepts every pair
with a table-creation side. -/
theorem getConflictStrategy_ne_supplement (e n : String) :
    getConflictStrategy e n ≠ "SUPPLEMENT_CHINESE_NAMES" := by
  unfold getConflictStrategy
  by_cases h1 : e ∈ ddlTypes ∨ n ∈ ddlTypes
  · simp only [if_pos h1]
    intro h
    split at h <;> simp_all
    split at h <;> simp_all
  · simp only [if_neg h1]
    cases hd : mergeStrategyDict (e, n) with
    | none => simp
    | some v =>
      simp only [Option.getD_some]
      intro h
      subst h
      rcases mergeStrategyDict_supplement _ _ hd with hv | hv <;>
        exact h1 (Or.inl (by simp [ddlTypes, hv]))

/-- When neither side is a table-creation kind, the strategy is the
default merge. -/
theorem getConflictStrategy_merge (e n : String)
    (he : e ∉ ddlTypes) (hn : n ∉ ddlTypes) :
    getConflictStrategy e n = "MERGE_INFO" := by
  unfold getConflictStrategy
  have h1 : ¬(e ∈ ddlTypes ∨ n ∈ ddlTypes) := by
    rintro (h | h) <;> [exact he h; exact hn h]
  simp only [if_neg h1]
  cases hd : mergeStrategyDict (e, n) with
  | none => simp
  | some v =>
    simp only [Option.getD_some]
    rcases mergeStrategyDict_values _ _ hd with hv | hv
    · subst hv
      rcases mergeStrategyDict_supplement _ _ hd with h | h <;>
        exact absurd (by simp [ddlTypes, h]) he
    · exact hv

/-! ## Claims C1, C2, C8, C9 -/

/-- Claim C1: reconciling a newly consolidated record against a persisted
record of the same identity raises the conflict error exactly when both
statement kinds are the same table-creation kind; no other pair of
provenances makes the resolver raise. -/
theorem claim_C1_duplicate_definition_iff (db : DB) (td : TableData)
    (sid : Option String) :
    (∃ e, processTableData db td sid = .error e) ↔
      ∃ ex, lookupA db.tables (tidOf td sid) = some ex ∧
        ex.data_source ∈ ddlTypes ∧ td.data_source ∈ ddlTypes ∧
        ex.data_source = td.data_source := by
  constructor
  · rintro ⟨e, he⟩
    simp only [processTableData] at he
    split at he
    · rename_i ex hex
      split_ifs at he with hnew hold hs hk hsup <;>
        first
          | (rw [getConflictStrategy_error_iff] at hs
             exact ⟨ex, by simpa [tidOf] using hex, hs.1, hs.2.1, hs.2.2⟩)
          | exact absurd he (by simp)
    · exact absurd he (by simp)
  · rintro ⟨ex, hex, h1, h2, h3⟩
    have hnewExt : td.data_source ≠ "EXTERNAL" := by
      simp only [ddlTypes, List.mem_cons, List.not_mem_nil, or_false] at h2
      rcases h2 with h | h | h <;> simp [h]
    have holdExt : ex.data_source ≠ "EXTERNAL" := by
      simp only [ddlTypes, List.mem_cons, List.not_mem_nil, or_false] at h1
      rcases h1 with h | h | h <;> simp [h]
    have hs : getConflictStrategy ex.data_source td.data_source = "ERROR" :=
      (getConflictStrategy_error_iff _ _).mpr ⟨h1, h2, h3⟩
    simp only [tidOf] at hex
    simp only [processTableData, hex]
    simp [hnewExt, holdExt, hs]

/-- The persisted record used by the claim C2 divergence witness: a table
produced by a `CREATE TABLE` definition with one column `c1`. -/
def c2ExistingRow : TableRow :=
  { database_id := "s", schema_name := "s", table_name := "a"
    table_type := "TABLE", description := "", data_source := "CREATE_TABLE"
    script_id := some "" }

/-- The stored DDL column of the claim C2 witness. -/
def c2ExistingCol : ColumnRow :=
  { id := "s__a____c1", data_type := "INT", is_nullable := true
    default_value := "", is_primary_key := false, is_foreign_key := false
    description := "ddl-label", ordinal_position := some 1 }

/-- The store of the claim C2 witness. -/
def c2DB : DB :=
  { DB.empty with
    tables := [("s__a__", c2ExistingRow)]
    columns := [(("s__a__", "c1"), c2ExistingCol)] }

/-- The newly consolidated DML record of the claim C2 witness: an
`INSERT ... SELECT` contributing only the column `c2`. -/
def c2NewTD : TableData :=
  { schema_name := "s", table_name := "a", table_cn_name := ""
    table_type := "TABLE", data_source := "INSERT_SELECT"
    columns := [{ col_en_nm := some "c2", col_cn_nm := some "dml-label" }] }

/-- Claim C2 (divergence): for an existing DDL record and a new DML record
the resolver picks `KEEP_CREATE_TABLE` — the `SUPPLEMENT_CHINESE_NAMES`
entries of the strategy dictionary are unreachable — so the persisted DDL
definition is overwritten: its `data_source` becomes the DML kind, its DDL
column `c1` is deleted, and the DML column `c2` is inserted, contradicting
the spec's retain-and-supplement rule. -/
theorem claim_C2_ddl_vs_dml_overwrites :
    getConflictStrategy "CREATE_TABLE" "INSERT_SELECT" = "KEEP_CREATE_TABLE" ∧
    (∀ e n, getConflictStrategy e n ≠ "SUPPLEMENT_CHINESE_NAMES") ∧
    ((processTableData c2DB c2NewTD (some "script1")).toOption.map
        (fun d =>
          (lookupA d.columns ("s__a__", "c1"),
            (lookupA d.tables "s__a__").map TableRow.data_source,
            (lookupA d.columns ("s__a__", "c2")).isSome)))
      = some (none, some "INSERT_SELECT", true) :=
  ⟨by decide, getConflictStrategy_ne_supplement, by decide⟩

/-- The insert statement refuting claim C8: a query body but no explicit
target column list. -/
def c8Insert : InsertShape := { hasColumnSchema := false, expr := some .selectE }

/-- Claim C8 (counterexample): an insert with an attached `SELECT` body but
no explicit target column list is classified `INSERT_SELECT`, refuting the
claimed iff with "has both an explicit target column list and an attached
query body". -/
theorem claim_C8_counterexample :
    ¬ (classifyStatementType (.insertStmt c8Insert) = "INSERT_SELECT" ↔
        (c8Insert.hasColumnSchema = true ∧ c8Insert.expr = some .selectE)) := by
  decide

/-- Claim C8 (amended): the classifier returns `INSERT_SELECT` iff the
insert's attached expression is a `SELECT` body; the explicit target column
list is not consulted; otherwise it returns `INSERT_VALUES`. -/
theorem claim_C8_amended (s : InsertShape) :
    (classifyStatementType (.insertStmt s) = "INSERT_SELECT" ↔
        s.expr = some .selectE) ∧
    (classifyStatementType (.insertStmt s) = "INSERT_SELECT" ∨
        classifyStatementType (.insertStmt s) = "INSERT_VALUES") := by
  obtain ⟨b, e⟩ := s
  cases b <;> rcases e with _ | k <;> first
    | decide
    | (cases k <;> decide)

/-- Claim C9: when both the existing record and the new record are
`EXTERNAL`, the resolver skips the new record — the skip rule precedes the
overwrite rule — leaving the store unchanged. -/
theorem claim_C9_external_skip (db : DB) (td : TableData) (sid : Option String)
    (ex : TableRow) (hex : lookupA db.tables (tidOf td sid) = some ex)
    (hold : ex.data_source = "EXTERNAL") (hnew : td.data_source = "EXTERNAL") :
    processTableData db td sid = .ok db := by
  simp only [tidOf] at hex
  simp only [processTableData, hex]
  simp [hnew]

/-- The existing `EXTERNAL` placeholder row of the claim C9 witness. -/
def c9Row : TableRow :=
  { database_id := "w", schema_name := "w", table_name := "t"
    table_type := "TABLE", description := "", data_source := "EXTERNAL"
    script_id := some "" }

/-- The store of the claim C9 witness. -/
def c9DB : DB := { DB.empty with tables := [("w__t__", c9Row)] }

/-- The new `EXTERNAL` record of the claim C9 witness. -/
def c9TD : TableData :=
  { schema_name := "w", table_name := "t", table_cn_name := ""
    table_type := "TABLE", data_source := "EXTERNAL", columns := [] }

/-- Witness for claim C9 at a concrete store. -/
theorem claim_C9_external_skip_witness :
    processTableData c9DB c9TD none = .ok c9DB :=
  claim_C9_external_skip c9DB c9TD none c9Row (by decide) (by decide) (by decide)

/-! ## Claim C4 -/

/-- Claim C4: the target set is the in-degree-positive non-temp nodes when
that set is non-empty, otherwise the out-degree-0 nodes; an empty result
fails the script with `NoTargetIdentified`; the source set is always the
in-degree-0 nodes. -/
theorem claim_C4_targets_and_sources (g : DepGraph) (n : String) :
    (n ∈ (identifyTargetAndSourceTables g).2 ↔ n ∈ g.nodes ∧ inDegree g n = 0) ∧
    ((∃ m ∈ g.nodes, 0 < inDegree g m ∧ isTempTable m = false) →
      (n ∈ (identifyTargetAndSourceTables g).1 ↔
        n ∈ g.nodes ∧ 0 < inDegree g n ∧ isTempTable n = false)) ∧
    ((¬ ∃ m ∈ g.nodes, 0 < inDegree g m ∧ isTempTable m = false) →
      (n ∈ (identifyTargetAndSourceTables g).1 ↔
        n ∈ g.nodes ∧ outDegree g n = 0)) ∧
    ((identifyTargetAndSourceTables g).1 = [] →
      checkTargets g = .error "NoTargetIdentified") ∧
    ((identifyTargetAndSourceTables g).1 ≠ [] → ∃ p, checkTargets g = .ok p) := by
  have hs1 : ∀ x,
      (x ∈ g.nodes.filter fun m => decide (0 < inDegree g m) && !isTempTable m) ↔
        (x ∈ g.nodes ∧ 0 < inDegree g x ∧ isTempTable x = false) := by
    intro x
    simp [List.mem_filter, and_assoc]
  refine ⟨?_, ?_, ?_, ?_, ?_⟩
  · simp [identifyTargetAndSourceTables, List.mem_filter]
  · rintro ⟨m, hm, hdeg, htmp⟩
    have hne : (g.nodes.filter fun m => decide (0 < inDegree g m) && !isTempTable m) ≠ [] := by
      intro hnil
      have := (hs1 m).mpr ⟨hm, hdeg, htmp⟩
      rw [hnil] at this
      simp at this
    have : (g.nodes.filter fun m => decide (0 < inDegree g m) && !isTempTable m).isEmpty
        = false := by
      cases hcase : g.nodes.filter fun m => decide (0 < inDegree g m) && !isTempTable m
      · exact absurd hcase hne
      · simp
    simp only [identifyTargetAndSourceTables, this, Bool.false_eq_true, if_false]
    exact hs1 n
  · intro hno
    have hnil : (g.nodes.filter fun m => decide (0 < inDegree g m) && !isTempTable m) = [] := by
      rcases hcase : g.nodes.filter fun m => decide (0 < inDegree g m) && !isTempTable m with
        _ | ⟨x, rest⟩
      · rfl
      · exfalso
        have hx : x ∈ g.nodes.filter fun m => decide (0 < inDegree g m) && !isTempTable m := by
          rw [hcase]; exact List.mem_cons_self _ _
        exact hno ⟨x, ((hs1 x).mp hx).1, ((hs1 x).mp hx).2.1, ((hs1 x).mp hx).2.2⟩
    simp only [identifyTargetAndSourceTables, hnil, List.isEmpty_nil, if_true,
      List.mem_filter]
    simp
  · intro h
    simp [checkTargets, h]
  · intro h
    have : (identifyTargetAndSourceTables g).1.length ≠ 0 := by
      simpa [List.length_eq_zero] using h
    simp [checkTargets, this]

/-- A two-node dependency graph with one edge, for the claim C4 witness. -/
def c4G : DepGraph := { nodes := ["s.a", "s.b"], edges := [("s.b", "s.a")] }

/-- A temp-only cycle: no identifiable target, for the claim C4 witness. -/
def c4GNoTarget : DepGraph :=
  { nodes := ["VT_X", "VT_Y"], edges := [("VT_X", "VT_Y"), ("VT_Y", "VT_X")] }

/-- Witness for claim C4: on a concrete graph the rules produce the
expected target and source, and a temp-only cycle fails with
`NoTargetIdentified`. -/
theorem claim_C4_targets_and_sources_witness :
    "s.a" ∈ (identifyTargetAndSourceTables c4G).1 ∧
    "s.b" ∈ (identifyTargetAndSourceTables c4G).2 ∧
    checkTargets c4GNoTarget = .error "NoTargetIdentified" :=
  ⟨((claim_C4_targets_and_sources c4G "s.a").2.1
      ⟨"s.a", by decide, by decide, by decide⟩).mpr ⟨by decide, by decide, by decide⟩,
   (claim_C4_targets_and_sources c4G "s.b").1.mpr ⟨by decide, by decide⟩,
   (claim_C4_targets_and_sources c4GNoTarget "VT_X").2.2.2.1 (by decide)⟩

/-! ## Association-list lemmas -/

theorem lookupA_setA_self {κ ρ : Type} [DecidableEq κ] (l : List (κ × ρ)) (k : κ)
    (v : ρ) : lookupA (setA l k v) k = some v := by
  induction l with
  | nil => simp [setA, lookupA]
  | cons p rest ih =>
    obtain ⟨k', r⟩ := p
    by_cases h : k' = k
    · simp [setA, h, lookupA]
    · simp [setA, h, lookupA, ih]

theorem lookupA_setA_ne {κ ρ : Type} [DecidableEq κ] (l : List (κ × ρ)) (k q : κ)
    (v : ρ) (h : k ≠ q) : lookupA (setA l k v) q = lookupA l q := by
  induction l with
  | nil => simp [setA, lookupA, h]
  | cons p rest ih =>
    obtain ⟨k', r⟩ := p
    by_cases h' : k' = k
    · subst h'
      simp [setA, lookupA, h]
    · simp only [setA, if_neg h', lookupA]
      by_cases h'' : k' = q
      · simp [h'']
      · simp [h'', ih]

theorem lookupA_append_of_some {κ ρ : Type} [DecidableEq κ] {l : List (κ × ρ)}
    (b : List (κ × ρ)) {k : κ} {v : ρ} (h : lookupA l k = some v) :
    lookupA (l ++ b) k = some v := by
  induction l with
  | nil => simp [lookupA] at h
  | cons p rest ih =>
    obtain ⟨k', r⟩ := p
    simp only [lookupA, List.cons_append] at h ⊢
    split at h
    · next heq => simpa [heq] using h
    · next heq => simp only [if_neg heq]; exact ih h

/-- The source-table pass of `_consolidate_metadata` only appends missing
keys, so it preserves every present binding. -/
theorem consolidateStep_sources_preserve (sts : List TableRefFact)
    (acc : List (TKey × TableData)) (k : TKey) (v : TableData)
    (h : lookupA acc k = some v) :
    lookupA
      (sts.foldl
        (fun a st =>
          if st.tbl_en_nm = "" then a
          else
            let kk : TKey := (st.schema_nm, st.tbl_en_nm)
            match lookupA a kk with
            | some _ => a
            | none =>
              a ++ [(kk,
                { schema_name := st.schema_nm
                  table_name := st.tbl_en_nm
                  table_cn_name := ""
                  table_type := "TABLE"
                  data_source := "EXTERNAL"
                  columns := [] })])
        acc) k = some v := by
  induction sts generalizing acc with
  | nil => simpa [lookupA]
  | cons st rest ih =>
    simp only [List.foldl_cons]
    by_cases h1 : st.tbl_en_nm = ""
    · rw [if_pos h1]; exact ih acc h
    · rw [if_neg h1]
      cases h2 : lookupA acc (st.schema_nm, st.tbl_en_nm) with
      | some w => simpa [h2] using ih acc h
      | none =>
        simp only [h2]
        exact ih _ (lookupA_append_of_some _ h)

/-! ## Claim C6 -/

/-- `PreservesTruthyFields c c'` : every field of `c` whose value is truthy
has the same value in `c'` (nothing non-empty was overwritten). -/
def PreservesTruthyFields (c c' : ColInfo) : Prop :=
  (truthyI c.col_no = true → c'.col_no = c.col_no) ∧
  (truthyS c.col_en_nm = true → c'.col_en_nm = c.col_en_nm) ∧
  (truthyS c.col_cn_nm = true → c'.col_cn_nm = c.col_cn_nm) ∧
  (truthyS c.data_type = true → c'.data_type = c.data_type) ∧
  (truthyB c.is_null = true → c'.is_null = c.is_null) ∧
  (truthyS c.default_value = true → c'.default_value = c.default_value) ∧
  (truthyB c.is_pri_key = true → c'.is_pri_key = c.is_pri_key) ∧
  (truthyB c.is_foreign_key = true → c'.is_foreign_key = c.is_foreign_key)

theorem preservesTruthyFields_refl (c : ColInfo) : PreservesTruthyFields c c :=
  ⟨fun _ => rfl, fun _ => rfl, fun _ => rfl, fun _ => rfl, fun _ => rfl,
   fun _ => rfl, fun _ => rfl, fun _ => rfl⟩

theorem preservesTruthyFields_trans {a b c : ColInfo}
    (h1 : PreservesTruthyFields a b) (h2 : PreservesTruthyFields b c) :
    PreservesTruthyFields a c := by
  obtain ⟨p1, p2, p3, p4, p5, p6, p7, p8⟩ := h1
  obtain ⟨q1, q2, q3, q4, q5, q6, q7, q8⟩ := h2
  refine ⟨fun h => ?_, fun h => ?_, fun h => ?_, fun h => ?_, fun h => ?_,
    fun h => ?_, fun h => ?_, fun h => ?_⟩
  · rw [q1 (by rw [p1 h]; exact h), p1 h]
  · rw [q2 (by rw [p2 h]; exact h), p2 h]
  · rw [q3 (by rw [p3 h]; exact h), p3 h]
  · rw [q4 (by rw [p4 h]; exact h), p4 h]
  · rw [q5 (by rw [p5 h]; exact h), p5 h]
  · rw [q6 (by rw [p6 h]; exact h), p6 h]
  · rw [q7 (by rw [p7 h]; exact h), p7 h]
  · rw [q8 (by rw [p8 h]; exact h), p8 h]

theorem dmlFieldS_preserves (ex new : Option String) (h : truthyS ex = true) :
    dmlFieldS ex new = ex := by
  unfold dmlFieldS
  cases new with
  | none => rfl
  | some v => simp [h]

theorem dmlFieldI_preserves (ex new : Option Int) (h : truthyI ex = true) :
    dmlFieldI ex new = ex := by
  unfold dmlFieldI
  cases new with
  | none => rfl
  | some v => simp [h]

theorem dmlFieldB_preserves (ex new : Option Bool) (h : truthyB ex = true) :
    dmlFieldB ex new = ex := by
  unfold dmlFieldB
  cases new with
  | none => rfl
  | some v => simp [h]

/-- A DML-kind contribution never overwrites a truthy field of the
accumulated column. -/
theorem mergeColInto_dml_preserves (ex c : ColInfo) :
    PreservesTruthyFields ex (mergeColInto false ex c) := by
  unfold mergeColInto
  simp only [Bool.false_eq_true, if_false]
  exact ⟨fun h => dmlFieldI_preserves _ _ h, fun h => dmlFieldS_preserves _ _ h,
    fun h => dmlFieldS_preserves _ _ h, fun h => dmlFieldS_preserves _ _ h,
    fun h => dmlFieldB_preserves _ _ h, fun h => dmlFieldS_preserves _ _ h,
    fun h => dmlFieldB_preserves _ _ h, fun h => dmlFieldB_preserves _ _ h⟩

/-- The merged column keeps its (matched) English name. -/
theorem mergeColInto_dml_name (ex c : ColInfo) (h : ex.col_en_nm = c.col_en_nm) :
    (mergeColInto false ex c).col_en_nm = ex.col_en_nm := by
  unfold mergeColInto
  simp only [Bool.false_eq_true, if_false]
  unfold dmlFieldS
  rcases hc : c.col_en_nm with _ | v
  · rfl
  · rw [h, hc]
    simp [truthyS]

theorem mergeColList_dml_preserves (cols : List ColInfo) (newc : ColInfo)
    (c : ColInfo) (hc : c ∈ cols) :
    ∃ c' ∈ mergeColList false cols newc,
      c'.col_en_nm = c.col_en_nm ∧ PreservesTruthyFields c c' := by
  induction cols with
  | nil => cases hc
  | cons e rest ih =>
    by_cases h : e.col_en_nm = newc.col_en_nm
    · simp only [mergeColList, if_pos h]
      rcases List.mem_cons.mp hc with rfl | hmem
      · exact ⟨mergeColInto false c newc, List.mem_cons_self _ _,
          by rw [mergeColInto_dml_name c newc h], mergeColInto_dml_preserves c newc⟩
      · exact ⟨c, List.mem_cons_of_mem _ hmem, rfl, preservesTruthyFields_refl c⟩
    · simp only [mergeColList, if_neg h]
      rcases List.mem_cons.mp hc with rfl | hmem
      · exact ⟨c, List.mem_cons_self _ _, rfl, preservesTruthyFields_refl c⟩
      · obtain ⟨c', hc', hn, hp⟩ := ih hmem
        exact ⟨c', List.mem_cons_of_mem _ hc', hn, hp⟩

theorem foldl_mergeColList_dml_preserves (newcols : List ColInfo)
    (cols : List ColInfo) (c : ColInfo) (hc : c ∈ cols) :
    ∃ c' ∈ newcols.foldl (mergeColList false) cols,
      c'.col_en_nm = c.col_en_nm ∧ PreservesTruthyFields c c' := by
  induction newcols generalizing cols c with
  | nil => exact ⟨c, hc, rfl, preservesTruthyFields_refl c⟩
  | cons nc rest ih =>
    simp only [List.foldl_cons]
    obtain ⟨c1, hc1, hn1, hp1⟩ := mergeColList_dml_preserves cols nc c hc
    obtain ⟨c2, hc2, hn2, hp2⟩ := ih _ c1 hc1
    exact ⟨c2, hc2, by rw [hn2, hn1], preservesTruthyFields_trans hp1 hp2⟩

/-- The fact records of the claim C6 counterexample: an insert contributes
the column `c` with the non-empty label `X`; a later `CREATE TABLE`
contributes the same column with the differing non-empty label `Y`. -/
def c6FactDml : Fact :=
  { target_table := { schema_nm := "s", tbl_en_nm := "a" }
    statement_type := "INSERT_VALUES"
    table_type := "TABLE"
    target_columns := [{ col_no := some 1, col_en_nm := some "c", col_cn_nm := some "X" }] }

/-- The later DDL fact of the claim C6 counterexample. -/
def c6FactDdl : Fact :=
  { target_table := { schema_nm := "s", tbl_en_nm := "a" }
    statement_type := "CREATE_TABLE"
    table_type := "TABLE"
    target_columns := [{ col_no := some 1, col_en_nm := some "c", col_cn_nm := some "Y" }] }

/-- Claim C6 (counterexample): within one consolidation pass the
accumulated column `c` of table `s.a` holds the non-empty label `X` after
the first statement, and the later `CREATE TABLE` contribution overwrites
it with the differing non-empty label `Y` — the claimed never-overwrite
rule fails when the later statement is a DDL kind. -/
theorem claim_C6_counterexample :
    ((lookupA (consolidateMetadata [c6FactDml]) ("s", "a")).map
        (fun td => td.columns.map ColInfo.col_cn_nm)) = some [some "X"] ∧
    ((lookupA (consolidateMetadata [c6FactDml, c6FactDdl]) ("s", "a")).map
        (fun td => td.columns.map ColInfo.col_cn_nm)) = some [some "Y"] := by
  decide

/-- Claim C6 (amended): within one consolidation pass, when the later
statement's kind is a DML kind (not a table-creation kind), a matching
contribution only fills currently-empty fields: every truthy field of an
already-accumulated column survives unchanged.  (A later DDL-kind
statement's truthy values do overwrite, as the counterexample shows.) -/
theorem claim_C6_amended (acc : List (TKey × TableData)) (m : Fact)
    (td : TableData) (c : ColInfo)
    (hdml : m.statement_type ∉ ddlTypes)
    (hnm : m.target_table.tbl_en_nm ≠ "")
    (htd : lookupA acc (m.target_table.schema_nm, m.target_table.tbl_en_nm) = some td)
    (hc : c ∈ td.columns) :
    ∃ td',
      lookupA (consolidateStep acc m)
          (m.target_table.schema_nm, m.target_table.tbl_en_nm) = some td' ∧
      ∃ c' ∈ td'.columns,
        c'.col_en_nm = c.col_en_nm ∧ PreservesTruthyFields c c' := by
  have hddl : decide (m.statement_type ∈ ddlTypes) = false := by
    simpa using hdml
  unfold consolidateStep
  simp only [if_neg hnm, htd, hddl]
  refine ⟨{ td with
      data_source := m.statement_type
      columns := m.target_columns.foldl (mergeColList false) td.columns }, ?_, ?_⟩
  · exact consolidateStep_sources_preserve _ _ _ _ (lookupA_setA_self _ _ _)
  · exact foldl_mergeColList_dml_preserves m.target_columns td.columns c hc

/-- The accumulated column of the claim C6 witness. -/
def c6X : ColInfo := { col_no := some 1, col_en_nm := some "c", col_cn_nm := some "X" }

/-- The accumulated record of the claim C6 witness. -/
def c6Td : TableData :=
  { schema_name := "s", table_name := "a", table_cn_name := ""
    table_type := "TABLE", data_source := "INSERT_VALUES", columns := [c6X] }

/-- The later DML fact of the claim C6 witness. -/
def c6UpdFact : Fact :=
  { target_table := { schema_nm := "s", tbl_en_nm := "a" }
    statement_type := "UPDATE"
    table_type := "TABLE"
    target_columns := [{ col_no := some 2, col_en_nm := some "c", col_cn_nm := some "Z" }] }

/-- Witness for claim C6 (amended) at a concrete consolidation state. -/
theorem claim_C6_amended_witness :
    ∃ td',
      lookupA (consolidateStep (consolidateMetadata [c6FactDml]) c6UpdFact)
          (c6UpdFact.target_table.schema_nm, c6UpdFact.target_table.tbl_en_nm)
        = some td' ∧
      ∃ c' ∈ td'.columns,
        c'.col_en_nm = c6X.col_en_nm ∧ PreservesTruthyFields c6X c' :=
  claim_C6_amended _ c6UpdFact c6Td c6X (by decide) (by decide) (by decide) (by decide)

/-! ## Claim C10 -/

/-- Claim C10: a file whose content is empty or whitespace-only succeeds
immediately with an empty error message, no store writes and no global
lineage update. -/
theorem claim_C10_empty_file (content : String) (parsed : List (Option PStmt))
    (facts : List Fact) (path sid : String) (db : DB) (fs : Option GlobalGraph)
    (h : pyStrip content = "") :
    processSqlFile content parsed facts path sid db fs = ((true, ""), db, fs) := by
  simp [processSqlFile, h]

/-- Witness for claim C10 on a whitespace-only file. -/
theorem claim_C10_empty_file_witness :
    processSqlFile "  \n\t " [] [] "dir/x.sql" "x" DB.empty none =
      ((true, ""), DB.empty, none) :=
  claim_C10_empty_file "  \n\t " [] [] "dir/x.sql" "x" DB.empty none (by decide)

/-! ## Claim C3: correctness of the summary derivation -/

/-- A simple path (no repeated node) of at most `cutoff` hops from `s` to
`t` in the detail graph: the specification-side path predicate. -/
def IsBoundedSimplePath (g : DetailGraph) (cutoff : Nat) (s t : String)
    (p : List String) : Prop :=
  p.head? = some s ∧ p.getLast? = some t ∧
  List.Chain' (fun a b => (a, b) ∈ g.edges) p ∧
  p.Nodup ∧ p.length ≤ cutoff + 1

theorem mem_succOf (g : DetailGraph) (u v : String) :
    v ∈ succOf g u ↔ (u, v) ∈ g.edges := by
  unfold succOf
  rw [List.mem_dedup, List.mem_map]
  constructor
  · rintro ⟨e, he, rfl⟩
    obtain ⟨hmem, heq⟩ := List.mem_filter.mp he
    have h1 : e.1 = u := by simpa using heq
    obtain ⟨a, b⟩ := e
    cases h1
    exact hmem
  · intro h
    exact ⟨(u, v), List.mem_filter.mpr ⟨h, by simp⟩, rfl⟩

/-- A nodup list whose head and last element coincide is a singleton. -/
theorem eq_singleton_of_head_getLast {p : List String} {a : String}
    (hn : p.Nodup) (hh : p.head? = some a) (hl : p.getLast? = some a) :
    p = [a] := by
  cases p with
  | nil => simp at hh
  | cons x q =>
    have hx : x = a := by simpa using hh
    subst hx
    cases q with
    | nil => rfl
    | cons y q' =>
      exfalso
      rw [List.getLast?_cons_cons] at hl
      have hmem : x ∈ (y :: q').getLast? := hl ▸ Option.mem_def.mpr rfl
      obtain ⟨hne, heq⟩ := List.mem_getLast?_eq_getLast hmem
      have : x ∈ y :: q' := heq ▸ List.getLast_mem hne
      exact (List.nodup_cons.mp hn).1 this

/-- Soundness and completeness of the bounded simple-path enumeration: a
path is produced exactly when it runs from `u` to `t` along the adjacency,
repeats no node, avoids `visited`, and has at most `fuel` hops. -/
theorem simplePathsAux_mem (adj : String → List String) (t : String) :
    ∀ (fuel : Nat) (u : String) (visited : List String), u ∉ visited →
      ∀ p, p ∈ simplePathsAux adj t fuel u visited ↔
        (p.head? = some u ∧ p.getLast? = some t ∧
         List.Chain' (fun a b => b ∈ adj a) p ∧ p.Nodup ∧
         (∀ x ∈ p, x ∉ visited) ∧ p.length ≤ fuel + 1) := by
  intro fuel
  induction fuel with
  | zero =>
    intro u visited hu p
    by_cases hut : u = t
    · subst hut
      have hred : simplePathsAux adj u 0 u visited = [[u]] := by
        simp [simplePathsAux]
      rw [hred, List.mem_singleton]
      constructor
      · rintro rfl
        refine ⟨rfl, rfl, ?_, ?_, ?_, ?_⟩ <;> simp [hu]
      · rintro ⟨hh, _, _, _, _, hlen⟩
        cases p with
        | nil => simp at hh
        | cons x q =>
          cases q with
          | nil =>
            have : x = u := by simpa using hh
            rw [this]
          | cons y q' => simp at hlen
    · simp only [simplePathsAux, if_neg hut, List.not_mem_nil, false_iff]
      rintro ⟨hh, hl, _, _, _, hlen⟩
      cases p with
      | nil => simp at hh
      | cons x q =>
        cases q with
        | nil =>
          have hx : x = u := by simpa using hh
          have hx' : x = t := by simpa using hl
          exact hut (hx ▸ hx' ▸ rfl)
        | cons y q' => simp at hlen
  | succ f ih =>
    intro u visited hu p
    by_cases hut : u = t
    · subst hut
      have hred : simplePathsAux adj u (f + 1) u visited = [[u]] := by
        simp [simplePathsAux]
      rw [hred, List.mem_singleton]
      constructor
      · rintro rfl
        refine ⟨rfl, rfl, ?_, ?_, ?_, ?_⟩ <;> simp [hu]
      · rintro ⟨hh, hl, _, hn, _, _⟩
        exact eq_singleton_of_head_getLast hn hh hl
    · simp only [simplePathsAux, if_neg hut]
      rw [List.mem_flatMap]
      constructor
      · rintro ⟨v, hv, hpv⟩
        by_cases hvv : v ∈ u :: visited
        · rw [if_pos hvv] at hpv
          simp at hpv
        · rw [if_neg hvv, List.mem_map] at hpv
          obtain ⟨q, hq, rfl⟩ := hpv
          obtain ⟨hqh, hql, hqc, hqn, hqv, hqlen⟩ :=
            (ih v (u :: visited) hvv q).mp hq
          have hqne : q ≠ [] := by
            rintro rfl
            simp at hqh
          refine ⟨rfl, ?_, ?_, ?_, ?_, ?_⟩
          · cases q with
            | nil => exact absurd rfl hqne
            | cons y q' => rw [List.getLast?_cons_cons]; exact hql
          · rw [List.chain'_cons']
            refine ⟨?_, hqc⟩
            intro y hy
            rw [hqh] at hy
            cases hy
            exact hv
          · rw [List.nodup_cons]
            refine ⟨?_, hqn⟩
            intro hmem
            exact (hqv u hmem) (List.mem_cons_self _ _)
          · intro x hx
            rcases List.mem_cons.mp hx with rfl | hmm
            · exact hu
            · exact fun hvis => (hqv x hmm) (List.mem_cons_of_mem _ hvis)
          · simpa [List.length_cons] using Nat.succ_le_succ hqlen
      · rintro ⟨hh, hl, hc, hn, hvis, hlen⟩
        cases p with
        | nil => simp at hh
        | cons x q =>
          have hx : x = u := by simpa using hh
          subst hx
          cases q with
          | nil =>
            exfalso
            exact hut (by simpa using hl)
          | cons v q' =>
            refine ⟨v, (List.chain'_cons.mp hc).1, ?_⟩
            have hvnotin : v ∉ x :: visited := by
              intro hmem
              rcases List.mem_cons.mp hmem with rfl | hmm
              · exact (List.nodup_cons.mp hn).1 (List.mem_cons_self _ _)
              · exact hvis v (by simp) hmm
            rw [if_neg hvnotin, List.mem_map]
            refine ⟨v :: q', ?_, rfl⟩
            rw [ih v (x :: visited) hvnotin]
            refine ⟨rfl, ?_, (List.chain'_cons.mp hc).2, (List.nodup_cons.mp hn).2,
              ?_, ?_⟩
            · rw [← List.getLast?_cons_cons (a := x)]
              exact hl
            · intro y hy
              intro hmem
              rcases List.mem_cons.mp hmem with rfl | hmm
              · exact (List.nodup_cons.mp hn).1 hy
              · exact hvis y (List.mem_cons_of_mem _ hy) hmm
            · simpa [List.length_cons] using Nat.le_of_succ_le_succ hlen

/-- `flatMap` of pairwise-disjoint nodup lists over a nodup list is nodup. -/
theorem nodup_flatMap_of {α β : Type} {l : List α} {f : α → List β}
    (h2 : ∀ x ∈ l, (f x).Nodup)
    (h3 : ∀ x ∈ l, ∀ y ∈ l, x ≠ y → ∀ b ∈ f x, b ∉ f y)
    (h1 : l.Nodup) : (l.flatMap f).Nodup := by
  induction l with
  | nil => simp
  | cons a as ih =>
    rw [List.flatMap_cons, List.nodup_append]
    obtain ⟨hna, hnas⟩ := List.nodup_cons.mp h1
    refine ⟨h2 a (List.mem_cons_self _ _), ?_, ?_⟩
    · exact ih (fun x hx => h2 x (List.mem_cons_of_mem _ hx))
        (fun x hx y hy => h3 x (List.mem_cons_of_mem _ hx) y (List.mem_cons_of_mem _ hy))
        hnas
    · intro b hba hbas
      rw [List.mem_flatMap] at hbas
      obtain ⟨x, hx, hbx⟩ := hbas
      have hax : a ≠ x := by
        rintro rfl
        exact hna hx
      exact h3 a (List.mem_cons_self _ _) x (List.mem_cons_of_mem _ hx) hax b hba hbx

/-- The enumeration lists each simple path exactly once. -/
theorem simplePathsAux_nodup (adj : String → List String)
    (hadj : ∀ u, (adj u).Nodup) (t : String) :
    ∀ (fuel : Nat) (u : String) (visited : List String),
      (simplePathsAux adj t fuel u visited).Nodup := by
  intro fuel
  induction fuel with
  | zero =>
    intro u visited
    by_cases hut : u = t <;> simp [simplePathsAux, hut]
  | succ f ih =>
    intro u visited
    by_cases hut : u = t
    · simp [simplePathsAux, hut]
    · simp only [simplePathsAux, if_neg hut]
      refine nodup_flatMap_of ?_ ?_ (hadj u)
      · intro v _
        by_cases hvv : v ∈ u :: visited
        · rw [if_pos hvv]
          simp
        · rw [if_neg hvv]
          exact (ih v (u :: visited)).map List.cons_injective
      · intro x hx y hy hxy b hbx hby
        by_cases hxx : x ∈ u :: visited
        · rw [if_pos hxx] at hbx
          simp at hbx
        by_cases hyy : y ∈ u :: visited
        · rw [if_pos hyy] at hby
          simp at hby
        rw [if_neg hxx, List.mem_map] at hbx
        rw [if_neg hyy, List.mem_map] at hby
        obtain ⟨qx, hqx, rfl⟩ := hbx
        obtain ⟨qy, hqy, heq⟩ := hby
        have hq : qy = qx := by injection heq
        subst hq
        have h1 := ((simplePathsAux_mem adj t f x (u :: visited) hxx qy).mp hqx).1
        have h2 := ((simplePathsAux_mem adj t f y (u :: visited) hyy qy).mp hqy).1
        rw [h1] at h2
        exact hxy (by injection h2)

/-- The enumeration used by the summary deriver produces exactly the
bounded simple paths. -/
theorem allSimplePaths_mem (g : DetailGraph) (s t : String) (cutoff : Nat)
    (p : List String) :
    p ∈ allSimplePaths g s t cutoff ↔ IsBoundedSimplePath g cutoff s t p := by
  unfold allSimplePaths IsBoundedSimplePath
  rw [simplePathsAux_mem (succOf g) t cutoff s [] (by simp) p]
  constructor
  · rintro ⟨h1, h2, h3, h4, _, h6⟩
    exact ⟨h1, h2, h3.imp (fun a b hab => (mem_succOf g a b).mp hab), h4, h6⟩
  · rintro ⟨h1, h2, h3, h4, h6⟩
    exact ⟨h1, h2, h3.imp (fun a b hab => (mem_succOf g a b).mpr hab), h4,
      by simp, h6⟩

theorem allSimplePaths_nodup (g : DetailGraph) (s t : String) (cutoff : Nat) :
    (allSimplePaths g s t cutoff).Nodup :=
  simplePathsAux_nodup (succOf g) (fun u => List.nodup_dedup _) t cutoff s []

theorem entityNodes_nodup (g : DetailGraph)
    (hnd : (g.nodes.map DetailNode.id).Nodup) : (entityNodes g).Nodup :=
  ((List.filter_sublist g.nodes).map DetailNode.id).nodup hnd

theorem countP_flatMap {α β : Type} (l : List α) (f : α → List β)
    (pr : β → Bool) :
    (l.flatMap f).countP pr = (l.map (fun a => (f a).countP pr)).sum := by
  induction l with
  | nil => simp
  | cons a as ih => simp [List.flatMap_cons, List.countP_append, ih]

theorem summaryEdgeFor_some {g : DetailGraph} {cutoff : Nat}
    {source target : String} {e : SummaryEdge}
    (h : summaryEdgeFor g cutoff source target = some e) :
    e.source = source ∧ e.target = target ∧
      e = { source := source, target := target
            path_count := (allSimplePaths g source target cutoff).length
            min_hop_count :=
              natListMin ((allSimplePaths g source target cutoff).map
                (fun p => p.length - 1))
            max_hop_count :=
              natListMax ((allSimplePaths g source target cutoff).map
                (fun p => p.length - 1)) } := by
  simp only [summaryEdgeFor] at h
  split_ifs at h with h1 h2
  cases h
  exact ⟨rfl, rfl, rfl⟩

theorem summaryEdgeFor_isSome (g : DetailGraph) (cutoff : Nat)
    (source target : String) (hne : source ≠ target) :
    (summaryEdgeFor g cutoff source target).isSome =
      !(allSimplePaths g source target cutoff).isEmpty := by
  unfold summaryEdgeFor
  rw [if_neg hne]
  by_cases h : (allSimplePaths g source target cutoff).isEmpty <;> simp [h]

theorem countP_filterMap_edges (g : DetailGraph) (cutoff : Nat) (s t : String)
    (ts : List String) (hnd : ts.Nodup) :
    (ts.filterMap (summaryEdgeFor g cutoff s)).countP
        (fun e => e.source == s && e.target == t) =
      if t ∈ ts then (if (summaryEdgeFor g cutoff s t).isSome then 1 else 0)
      else 0 := by
  induction ts with
  | nil => simp
  | cons a as ih =>
    obtain ⟨hna, hnas⟩ := List.nodup_cons.mp hnd
    rw [List.filterMap_cons]
    by_cases hat : a = t
    · subst hat
      cases hse : summaryEdgeFor g cutoff s a with
      | none =>
        simp only [hse]
        rw [ih hnas, if_neg hna]
        simp [hse]
      | some e =>
        obtain ⟨hes, het, _⟩ := summaryEdgeFor_some hse
        simp only [hse]
        rw [List.countP_cons, ih hnas, if_neg hna]
        simp [hes, het, hse]
    · cases hse : summaryEdgeFor g cutoff s a with
      | none =>
        simp only [hse]
        rw [ih hnas]
        simp [Ne.symm hat]
      | some e =>
        obtain ⟨hes, het, _⟩ := summaryEdgeFor_some hse
        simp only [hse]
        rw [List.countP_cons, ih hnas]
        have hpr : (e.source == s && e.target == t) = false := by
          rw [het]
          simp [hat]
        rw [hpr]
        simp [Ne.symm hat]

theorem map_sum_single (l : List String) (f : String → Nat) (s : String)
    (hnd : l.Nodup) (hs : s ∈ l) (hz : ∀ x ∈ l, x ≠ s → f x = 0) :
    (l.map f).sum = f s := by
  induction l with
  | nil => cases hs
  | cons a as ih =>
    obtain ⟨hna, hnas⟩ := List.nodup_cons.mp hnd
    rcases List.mem_cons.mp hs with rfl | hmem
    · simp only [List.map_cons, List.sum_cons]
      have hz' : (as.map f).sum = 0 := by
        apply List.sum_eq_zero
        intro x hx
        rw [List.mem_map] at hx
        obtain ⟨y, hy, rfl⟩ := hx
        exact hz y (List.mem_cons_of_mem _ hy) (fun he => hna (he ▸ hy))
      rw [hz']
      simp
    · have ha : f a = 0 := hz a (List.mem_cons_self _ _) (fun he => hna (he ▸ hmem))
      simp only [List.map_cons, List.sum_cons, ha, Nat.zero_add]
      exact ih hnas hmem (fun x hx => hz x (List.mem_cons_of_mem _ hx))

theorem countP_generateSummaryGraph (g : DetailGraph) (cutoff : Nat)
    (s t : String) (hnd : (entityNodes g).Nodup) (hs : s ∈ entityNodes g)
    (ht : t ∈ entityNodes g) :
    (generateSummaryGraph g cutoff).countP
        (fun e => e.source == s && e.target == t) =
      if (summaryEdgeFor g cutoff s t).isSome then 1 else 0 := by
  unfold generateSummaryGraph
  rw [countP_flatMap]
  rw [map_sum_single _ _ s hnd hs ?hz]
  · rw [countP_filterMap_edges g cutoff s t _ hnd, if_pos ht]
  case hz =>
    intro src hsrc hne
    rw [List.countP_eq_zero]
    intro e he
    rw [List.mem_filterMap] at he
    obtain ⟨tgt, _, hse⟩ := he
    obtain ⟨hes, _, _⟩ := summaryEdgeFor_some hse
    simp [hes, hne]

/-- Claim C3: for every ordered pair of distinct entity nodes, the summary
deriver emits exactly one edge iff at least one simple path of at most the
maximum path length exists (and none when no such path exists, without
error — the deriver is a total function); the edge's `path_count`,
`min_hop_count` and `max_hop_count` are the count, minimum and maximum hops
over the (duplicate-free) set of those simple paths. -/
theorem claim_C3_summary_paths (g : DetailGraph) (cutoff : Nat)
    (hnd : (g.nodes.map DetailNode.id).Nodup) (s t : String)
    (hs : s ∈ entityNodes g) (ht : t ∈ entityNodes g) (hne : s ≠ t) :
    ((∃ p, IsBoundedSimplePath g cutoff s t p) →
      (generateSummaryGraph g cutoff).countP
        (fun e => e.source == s && e.target == t) = 1) ∧
    ((¬∃ p, IsBoundedSimplePath g cutoff s t p) →
      (generateSummaryGraph g cutoff).countP
        (fun e => e.source == s && e.target == t) = 0) ∧
    (∀ e ∈ generateSummaryGraph g cutoff, e.source = s → e.target = t →
      ∃ L : List (List String), L.Nodup ∧
        (∀ p, p ∈ L ↔ IsBoundedSimplePath g cutoff s t p) ∧
        e.path_count = L.length ∧
        e.min_hop_count = natListMin (L.map (fun p => p.length - 1)) ∧
        e.max_hop_count = natListMax (L.map (fun p => p.length - 1))) := by
  have hend := entityNodes_nodup g hnd
  have hcount := countP_generateSummaryGraph g cutoff s t hend hs ht
  have hiff : allSimplePaths g s t cutoff ≠ [] ↔
      ∃ p, IsBoundedSimplePath g cutoff s t p := by
    constructor
    · intro hne'
      cases hl : allSimplePaths g s t cutoff with
      | nil => exact absurd hl hne'
      | cons p ps =>
        exact ⟨p, (allSimplePaths_mem g s t cutoff p).mp
          (by rw [hl]; exact List.mem_cons_self _ _)⟩
    · rintro ⟨p, hp⟩ hnil
      have hm := (allSimplePaths_mem g s t cutoff p).mpr hp
      rw [hnil] at hm
      cases hm
  refine ⟨?_, ?_, ?_⟩
  · intro hex
    rw [hcount, summaryEdgeFor_isSome g cutoff s t hne]
    cases hemp : (allSimplePaths g s t cutoff).isEmpty with
    | false => simp
    | true => exact absurd (List.isEmpty_iff.mp hemp) (hiff.mpr hex)
  · intro hnex
    rw [hcount, summaryEdgeFor_isSome g cutoff s t hne]
    cases hemp : (allSimplePaths g s t cutoff).isEmpty with
    | false =>
      exfalso
      apply hnex
      apply hiff.mp
      intro hnil
      rw [hnil] at hemp
      simp at hemp
    | true => simp
  · intro e he hes het
    rw [generateSummaryGraph, List.mem_flatMap] at he
    obtain ⟨src, hsrc, he2⟩ := he
    rw [List.mem_filterMap] at he2
    obtain ⟨tgt, htgt, hse⟩ := he2
    obtain ⟨h1, h2, h3⟩ := summaryEdgeFor_some hse
    have hsrc_s : src = s := by rw [← h1, hes]
    have htgt_t : tgt = t := by rw [← h2, het]
    subst hsrc_s
    subst htgt_t
    refine ⟨allSimplePaths g src tgt cutoff, allSimplePaths_nodup g src tgt cutoff,
      fun p => allSimplePaths_mem g src tgt cutoff p, ?_, ?_, ?_⟩ <;> rw [h3]

/-- The detail graph of the claim C3 witness: two entity tables joined
directly and through a temp table. -/
def c3G : DetailGraph :=
  { nodes := [{ id := "A", node_type := "TABLE" },
              { id := "T1", node_type := "TMP_TABLE" },
              { id := "B", node_type := "TABLE" }]
    edges := [("A", "T1"), ("T1", "B"), ("A", "B")] }

/-- Witness for claim C3: on a concrete detail graph the summary contains
exactly one `A -> B` edge. -/
theorem claim_C3_summary_paths_witness :
    (generateSummaryGraph c3G 20).countP
        (fun e => e.source == "A" && e.target == "B") = 1 :=
  (claim_C3_summary_paths c3G 20 (by decide) "A" "B" (by decide) (by decide)
      (by decide)).1 ⟨["A", "B"], by simp [IsBoundedSimplePath, c3G]⟩

/-! ## Claim C5 -/

/-- Claim C5: one script's processing is all-or-nothing.  On any error —
no extracted metadata, `NoTargetIdentified`, a `DuplicateDefinition`
conflict raised in the table phase, or a failure while persisting the
script — the returned store and the global lineage graph are exactly the
inputs (rollback / close-without-commit); on success the final state
carries the table phase, the script persistence and the global-lineage
update together. -/
theorem claim_C5_all_or_nothing (db : DB) (fs : Option GlobalGraph)
    (path sid : String) (facts : List Fact) (parsed : List (Option PStmt))
    (content : String) :
    (∀ e, (processScriptCore db fs path sid facts parsed content).1 = .error e →
      (processScriptCore db fs path sid facts parsed content).2.1 = db ∧
      (processScriptCore db fs path sid facts parsed content).2.2 = fs) ∧
    ((processScriptCore db fs path sid facts parsed content).1 = .ok () →
      ∃ db1 db2 ts,
        checkTargets (buildDependencyGraph facts) = .ok ts ∧
        tablePhase db (consolidateMetadata facts) sid = .ok db1 ∧
        populateScriptTables db1 content facts parsed sid = .ok db2 ∧
        (processScriptCore db fs path sid facts parsed content).2.1 = db2 ∧
        (processScriptCore db fs path sid facts parsed content).2.2 =
          updateGlobalLineage fs path ts.1 ts.2) := by
  by_cases hf : facts.isEmpty
  · constructor
    · intro e _
      constructor <;> simp [processScriptCore, hf]
    · intro h
      rw [processScriptCore, if_pos hf] at h
      cases h
  · cases hct : checkTargets (buildDependencyGraph facts) with
    | error e0 =>
      constructor
      · intro e _
        constructor <;> simp [processScriptCore, hf, hct]
      · intro h
        rw [processScriptCore, if_neg hf] at h
        simp only [hct] at h
        cases h
    | ok ts =>
      cases htp : tablePhase db (consolidateMetadata facts) sid with
      | error e0 =>
        constructor
        · intro e _
          constructor <;> simp [processScriptCore, hf, hct, htp]
        · intro h
          rw [processScriptCore, if_neg hf] at h
          simp only [hct, htp] at h
          cases h
      | ok db1 =>
        cases hpp : populateScriptTables db1 content facts parsed sid with
        | error e0 =>
          constructor
          · intro e _
            constructor <;> simp [processScriptCore, hf, hct, htp, hpp]
          · intro h
            rw [processScriptCore, if_neg hf] at h
            simp only [hct, htp, hpp] at h
            cases h
        | ok db2 =>
          constructor
          · intro e he
            rw [processScriptCore, if_neg hf] at he
            simp only [hct, htp, hpp] at he
            cases he
          · intro _
            exact ⟨db1, db2, ts, rfl, rfl, hpp,
              by simp [processScriptCore, hf, hct, htp, hpp],
              by simp [processScriptCore, hf, hct, htp, hpp]⟩

/-- The existing record of the claim C5 witness: table `s.a` already
defined by a `CREATE TABLE`. -/
def c5Row : TableRow :=
  { database_id := "s", schema_name := "s", table_name := "a"
    table_type := "TABLE", description := "", data_source := "CREATE_TABLE"
    script_id := some "" }

/-- The store of the claim C5 witness. -/
def c5DB : DB := { DB.empty with tables := [("s__a__", c5Row)] }

/-- The script of the claim C5 witness: a second `CREATE TABLE s.a` fed
from `s.b`, which raises `DuplicateDefinition` inside the transaction. -/
def c5Fact : Fact :=
  { target_table := { schema_nm := "s", tbl_en_nm := "a" }
    statement_type := "CREATE_TABLE"
    table_type := "TABLE"
    target_columns := [{ col_no := some 1, col_en_nm := some "c", col_cn_nm := some "X" }]
    source_tables := [{ schema_nm := "s", tbl_en_nm := "b" }] }

/-- Witness for claim C5: the duplicate-definition script leaves both the
store and the lineage graph untouched. -/
theorem claim_C5_all_or_nothing_witness :
    (processScriptCore c5DB none "d/s.sql" "s" [c5Fact]
        [some { ast := .create (some "TABLE") false, content := "CREATE" }]
        "CREATE").2.1 = c5DB ∧
    (processScriptCore c5DB none "d/s.sql" "s" [c5Fact]
        [some { ast := .create (some "TABLE") false, content := "CREATE" }]
        "CREATE").2.2 = none :=
  (claim_C5_all_or_nothing c5DB none "d/s.sql" "s" [c5Fact]
      [some { ast := .create (some "TABLE") false, content := "CREATE" }]
      "CREATE").1
    "table s.a conflict not allowed: CREATE_TABLE vs CREATE_TABLE" (by decide)

/-! ## Further association-list lemmas (towards claim C7) -/

theorem lookupA_updA_self {κ ρ : Type} [DecidableEq κ] (l : List (κ × ρ)) (q : κ)
    (f : ρ → ρ) : lookupA (updA l q f) q = (lookupA l q).map f := by
  induction l with
  | nil => rfl
  | cons p rest ih =>
    obtain ⟨k, r⟩ := p
    simp only [updA, List.map_cons] at ih ⊢
    by_cases h : k = q
    · have hg : (if (k, r).1 = q then ((k, r).1, f (k, r).2) else (k, r)) = (k, f r) := by
        simp [h]
      rw [hg]
      simp [lookupA, h]
    · have hg : (if (k, r).1 = q then ((k, r).1, f (k, r).2) else (k, r)) = (k, r) := by
        simp [h]
      rw [hg]
      simp [lookupA, h, ih]

theorem lookupA_updA_ne {κ ρ : Type} [DecidableEq κ] (l : List (κ × ρ)) (q k : κ)
    (f : ρ → ρ) (h : k ≠ q) : lookupA (updA l q f) k = lookupA l k := by
  induction l with
  | nil => rfl
  | cons p rest ih =>
    obtain ⟨k', r⟩ := p
    simp only [updA, List.map_cons] at ih ⊢
    by_cases h' : k' = q
    · have hg : (if (k', r).1 = q then ((k', r).1, f (k', r).2) else (k', r)) = (k', f r) := by
        simp [h']
      rw [hg]
      have hne : k' ≠ k := by rw [h']; exact Ne.symm h
      simp [lookupA, hne, ih]
    · have hg : (if (k', r).1 = q then ((k', r).1, f (k', r).2) else (k', r)) = (k', r) := by
        simp [h']
      rw [hg]
      by_cases h'' : k' = k
      · simp [lookupA, h'']
      · simp [lookupA, h'', ih]

theorem setA_setA {κ ρ : Type} [DecidableEq κ] (l : List (κ × ρ)) (k : κ)
    (v w : ρ) : setA (setA l k v) k w = setA l k w := by
  induction l with
  | nil => simp [setA]
  | cons p rest ih =>
    obtain ⟨k', r⟩ := p
    by_cases h : k' = k
    · simp [setA, h]
    · simp [setA, h, ih]

theorem mem_setA {κ ρ : Type} [DecidableEq κ] {l : List (κ × ρ)} {k : κ} {v : ρ}
    {p : κ × ρ} (h : p ∈ setA l k v) : p ∈ l ∨ p = (k, v) := by
  induction l with
  | nil => simpa [setA] using h
  | cons q rest ih =>
    obtain ⟨k', r⟩ := q
    by_cases h' : k' = k
    · rw [setA, if_pos h'] at h
      rcases List.mem_cons.mp h with rfl | hm
      · exact Or.inr rfl
      · exact Or.inl (List.mem_cons_of_mem _ hm)
    · rw [setA, if_neg h'] at h
      rcases List.mem_cons.mp h with rfl | hm
      · exact Or.inl (List.mem_cons_self _ _)
      · rcases ih hm with hm' | hm'
        · exact Or.inl (List.mem_cons_of_mem _ hm')
        · exact Or.inr hm'

theorem lookupA_eq_none_iff {κ ρ : Type} [DecidableEq κ] (l : List (κ × ρ))
    (k : κ) : lookupA l k = none ↔ ∀ p ∈ l, p.1 ≠ k := by
  induction l with
  | nil => simp [lookupA]
  | cons p rest ih =>
    obtain ⟨k', r⟩ := p
    by_cases h : k' = k
    · simp [lookupA, h]
    · simp [lookupA, h, ih]

/-- Inserting rows whose keys are absent from a leading segment leaves the
segment untouched. -/
theorem setA_append_of_absent {κ ρ : Type} [DecidableEq κ] (B M : List (κ × ρ))
    (k : κ) (v : ρ) (h : ∀ p ∈ B, p.1 ≠ k) :
    setA (B ++ M) k v = B ++ setA M k v := by
  induction B with
  | nil => simp
  | cons p rest ih =>
    obtain ⟨k', r⟩ := p
    have hk : k' ≠ k := h (k', r) (List.mem_cons_self _ _)
    simp only [List.cons_append, setA, if_neg hk, List.append_eq]
    rw [ih (fun q hq => h q (List.mem_cons_of_mem _ hq))]

theorem insertListA_append_of_absent {κ ρ : Type} [DecidableEq κ]
    (B M rows : List (κ × ρ)) (h : ∀ q ∈ rows, ∀ p ∈ B, p.1 ≠ q.1) :
    insertListA (B ++ M) rows = B ++ insertListA M rows := by
  induction rows generalizing M with
  | nil => simp [insertListA]
  | cons q rest ih =>
    simp only [insertListA, List.foldl_cons]
    rw [setA_append_of_absent B M q.1 q.2
      (fun p hp => h q (List.mem_cons_self _ _) p hp)]
    exact ih (setA M q.1 q.2) (fun q' hq' p hp => h q' (List.mem_cons_of_mem _ hq') p hp)

theorem insertListA_eq_append {κ ρ : Type} [DecidableEq κ]
    (B rows : List (κ × ρ)) (h : ∀ q ∈ rows, ∀ p ∈ B, p.1 ≠ q.1) :
    insertListA B rows = B ++ insertListA [] rows := by
  have := insertListA_append_of_absent B [] rows h
  simpa using this

theorem insertListA_append {κ ρ : Type} [DecidableEq κ] (l r1 r2 : List (κ × ρ)) :
    insertListA l (r1 ++ r2) = insertListA (insertListA l r1) r2 := by
  simp [insertListA, List.foldl_append]

theorem mem_insertListA {κ ρ : Type} [DecidableEq κ] {M rows : List (κ × ρ)}
    {p : κ × ρ} (h : p ∈ insertListA M rows) : p ∈ M ∨ p ∈ rows := by
  induction rows generalizing M with
  | nil => exact Or.inl (by simpa [insertListA] using h)
  | cons q rest ih =>
    simp only [insertListA, List.foldl_cons] at h
    rcases ih h with hm | hm
    · rcases mem_setA hm with hm' | hm'
      · exact Or.inl hm'
      · exact Or.inr (by rw [hm']; exact List.mem_cons_self _ _)
    · exact Or.inr (List.mem_cons_of_mem _ hm)

/-- Re-inserting a batch after deleting its script's rows restores the
stored list exactly, provided the base holds no rows of this script and no
rows at the batch's keys. -/
theorem insertListA_filter_restore {κ ρ : Type} [DecidableEq κ]
    (scrOf : ρ → String) (sid : String) (B rows : List (κ × ρ))
    (hB : ∀ p ∈ B, ¬(scrOf p.2 = sid))
    (hrows : ∀ q ∈ rows, scrOf q.2 = sid)
    (hkeys : ∀ q ∈ rows, ∀ p ∈ B, p.1 ≠ q.1) :
    (insertListA B rows).filter (fun p => !(scrOf p.2 = sid)) = B := by
  rw [insertListA_eq_append B rows hkeys, List.filter_append]
  have h1 : B.filter (fun p => !(scrOf p.2 = sid)) = B :=
    List.filter_eq_self.mpr (fun p hp => by simpa using hB p hp)
  have h2 : (insertListA [] rows).filter (fun p => !(scrOf p.2 = sid)) = [] := by
    rw [List.filter_eq_nil_iff]
    intro p hp
    rcases mem_insertListA hp with hm | hm
    · cases hm
    · simpa using hrows p hm
  rw [h1, h2, List.append_nil]

theorem foldl_id {α β : Type} (l : List α) (f : β → α → β) (b : β)
    (h : ∀ x ∈ l, ∀ d, f d x = d) : l.foldl f b = b := by
  induction l generalizing b with
  | nil => rfl
  | cons a as ih =>
    rw [List.foldl_cons, h a (List.mem_cons_self _ _) b]
    exact ih b (fun x hx d => h x (List.mem_cons_of_mem _ hx) d)

/-! ## Substring predicates (key-ownership hypotheses of claim C7) -/

/-- `sub` occurs as a contiguous segment of `l`. -/
def listContainsSub : List Char → List Char → Bool
  | [], sub => sub.isEmpty
  | l@(_ :: rest), sub => listStartsWith l sub || listContainsSub rest sub

/-- The substring test used by the claim C7 key-ownership hypotheses. -/
def strContainsSub (s sub : String) : Bool :=
  listContainsSub s.data sub.data

/-- Python `s.endswith(t)`. -/
def strEndsWith (s t : String) : Bool :=
  listStartsWith s.data.reverse t.data.reverse

theorem listStartsWith_append (x y : List Char) :
    listStartsWith (x ++ y) x = true := by
  induction x with
  | nil => cases y <;> rfl
  | cons a as ih => simpa [listStartsWith]

theorem listContainsSub_of_startsWith {l s : List Char}
    (h : listStartsWith l s = true) : listContainsSub l s = true := by
  cases l with
  | nil =>
    cases s with
    | nil => rfl
    | cons b bs => simp [listStartsWith] at h
  | cons a as => simp [listContainsSub, h]

theorem listContainsSub_append_right (a b s : List Char)
    (h : listContainsSub b s = true) : listContainsSub (a ++ b) s = true := by
  induction a with
  | nil => simpa
  | cons x xs ih =>
    simp only [List.cons_append, listContainsSub]
    rw [Bool.or_eq_true]
    exact Or.inr ih

theorem strContainsSub_append_right (a b sub : String)
    (h : strContainsSub b sub = true) : strContainsSub (a ++ b) sub = true := by
  unfold strContainsSub at h ⊢
  rw [String.data_append]
  exact listContainsSub_append_right a.data b.data sub.data h

theorem strContainsSub_of_startsWith (s sub t : String) (h : s = sub ++ t) :
    strContainsSub s sub = true := by
  subst h
  unfold strContainsSub
  rw [String.data_append]
  exact listContainsSub_of_startsWith (listStartsWith_append _ _)

theorem strEndsWith_append (a t : String) : strEndsWith (a ++ t) t = true := by
  unfold strEndsWith
  rw [String.data_append, List.reverse_append]
  exact listStartsWith_append _ _

theorem strAppend_assoc (a b c : String) : (a ++ b) ++ c = a ++ (b ++ c) := by
  cases a with
  | mk la =>
    cases b with
    | mk lb =>
      cases c with
      | mk lc =>
        show String.mk ((la ++ lb) ++ lc) = String.mk (la ++ (lb ++ lc))
        rw [List.append_assoc]

/-! ## Which store components each write path touches (towards claim C7) -/

theorem DB.ext' (a b : DB) (h1 : a.databases = b.databases) (h2 : a.tables = b.tables)
    (h3 : a.columns = b.columns) (h4 : a.sql_scripts = b.sql_scripts)
    (h5 : a.script_statements = b.script_statements)
    (h6 : a.data_lineage_detail = b.data_lineage_detail)
    (h7 : a.data_lineage_summary = b.data_lineage_summary) : a = b := by
  cases a
  cases b
  simp_all

/-- `a` agrees with `b` on every component except possibly `columns`. -/
def OnlyColumnsDiffer (a b : DB) : Prop :=
  a.databases = b.databases ∧ a.tables = b.tables ∧ a.sql_scripts = b.sql_scripts ∧
    a.script_statements = b.script_statements ∧
    a.data_lineage_detail = b.data_lineage_detail ∧
    a.data_lineage_summary = b.data_lineage_summary

/-- `a` agrees with `b` on every component except possibly `databases`,
`tables` and `columns` (the components the table phase may write). -/
def OnlyTCDiffer (a b : DB) : Prop :=
  a.sql_scripts = b.sql_scripts ∧ a.script_statements = b.script_statements ∧
    a.data_lineage_detail = b.data_lineage_detail ∧
    a.data_lineage_summary = b.data_lineage_summary

theorem onlyColumnsDiffer_refl (a : DB) : OnlyColumnsDiffer a a :=
  ⟨rfl, rfl, rfl, rfl, rfl, rfl⟩

theorem onlyColumnsDiffer_trans {a b c : DB} (h1 : OnlyColumnsDiffer a b)
    (h2 : OnlyColumnsDiffer b c) : OnlyColumnsDiffer a c := by
  obtain ⟨x1, x2, x3, x4, x5, x6⟩ := h1
  obtain ⟨y1, y2, y3, y4, y5, y6⟩ := h2
  exact ⟨x1.trans y1, x2.trans y2, x3.trans y3, x4.trans y4, x5.trans y5, x6.trans y6⟩

theorem onlyTCDiffer_refl (a : DB) : OnlyTCDiffer a a := ⟨rfl, rfl, rfl, rfl⟩

theorem onlyTCDiffer_trans {a b c : DB} (h1 : OnlyTCDiffer a b)
    (h2 : OnlyTCDiffer b c) : OnlyTCDiffer a c := by
  obtain ⟨x1, x2, x3, x4⟩ := h1
  obtain ⟨y1, y2, y3, y4⟩ := h2
  exact ⟨x1.trans y1, x2.trans y2, x3.trans y3, x4.trans y4⟩

theorem onlyTC_of_onlyColumns {a b : DB} (h : OnlyColumnsDiffer a b) :
    OnlyTCDiffer a b :=
  ⟨h.2.2.1, h.2.2.2.1, h.2.2.2.2.1, h.2.2.2.2.2⟩

theorem foldl_onlyColumns {α : Type} (l : List α) (f : DB → α → DB) (db : DB)
    (h : ∀ d x, OnlyColumnsDiffer (f d x) d) :
    OnlyColumnsDiffer (l.foldl f db) db := by
  induction l generalizing db with
  | nil => exact onlyColumnsDiffer_refl db
  | cons a as ih =>
    rw [List.foldl_cons]
    exact onlyColumnsDiffer_trans (ih (f db a)) (h db a)

theorem insertColumns_onlyColumns (db : DB) (table_id schema_name table_name : String)
    (cols : List ColInfo) (script_id : Option String) :
    OnlyColumnsDiffer (insertColumns db table_id schema_name table_name cols script_id) db := by
  apply foldl_onlyColumns
  intro d x
  rcases hn : x.col_en_nm with _ | nm
  · simp only [hn]
    exact onlyColumnsDiffer_refl d
  · simp only [hn]
    by_cases he : nm = ""
    · rw [if_pos he]
      exact onlyColumnsDiffer_refl d
    · rw [if_neg he]
      exact ⟨rfl, rfl, rfl, rfl, rfl, rfl⟩

theorem supplementChineseNamesOnly_onlyColumns (db : DB) (table_id : String)
    (td : TableData) :
    OnlyColumnsDiffer (supplementChineseNamesOnly db table_id td) db := by
  apply foldl_onlyColumns
  intro d x
  rcases hn : x.col_en_nm with _ | nm
  · simp only [hn]
    exact onlyColumnsDiffer_refl d
  · simp only [hn]
    split
    · split
      · exact ⟨rfl, rfl, rfl, rfl, rfl, rfl⟩
      · exact onlyColumnsDiffer_refl d
    · exact onlyColumnsDiffer_refl d

theorem insertSingleColumn_onlyColumns (db : DB) (table_id schema_name table_name : String)
    (col : ColInfo) (script_id : Option String) :
    OnlyColumnsDiffer (insertSingleColumn db table_id schema_name table_name col script_id) db :=
  ⟨rfl, rfl, rfl, rfl, rfl, rfl⟩

theorem mergeStatementInfo_onlyColumns (db : DB) (table_id : String)
    (td : TableData) (script_id : Option String) :
    OnlyColumnsDiffer (mergeStatementInfo db table_id td script_id) db := by
  apply foldl_onlyColumns
  intro d x
  dsimp only
  split
  · split
    · exact onlyColumnsDiffer_refl d
    · split
      · exact ⟨rfl, rfl, rfl, rfl, rfl, rfl⟩
      · exact onlyColumnsDiffer_refl d
  · exact insertSingleColumn_onlyColumns d table_id td.schema_name td.table_name x script_id

theorem insertNewTable_onlyTC (db : DB) (td : TableData) (current_sid : Option String) :
    OnlyTCDiffer (insertNewTable db td current_sid) db := by
  unfold insertNewTable
  refine onlyTCDiffer_trans (onlyTC_of_onlyColumns (insertColumns_onlyColumns _ _ _ _ _ _)) ?_
  by_cases hs : td.schema_name ≠ ""
  · rw [if_pos hs]
    rcases hl : lookupA db.databases td.schema_name with _ | v
    · simp only [hl]
      exact ⟨rfl, rfl, rfl, rfl⟩
    · simp only [hl]
      exact ⟨rfl, rfl, rfl, rfl⟩
  · rw [if_neg hs]
    exact ⟨rfl, rfl, rfl, rfl⟩

theorem updateTableWithStatement_onlyTC (db : DB) (table_id : String)
    (td : TableData) (script_id : Option String) (new_data_source : String) :
    OnlyTCDiffer (updateTableWithStatement db table_id td script_id new_data_source) db := by
  unfold updateTableWithStatement
  exact onlyTCDiffer_trans (onlyTC_of_onlyColumns (insertColumns_onlyColumns _ _ _ _ _ _))
    ⟨rfl, rfl, rfl, rfl⟩

theorem processTableData_onlyTC (db db' : DB) (td : TableData)
    (script_id : Option String) (h : processTableData db td script_id = .ok db') :
    OnlyTCDiffer db' db := by
  simp only [processTableData] at h
  split at h
  · split_ifs at h with h1 h2 h3 h4 h5 <;>
      first
        | exact Except.noConfusion h
        | (cases h
           first
             | exact onlyTCDiffer_refl _
             | exact updateTableWithStatement_onlyTC _ _ _ _ _
             | exact onlyTC_of_onlyColumns (supplementChineseNamesOnly_onlyColumns _ _ _)
             | exact onlyTC_of_onlyColumns (mergeStatementInfo_onlyColumns _ _ _ _))
  · cases h
    exact insertNewTable_onlyTC _ _ _

theorem tablePhase_onlyTC (tds : List (TKey × TableData)) (db db' : DB)
    (sid : String) (h : tablePhase db tds sid = .ok db') : OnlyTCDiffer db' db := by
  induction tds generalizing db with
  | nil =>
    simp only [tablePhase, List.foldlM_nil] at h
    cases h
    exact onlyTCDiffer_refl _
  | cons p rest ih =>
    simp only [tablePhase, List.foldlM_cons] at h
    rcases hp : processTableData db p.2 (some sid) with e | d1
    · rw [hp] at h
      exact Except.noConfusion h
    · rw [hp] at h
      exact onlyTCDiffer_trans (ih d1 h) (processTableData_onlyTC db d1 p.2 (some sid) hp)

/-! ## Structure of the populate phase (towards claim C7) -/

theorem cleanup_components (db : DB) (sid : String) :
    (cleanupScriptData db sid).databases = db.databases ∧
    (cleanupScriptData db sid).tables = db.tables ∧
    (cleanupScriptData db sid).columns = db.columns ∧
    (cleanupScriptData db sid).sql_scripts = db.sql_scripts := by
  unfold cleanupScriptData
  rcases lookupA db.sql_scripts sid with _ | r
  · exact ⟨rfl, rfl, rfl, rfl⟩
  · exact ⟨rfl, rfl, rfl, rfl⟩

theorem cleanup_sub (db : DB) (sid : String) :
    (∀ p ∈ (cleanupScriptData db sid).script_statements, p ∈ db.script_statements) ∧
    (∀ p ∈ (cleanupScriptData db sid).data_lineage_detail, p ∈ db.data_lineage_detail) ∧
    (∀ p ∈ (cleanupScriptData db sid).data_lineage_summary, p ∈ db.data_lineage_summary) := by
  unfold cleanupScriptData
  rcases lookupA db.sql_scripts sid with _ | r
  · exact ⟨fun p hp => hp, fun p hp => hp, fun p hp => hp⟩
  · exact ⟨fun p hp => List.mem_of_mem_filter hp, fun p hp => List.mem_of_mem_filter hp,
      fun p hp => List.mem_of_mem_filter hp⟩

theorem cleanup_clean (db : DB) (sid : String)
    (horph : lookupA db.sql_scripts sid = none →
      (∀ p ∈ db.script_statements, ¬(p.2.script_id = sid)) ∧
      (∀ p ∈ db.data_lineage_detail, ¬(p.2.script_id = sid)) ∧
      (∀ p ∈ db.data_lineage_summary, ¬(p.2.script_id = sid))) :
    (∀ p ∈ (cleanupScriptData db sid).script_statements, ¬(p.2.script_id = sid)) ∧
    (∀ p ∈ (cleanupScriptData db sid).data_lineage_detail, ¬(p.2.script_id = sid)) ∧
    (∀ p ∈ (cleanupScriptData db sid).data_lineage_summary, ¬(p.2.script_id = sid)) := by
  unfold cleanupScriptData
  rcases hl : lookupA db.sql_scripts sid with _ | r
  · exact horph hl
  · refine ⟨fun p hp => ?_, fun p hp => ?_, fun p hp => ?_⟩ <;>
      simpa using (List.of_mem_filter hp)

/-- The store state after the cleanup and the `sql_scripts` insert of
`_populate_script_tables`. -/
def populateS (db : DB) (content : String) (sid : String) : DB :=
  { cleanupScriptData db sid with
      sql_scripts := setA (cleanupScriptData db sid).sql_scripts sid
        { script_name := sid, script_content := content } }

/-- The store state after the statement rows are inserted, just before the
detail phase of `_populate_script_tables`. -/
def populateT (db : DB) (content : String) (facts : List Fact)
    (parsed : List (Option PStmt)) (sid : String) : DB :=
  { populateS db content sid with
      script_statements := insertListA (populateS db content sid).script_statements
        (computeStatementRows (populateS db content sid).tables facts sid parsed 1) }

theorem populate_unfold (db : DB) (content : String) (facts : List Fact)
    (parsed : List (Option PStmt)) (sid : String) :
    populateScriptTables db content facts parsed sid =
      match detailPhase sid (populateT db content facts parsed sid) facts 1 with
      | .error e => .error e
      | .ok d => .ok (generateLineageSummaryDB d sid) := rfl

theorem computeStatementRows_props (tables : List (String × TableRow))
    (facts : List Fact) (sid : String) (parsed : List (Option PStmt)) (idx : Nat) :
    ∀ p ∈ computeStatementRows tables facts sid parsed idx,
      p.2.script_id = sid ∧ strContainsSub p.1 (sid ++ "__STMT_") = true := by
  induction parsed generalizing idx with
  | nil =>
    intro p hp
    simp [computeStatementRows] at hp
  | cons o rest ih =>
    intro p hp
    cases o with
    | none => exact ih (idx + 1) p hp
    | some q =>
      rw [computeStatementRows] at hp
      rcases List.mem_cons.mp hp with rfl | hm
      · exact ⟨rfl, strContainsSub_of_startsWith _ _ (pad3 idx) rfl⟩
      · exact ih (idx + 1) p hm

theorem sourceFold_shape (sid stid tid : String) (sts : List TableRefFact)
    (db db' : DB) (h : sourceFold sid stid tid db sts = .ok db')
    (hstid : strContainsSub stid (sid ++ "__STMT_") = true) :
    ∃ rows, db' = { db with data_lineage_detail :=
        (insertListA db.data_lineage_detail rows) } ∧
      ∀ p ∈ rows, p.2.script_id = sid ∧ strContainsSub p.1 (sid ++ "__STMT_") = true := by
  induction sts generalizing db with
  | nil =>
    cases h
    exact ⟨[], by
      refine ⟨?_, by intro p hp; cases hp⟩
      show db' = { db' with data_lineage_detail := db'.data_lineage_detail }
      rfl⟩
  | cons st rest ih =>
    rw [sourceFold] at h
    by_cases he : st.tbl_en_nm = ""
    · rw [if_pos he] at h
      exact ih db h
    · rw [if_neg he] at h
      dsimp only at h
      split at h
      · exact Except.noConfusion h
      · rename_i source_table_id hsrc
        obtain ⟨rows', hshape, hprops⟩ := ih _ h
        refine ⟨(tid ++ "__" ++ source_table_id ++ "__" ++ stid,
          { target_table_id := tid, source_table_id := source_table_id
            script_id := sid, statement_id := stid }) :: rows', ?_, ?_⟩
        · exact hshape
        · intro p hp
          rcases List.mem_cons.mp hp with rfl | hm
          · exact ⟨rfl, strContainsSub_append_right _ _ _ hstid⟩
          · exact hprops p hm

theorem detailPhase_shape (sid : String) (facts : List Fact) (db db' : DB) (idx : Nat)
    (h : detailPhase sid db facts idx = .ok db') :
    ∃ rows, db' = { db with data_lineage_detail :=
        (insertListA db.data_lineage_detail rows) } ∧
      ∀ p ∈ rows, p.2.script_id = sid ∧ strContainsSub p.1 (sid ++ "__STMT_") = true := by
  induction facts generalizing db idx with
  | nil =>
    cases h
    exact ⟨[], by
      refine ⟨?_, by intro p hp; cases hp⟩
      show db' = { db' with data_lineage_detail := db'.data_lineage_detail }
      rfl⟩
  | cons f rest ih =>
    rw [detailPhase] at h
    by_cases he : f.target_table.tbl_en_nm = ""
    · rw [if_pos he] at h
      exact ih db (idx + 1) h
    · rw [if_neg he] at h
      dsimp only at h
      split at h
      · exact ih db (idx + 1) h
      · rename_i target_table_id htgt
        split at h
        · exact Except.noConfusion h
        · rename_i dmid hsf
          obtain ⟨rows1, hs1, hp1⟩ := sourceFold_shape sid (stmtId sid idx)
            target_table_id f.source_tables db dmid hsf
            (strContainsSub_of_startsWith _ _ (pad3 idx) rfl)
          obtain ⟨rows2, hs2, hp2⟩ := ih dmid (idx + 1) h
          refine ⟨rows1 ++ rows2, ?_, ?_⟩
          · rw [hs2, hs1, insertListA_append]
          · intro p hp
            rcases List.mem_append.mp hp with hm | hm
            · exact hp1 p hm
            · exact hp2 p hm

theorem summaryFold_shape (sid : String) (edges : List SummaryEdge) (db : DB) :
    ∃ rows,
      (edges.foldl
        (fun d e =>
          { d with data_lineage_summary :=
              (setA d.data_lineage_summary (e.target ++ "__" ++ e.source ++ "__" ++ sid)
                { target_table_id := e.target, source_table_id := e.source
                  script_id := sid }) })
        db) =
        { db with data_lineage_summary := (insertListA db.data_lineage_summary rows) } ∧
      ∀ p ∈ rows, p.2.script_id = sid ∧ strEndsWith p.1 ("__" ++ sid) = true := by
  induction edges generalizing db with
  | nil =>
    exact ⟨[], by
      refine ⟨?_, by intro p hp; cases hp⟩
      show db = { db with data_lineage_summary := db.data_lineage_summary }
      rfl⟩
  | cons e rest ih =>
    rw [List.foldl_cons]
    obtain ⟨rows', hshape, hprops⟩ := ih
      { db with data_lineage_summary :=
          (setA db.data_lineage_summary (e.target ++ "__" ++ e.source ++ "__" ++ sid)
            { target_table_id := e.target, source_table_id := e.source, script_id := sid }) }
    refine ⟨(e.target ++ "__" ++ e.source ++ "__" ++ sid,
      { target_table_id := e.target, source_table_id := e.source, script_id := sid }) :: rows',
      hshape, ?_⟩
    intro p hp
    rcases List.mem_cons.mp hp with rfl | hm
    · refine ⟨rfl, ?_⟩
      have hsplit : e.target ++ "__" ++ e.source ++ "__" ++ sid =
          (e.target ++ "__" ++ e.source) ++ ("__" ++ sid) := by
        rw [strAppend_assoc]
      rw [hsplit]
      exact strEndsWith_append _ _
    · exact hprops p hm

theorem generateLineageSummaryDB_shape (db : DB) (sid : String) :
    ∃ rows, generateLineageSummaryDB db sid =
      { db with data_lineage_summary :=
          (insertListA db.data_lineage_summary rows) } ∧
      ∀ p ∈ rows, p.2.script_id = sid ∧ strEndsWith p.1 ("__" ++ sid) = true := by
  obtain ⟨rows, hsh, hpr⟩ := summaryFold_shape sid
    (generateSummaryGraph
      (buildDetailGraphFromRows db
        ((db.data_lineage_detail.filter (fun p => p.2.script_id = sid)).map Prod.snd)) 20) db
  exact ⟨rows, hsh, hpr⟩

theorem populate_cases (db : DB) (content : String) (facts : List Fact)
    (parsed : List (Option PStmt)) (sid : String) (db' : DB) :
    populateScriptTables db content facts parsed sid = .ok db' ↔
      ∃ D, detailPhase sid (populateT db content facts parsed sid) facts 1 = .ok D ∧
        db' = generateLineageSummaryDB D sid := by
  rw [populate_unfold]
  rcases hdp : detailPhase sid (populateT db content facts parsed sid) facts 1 with e | D
  · simp
  · constructor
    · intro h
      simp only [Except.ok.injEq] at h
      exact ⟨D, rfl, h.symm⟩
    · rintro ⟨D', hD', rfl⟩
      simp only [Except.ok.injEq] at hD' ⊢
      rw [hD']

/-- Re-running the populate phase on its own output restores exactly the
same state: the second cleanup removes precisely the rows the first run
inserted.  The key-ownership hypotheses say the initial store holds no
foreign rows (of other scripts) at keys carrying this script's id
patterns, and `horph` says a missing `sql_scripts` row implies no leftover
child rows (otherwise the skipped first cleanup leaves orphans the second
cleanup would remove). -/
theorem populate_idem (db : DB) (content : String) (facts : List Fact)
    (parsed : List (Option PStmt)) (sid : String) (db' : DB)
    (h : populateScriptTables db content facts parsed sid = .ok db')
    (hst : ∀ p ∈ db.script_statements,
      strContainsSub p.1 (sid ++ "__STMT_") = true → p.2.script_id = sid)
    (hdt : ∀ p ∈ db.data_lineage_detail,
      strContainsSub p.1 (sid ++ "__STMT_") = true → p.2.script_id = sid)
    (hsm : ∀ p ∈ db.data_lineage_summary,
      strEndsWith p.1 ("__" ++ sid) = true → p.2.script_id = sid)
    (horph : lookupA db.sql_scripts sid = none →
      (∀ p ∈ db.script_statements, ¬(p.2.script_id = sid)) ∧
      (∀ p ∈ db.data_lineage_detail, ¬(p.2.script_id = sid)) ∧
      (∀ p ∈ db.data_lineage_summary, ¬(p.2.script_id = sid))) :
    populateScriptTables db' content facts parsed sid = .ok db' ∧
    db'.tables = db.tables ∧ db'.columns = db.columns ∧ db'.databases = db.databases := by
  obtain ⟨D, hdp, hdb'⟩ := (populate_cases db content facts parsed sid db').mp h
  obtain ⟨rows_d, hD_shape, hrows_d⟩ := detailPhase_shape sid facts _ D 1 hdp
  obtain ⟨rows_s, hgen_shape, hrows_s⟩ := generateLineageSummaryDB_shape D sid
  have hdbS : db' = { D with data_lineage_summary :=
      (insertListA D.data_lineage_summary rows_s) } := hdb'.trans hgen_shape
  obtain ⟨hcd, hct, hcc, hcs⟩ := cleanup_components db sid
  obtain ⟨hclean_st, hclean_dt, hclean_sm⟩ := cleanup_clean db sid horph
  obtain ⟨hsub_st, hsub_dt, hsub_sm⟩ := cleanup_sub db sid
  -- component equations of the first run's result
  have hdbT : db'.tables = db.tables := by
    rw [hdbS, hD_shape]
    exact hct
  have hdbC : db'.columns = db.columns := by
    rw [hdbS, hD_shape]
    exact hcc
  have hdbD : db'.databases = db.databases := by
    rw [hdbS, hD_shape]
    exact hcd
  have hdbScr : db'.sql_scripts =
      setA db.sql_scripts sid { script_name := sid, script_content := content } := by
    rw [hdbS, hD_shape]
    show setA (cleanupScriptData db sid).sql_scripts sid
      { script_name := sid, script_content := content } = _
    rw [hcs]
  have hdbSt : db'.script_statements =
      insertListA (cleanupScriptData db sid).script_statements
        (computeStatementRows db.tables facts sid parsed 1) := by
    rw [hdbS, hD_shape]
    show insertListA (cleanupScriptData db sid).script_statements
      (computeStatementRows (cleanupScriptData db sid).tables facts sid parsed 1) = _
    rw [hct]
  have hdbDt : db'.data_lineage_detail =
      insertListA (cleanupScriptData db sid).data_lineage_detail rows_d := by
    rw [hdbS, hD_shape]
    rfl
  have hdbSm : db'.data_lineage_summary =
      insertListA (cleanupScriptData db sid).data_lineage_summary rows_s := by
    rw [hdbS]
    show insertListA D.data_lineage_summary rows_s = _
    rw [hD_shape]
    rfl
  -- the three restorations
  have hstProps := computeStatementRows_props db.tables facts sid parsed 1
  have hrest_st : (insertListA (cleanupScriptData db sid).script_statements
      (computeStatementRows db.tables facts sid parsed 1)).filter
        (fun p => !(p.2.script_id = sid)) =
      (cleanupScriptData db sid).script_statements := by
    apply insertListA_filter_restore StatementRow.script_id sid _ _ hclean_st
      (fun q hq => (hstProps q hq).1)
    intro q hq p hp heq
    have hm : strContainsSub p.1 (sid ++ "__STMT_") = true := by
      rw [heq]
      exact (hstProps q hq).2
    exact hclean_st p hp (hst p (hsub_st p hp) hm)
  have hrest_dt : (insertListA (cleanupScriptData db sid).data_lineage_detail
      rows_d).filter (fun p => !(p.2.script_id = sid)) =
      (cleanupScriptData db sid).data_lineage_detail := by
    apply insertListA_filter_restore DetailRow.script_id sid _ _ hclean_dt
      (fun q hq => (hrows_d q hq).1)
    intro q hq p hp heq
    have hm : strContainsSub p.1 (sid ++ "__STMT_") = true := by
      rw [heq]
      exact (hrows_d q hq).2
    exact hclean_dt p hp (hdt p (hsub_dt p hp) hm)
  have hrest_sm : (insertListA (cleanupScriptData db sid).data_lineage_summary
      rows_s).filter (fun p => !(p.2.script_id = sid)) =
      (cleanupScriptData db sid).data_lineage_summary := by
    apply insertListA_filter_restore SummaryRow.script_id sid _ _ hclean_sm
      (fun q hq => (hrows_s q hq).1)
    intro q hq p hp heq
    have hm : strEndsWith p.1 ("__" ++ sid) = true := by
      rw [heq]
      exact (hrows_s q hq).2
    exact hclean_sm p hp (hsm p (hsub_sm p hp) hm)
  -- the second run's cleanup fires and restores the pre-insert lists
  have hlk2 : lookupA db'.sql_scripts sid =
      some { script_name := sid, script_content := content } := by
    rw [hdbScr]
    exact lookupA_setA_self _ _ _
  have hcl2 : cleanupScriptData db' sid = { db' with
      data_lineage_summary :=
        db'.data_lineage_summary.filter (fun p => !(p.2.script_id = sid))
      data_lineage_detail :=
        db'.data_lineage_detail.filter (fun p => !(p.2.script_id = sid))
      script_statements :=
        db'.script_statements.filter (fun p => !(p.2.script_id = sid)) } := by
    unfold cleanupScriptData
    rw [hlk2]
  have hc2st : (cleanupScriptData db' sid).script_statements =
      (cleanupScriptData db sid).script_statements := by
    rw [hcl2]
    show db'.script_statements.filter (fun p => !(p.2.script_id = sid)) = _
    rw [hdbSt]
    exact hrest_st
  have hc2dt : (cleanupScriptData db' sid).data_lineage_detail =
      (cleanupScriptData db sid).data_lineage_detail := by
    rw [hcl2]
    show db'.data_lineage_detail.filter (fun p => !(p.2.script_id = sid)) = _
    rw [hdbDt]
    exact hrest_dt
  have hc2sm : (cleanupScriptData db' sid).data_lineage_summary =
      (cleanupScriptData db sid).data_lineage_summary := by
    rw [hcl2]
    show db'.data_lineage_summary.filter (fun p => !(p.2.script_id = sid)) = _
    rw [hdbSm]
    exact hrest_sm
  obtain ⟨hcd2, hct2, hcc2, hcs2⟩ := cleanup_components db' sid
  -- the states handed to the second detail phase coincide
  have hTT : populateT db' content facts parsed sid =
      populateT db content facts parsed sid := by
    apply DB.ext'
    · show (cleanupScriptData db' sid).databases = (cleanupScriptData db sid).databases
      rw [hcd2, hcd]
      exact hdbD
    · show (cleanupScriptData db' sid).tables = (cleanupScriptData db sid).tables
      rw [hct2, hct]
      exact hdbT
    · show (cleanupScriptData db' sid).columns = (cleanupScriptData db sid).columns
      rw [hcc2, hcc]
      exact hdbC
    · show setA (cleanupScriptData db' sid).sql_scripts sid
          { script_name := sid, script_content := content } =
        setA (cleanupScriptData db sid).sql_scripts sid
          { script_name := sid, script_content := content }
      rw [hcs2, hcs, hdbScr, setA_setA]
    · show insertListA (cleanupScriptData db' sid).script_statements
          (computeStatementRows (cleanupScriptData db' sid).tables facts sid parsed 1) =
        insertListA (cleanupScriptData db sid).script_statements
          (computeStatementRows (cleanupScriptData db sid).tables facts sid parsed 1)
      rw [hc2st, hct2, hct, hdbT]
    · show (cleanupScriptData db' sid).data_lineage_detail =
        (cleanupScriptData db sid).data_lineage_detail
      exact hc2dt
    · show (cleanupScriptData db' sid).data_lineage_summary =
        (cleanupScriptData db sid).data_lineage_summary
      exact hc2sm
  refine ⟨?_, hdbT, hdbC, hdbD⟩
  apply (populate_cases db' content facts parsed sid db').mpr
  exact ⟨D, by rw [hTT]; exact hdp, hdb'⟩

/-! ## Well-formed column lists survive consolidation (towards claim C7) -/

/-- Every column carries a non-empty name and no name repeats. -/
def ColsWF (cols : List ColInfo) : Prop :=
  (∀ c ∈ cols, ∃ nm, c.col_en_nm = some nm ∧ nm ≠ "") ∧
    (cols.map ColInfo.col_en_nm).Nodup

theorem mergeColInto_name (b : Bool) (ex c : ColInfo)
    (h : ex.col_en_nm = c.col_en_nm) :
    (mergeColInto b ex c).col_en_nm = ex.col_en_nm := by
  cases b with
  | true =>
    show ddlFieldS ex.col_en_nm c.col_en_nm = ex.col_en_nm
    rcases hv : c.col_en_nm with _ | v
    · simp [ddlFieldS]
    · rw [h, hv]
      simp [ddlFieldS]
  | false =>
    show dmlFieldS ex.col_en_nm c.col_en_nm = ex.col_en_nm
    rcases hv : c.col_en_nm with _ | v
    · simp [dmlFieldS]
    · rw [h, hv]
      cases hb : v.isEmpty <;> simp [dmlFieldS, truthyS, hb]

theorem mergeColList_names (b : Bool) (cols : List ColInfo) (c : ColInfo) :
    (mergeColList b cols c).map ColInfo.col_en_nm =
      if c.col_en_nm ∈ cols.map ColInfo.col_en_nm then cols.map ColInfo.col_en_nm
      else cols.map ColInfo.col_en_nm ++ [c.col_en_nm] := by
  induction cols with
  | nil => simp [mergeColList]
  | cons e rest ih =>
    by_cases he : e.col_en_nm = c.col_en_nm
    · rw [mergeColList, if_pos he]
      have hmem : c.col_en_nm ∈ (e :: rest).map ColInfo.col_en_nm := by
        rw [← he]
        exact List.mem_map_of_mem _ (List.mem_cons_self _ _)
      rw [if_pos hmem, List.map_cons, List.map_cons, mergeColInto_name b e c he]
    · rw [mergeColList, if_neg he, List.map_cons, ih, List.map_cons]
      by_cases hmem : c.col_en_nm ∈ rest.map ColInfo.col_en_nm
      · rw [if_pos hmem, if_pos (List.mem_cons_of_mem _ hmem)]
      · rw [if_neg hmem, if_neg ?hnm, List.cons_append]
        case hnm =>
          intro hcm
          rcases List.mem_cons.mp hcm with hcm | hcm
          · exact he hcm.symm
          · exact hmem hcm

theorem mergeColList_named (b : Bool) (cols : List ColInfo) (c : ColInfo)
    (hall : ∀ x ∈ cols, ∃ nm, x.col_en_nm = some nm ∧ nm ≠ "")
    (hc : ∃ nm, c.col_en_nm = some nm ∧ nm ≠ "") :
    ∀ x ∈ mergeColList b cols c, ∃ nm, x.col_en_nm = some nm ∧ nm ≠ "" := by
  induction cols with
  | nil =>
    intro x hx
    rw [mergeColList] at hx
    rcases List.mem_cons.mp hx with rfl | hx
    · exact hc
    · cases hx
  | cons e rest ih =>
    intro x hx
    rw [mergeColList] at hx
    by_cases he : e.col_en_nm = c.col_en_nm
    · rw [if_pos he] at hx
      rcases List.mem_cons.mp hx with rfl | hx
      · obtain ⟨nm, hnm, hne⟩ := hall e (List.mem_cons_self _ _)
        exact ⟨nm, (mergeColInto_name b e c he).trans hnm, hne⟩
      · exact hall x (List.mem_cons_of_mem _ hx)
    · rw [if_neg he] at hx
      rcases List.mem_cons.mp hx with rfl | hx
      · exact hall x (List.mem_cons_self _ _)
      · exact ih (fun y hy => hall y (List.mem_cons_of_mem _ hy)) x hx

theorem mergeColList_wf (b : Bool) (cols : List ColInfo) (c : ColInfo)
    (hwf : ColsWF cols) (hc : ∃ nm, c.col_en_nm = some nm ∧ nm ≠ "") :
    ColsWF (mergeColList b cols c) := by
  refine ⟨mergeColList_named b cols c hwf.1 hc, ?_⟩
  rw [mergeColList_names]
  by_cases hmem : c.col_en_nm ∈ cols.map ColInfo.col_en_nm
  · rw [if_pos hmem]
    exact hwf.2
  · rw [if_neg hmem]
    simp [List.nodup_append, hwf.2, hmem]

theorem foldl_mergeColList_wf (b : Bool) (newcols : List ColInfo) :
    ∀ cols : List ColInfo, ColsWF cols →
      (∀ c ∈ newcols, ∃ nm, c.col_en_nm = some nm ∧ nm ≠ "") →
      ColsWF (newcols.foldl (mergeColList b) cols) := by
  induction newcols with
  | nil => exact fun _ h _ => h
  | cons c rest ih =>
    intro cols hwf hnew
    rw [List.foldl_cons]
    exact ih (mergeColList b cols c)
      (mergeColList_wf b cols c hwf (hnew c (List.mem_cons_self _ _)))
      (fun x hx => hnew x (List.mem_cons_of_mem _ hx))

theorem consolidateSourceFold_mem (sts : List TableRefFact)
    (a : List (TKey × TableData)) (p : TKey × TableData)
    (hp : p ∈ sts.foldl
      (fun a st =>
        if st.tbl_en_nm = "" then a
        else
          match lookupA a (st.schema_nm, st.tbl_en_nm) with
          | some _ => a
          | none =>
            a ++ [((st.schema_nm, st.tbl_en_nm),
              { schema_name := st.schema_nm
                table_name := st.tbl_en_nm
                table_cn_name := ""
                table_type := "TABLE"
                data_source := "EXTERNAL"
                columns := [] })]) a) :
    p ∈ a ∨ p.2.columns = [] := by
  induction sts generalizing a with
  | nil => exact Or.inl hp
  | cons st rest ih =>
    rw [List.foldl_cons] at hp
    rcases ih _ hp with hm | hm
    · by_cases he : st.tbl_en_nm = ""
      · rw [if_pos he] at hm
        exact Or.inl hm
      · rw [if_neg he] at hm
        rcases hl : lookupA a (st.schema_nm, st.tbl_en_nm) with _ | e
        · rw [hl] at hm
          rcases List.mem_append.mp hm with hm | hm
          · exact Or.inl hm
          · rw [List.mem_singleton.mp hm]
            exact Or.inr rfl
        · rw [hl] at hm
          exact Or.inl hm
    · exact Or.inr hm

theorem consolidateStep_mem (acc : List (TKey × TableData)) (m : Fact)
    (p : TKey × TableData) (hp : p ∈ consolidateStep acc m) :
    p ∈ acc ∨ p.2.columns = [] ∨
      ∃ cols0,
        (cols0 = [] ∨ ∃ e,
          lookupA acc (m.target_table.schema_nm, m.target_table.tbl_en_nm) = some e ∧
          cols0 = e.columns) ∧
        p.2.columns = m.target_columns.foldl
          (mergeColList (m.statement_type ∈ ddlTypes)) cols0 := by
  unfold consolidateStep at hp
  dsimp only at hp
  rcases consolidateSourceFold_mem m.source_tables _ p hp with hm | hm
  · by_cases he : m.target_table.tbl_en_nm = ""
    · rw [if_pos he] at hm
      exact Or.inl hm
    · rw [if_neg he] at hm
      rcases mem_setA hm with hm | hm
      · exact Or.inl hm
      · refine Or.inr (Or.inr ?_)
        rcases hl : lookupA acc (m.target_table.schema_nm, m.target_table.tbl_en_nm)
          with _ | e
        · rw [hl] at hm
          exact ⟨[], Or.inl rfl, by rw [hm]⟩
        · rw [hl] at hm
          exact ⟨e.columns, Or.inr ⟨e, rfl, rfl⟩, by rw [hm]⟩
  · exact Or.inr (Or.inl hm)

theorem consolidate_fold_wf (facts : List Fact) :
    ∀ acc : List (TKey × TableData),
      (∀ f ∈ facts, ∀ c ∈ f.target_columns, ∃ nm, c.col_en_nm = some nm ∧ nm ≠ "") →
      (∀ p ∈ acc, ColsWF p.2.columns) →
      ∀ p ∈ facts.foldl consolidateStep acc, ColsWF p.2.columns := by
  induction facts with
  | nil => exact fun acc _ h => h
  | cons f rest ih =>
    intro acc hfacts hacc
    rw [List.foldl_cons]
    apply ih (consolidateStep acc f)
      (fun g hg c hc => hfacts g (List.mem_cons_of_mem _ hg) c hc)
    intro p hp
    rcases consolidateStep_mem acc f p hp with hm | hm | ⟨cols0, hc0, hcols⟩
    · exact hacc p hm
    · rw [hm]
      exact ⟨(fun c hc => absurd hc (List.not_mem_nil c)), List.nodup_nil⟩
    · rw [hcols]
      apply foldl_mergeColList_wf _ _ cols0 ?_ (hfacts f (List.mem_cons_self _ _))
      rcases hc0 with rfl | ⟨e, hl, rfl⟩
      · exact ⟨(fun c hc => absurd hc (List.not_mem_nil c)), List.nodup_nil⟩
      · exact hacc (_, e) (lookupA_mem hl)

theorem consolidate_wf (facts : List Fact)
    (hfacts : ∀ f ∈ facts, ∀ c ∈ f.target_columns,
      ∃ nm, c.col_en_nm = some nm ∧ nm ≠ "") :
    ∀ p ∈ consolidateMetadata facts, ColsWF p.2.columns :=
  consolidate_fold_wf facts [] hfacts (by intro p hp; cases hp)

/-! ## Key-level effect of the column writers (towards claim C7) -/

/-- The per-column step of `insertColumns`, named for fold reasoning. -/
def insStep (table_id schema_name table_name : String) (script_id : Option String)
    (d : DB) (col : ColInfo) : DB :=
  match col.col_en_nm with
  | none => d
  | some nm =>
    if nm = "" then d
    else
      let cid := generateColumnId schema_name table_name nm script_id
      let row : ColumnRow :=
        { id := cid
          data_type := col.data_type.getD ""
          is_nullable := !(col.is_null = some false)
          default_value := col.default_value.getD ""
          is_primary_key := truthyB col.is_pri_key
          is_foreign_key := truthyB col.is_foreign_key
          description := col.col_cn_nm.getD ""
          ordinal_position :=
            match col.col_no with
            | some n => if n = 0 then none else some n
            | none => none }
      { d with columns := setA d.columns (table_id, nm) row }

theorem insertColumns_eq_foldl (db : DB) (table_id schema_name table_name : String)
    (cols : List ColInfo) (script_id : Option String) :
    insertColumns db table_id schema_name table_name cols script_id =
      cols.foldl (insStep table_id schema_name table_name script_id) db := rfl

/-- The row `insertColumns` stores for a named column. -/
def insRowOf (schema_name table_name nm : String) (col : ColInfo)
    (script_id : Option String) : ColumnRow :=
  { id := generateColumnId schema_name table_name nm script_id
    data_type := col.data_type.getD ""
    is_nullable := !(col.is_null = some false)
    default_value := col.default_value.getD ""
    is_primary_key := truthyB col.is_pri_key
    is_foreign_key := truthyB col.is_foreign_key
    description := col.col_cn_nm.getD ""
    ordinal_position :=
      match col.col_no with
      | some n => if n = 0 then none else some n
      | none => none }

/-- The per-column step of `mergeStatementInfo`, named for fold reasoning. -/
def mergeStep (db : DB) (table_id : String) (td : TableData)
    (script_id : Option String) (d : DB) (col : ColInfo) : DB :=
  let nm := col.col_en_nm.getD ""
  match lookupA db.columns (table_id, nm) with
  | some ex =>
    let cn := col.col_cn_nm.getD ""
    if cn ≠ "" ∧ ex.description ≠ "" ∧ cn ≠ ex.description then d
    else if cn ≠ "" ∧ ex.description = "" then
      { d with columns :=
          (updA d.columns (table_id, nm) (fun r => { r with description := cn })) }
    else d
  | none => insertSingleColumn d table_id td.schema_name td.table_name col script_id

theorem mergeStatementInfo_eq_foldl (db : DB) (table_id : String) (td : TableData)
    (script_id : Option String) :
    mergeStatementInfo db table_id td script_id =
      td.columns.foldl (mergeStep db table_id td script_id) db := rfl

theorem foldl_columns_frame {α : Type} (f : DB → α → DB) (k : String × String)
    (l : List α) (db0 : DB)
    (h : ∀ x ∈ l, ∀ d, lookupA (f d x).columns k = lookupA d.columns k) :
    lookupA (l.foldl f db0).columns k = lookupA db0.columns k := by
  induction l generalizing db0 with
  | nil => rfl
  | cons a as ih =>
    rw [List.foldl_cons]
    rw [ih (f db0 a) (fun x hx d => h x (List.mem_cons_of_mem _ hx) d)]
    exact h a (List.mem_cons_self _ _) db0

theorem foldl_split_lookup {α : Type} (f : DB → α → DB) (k : String × String)
    (l1 l2 : List α) (c : α) (db0 : DB)
    (h1 : ∀ x ∈ l1, ∀ d, lookupA (f d x).columns k = lookupA d.columns k)
    (h2 : ∀ x ∈ l2, ∀ d, lookupA (f d x).columns k = lookupA d.columns k) :
    lookupA ((l1 ++ c :: l2).foldl f db0).columns k =
      lookupA (f (l1.foldl f db0) c).columns k ∧
    lookupA (l1.foldl f db0).columns k = lookupA db0.columns k := by
  constructor
  · rw [List.foldl_append, List.foldl_cons]
    exact foldl_columns_frame f k l2 _ h2
  · exact foldl_columns_frame f k l1 db0 h1

theorem lookupA_filter_fst_ne {ρ : Type} (l : List ((String × String) × ρ))
    (t : String) (k : String × String) (hk : k.1 ≠ t) :
    lookupA (l.filter (fun p => !(p.1.1 = t))) k = lookupA l k := by
  induction l with
  | nil => rfl
  | cons p rest ih =>
    obtain ⟨k', r⟩ := p
    by_cases hd : k'.1 = t
    · have hcond : (!(k'.1 = t : Bool)) = false := by simp [hd]
      rw [List.filter_cons, hcond]
      simp only [Bool.false_eq_true, if_false]
      have hkk : k' ≠ k := fun h => hk (h ▸ hd)
      rw [ih]
      show lookupA rest k = lookupA ((k', r) :: rest) k
      simp [lookupA, hkk]
    · have hcond : (!(k'.1 = t : Bool)) = true := by simp [hd]
      rw [List.filter_cons, hcond]
      simp only [if_true]
      by_cases hkk : k' = k
      · simp [lookupA, hkk]
      · simp [lookupA, hkk, ih]

theorem insStep_frame (table_id schema_name table_name : String)
    (script_id : Option String) (k : String × String) (x : ColInfo)
    (hx : ∀ nm, x.col_en_nm = some nm → nm ≠ "" → (table_id, nm) ≠ k) (d : DB) :
    lookupA (insStep table_id schema_name table_name script_id d x).columns k =
      lookupA d.columns k := by
  unfold insStep
  rcases hn : x.col_en_nm with _ | nm
  · rfl
  · dsimp only
    by_cases he : nm = ""
    · rw [if_pos he]
    · rw [if_neg he]
      exact lookupA_setA_ne _ _ _ _ (hx nm hn he)

theorem insertColumns_lookup_ne (db : DB) (table_id schema_name table_name : String)
    (cols : List ColInfo) (script_id : Option String) (k : String × String)
    (hk : k.1 ≠ table_id) :
    lookupA (insertColumns db table_id schema_name table_name cols script_id).columns k =
      lookupA db.columns k := by
  rw [insertColumns_eq_foldl]
  apply foldl_columns_frame
  intro x _ d
  apply insStep_frame
  intro nm _ _ hkk
  exact hk (by rw [← hkk])

theorem insertColumns_lookup_self (db : DB) (table_id schema_name table_name : String)
    (cols : List ColInfo) (script_id : Option String) (c : ColInfo) (hc : c ∈ cols)
    (nm : String) (hnm : c.col_en_nm = some nm) (hne : nm ≠ "")
    (hnodup : (cols.map ColInfo.col_en_nm).Nodup) :
    lookupA (insertColumns db table_id schema_name table_name cols script_id).columns
        (table_id, nm) =
      some (insRowOf schema_name table_name nm c script_id) := by
  obtain ⟨l1, l2, rfl⟩ := List.append_of_mem hc
  rw [List.map_append, List.map_cons] at hnodup
  have hl2 : ∀ x ∈ l2, x.col_en_nm ≠ some nm := by
    intro x hx hxn
    have h1 := (List.nodup_append.mp hnodup).2.1
    rw [List.nodup_cons] at h1
    apply h1.1
    rw [hnm, ← hxn]
    exact List.mem_map_of_mem ColInfo.col_en_nm hx
  have hl1 : ∀ x ∈ l1, x.col_en_nm ≠ some nm := by
    intro x hx hxn
    have h2 := (List.nodup_append.mp hnodup).2.2
    have hm1 : some nm ∈ l1.map ColInfo.col_en_nm := by
      rw [← hxn]
      exact List.mem_map_of_mem ColInfo.col_en_nm hx
    have hm2 : some nm ∈ c.col_en_nm :: l2.map ColInfo.col_en_nm := by
      rw [← hnm]
      exact List.mem_cons_self _ _
    exact h2 hm1 hm2
  have hframe : ∀ (l : List ColInfo), (∀ x ∈ l, x.col_en_nm ≠ some nm) →
      ∀ x ∈ l, ∀ d : DB,
        lookupA (insStep table_id schema_name table_name script_id d x).columns
          (table_id, nm) = lookupA d.columns (table_id, nm) := by
    intro l hl x hx d
    apply insStep_frame
    intro nm' hnm' _ hkk
    apply hl x hx
    rw [hnm']
    have : nm' = nm := by
      have := congrArg Prod.snd hkk
      simpa using this
    rw [this]
  rw [insertColumns_eq_foldl]
  rw [(foldl_split_lookup _ (table_id, nm) l1 l2 c db (hframe l1 hl1) (hframe l2 hl2)).1]
  show lookupA (insStep table_id schema_name table_name script_id _ c).columns
    (table_id, nm) = _
  unfold insStep
  rw [hnm]
  dsimp only
  rw [if_neg hne]
  exact lookupA_setA_self _ _ _

/-! ## Post-state of the table phase (towards claim C7) -/

/-- Every contributed named column exists in the store under the table id,
and a contributed non-empty Chinese name implies the stored description is
non-empty (so `_merge_statement_info` has nothing left to write). -/
def ColOK (db : DB) (table_id : String) (td : TableData) : Prop :=
  ∀ c ∈ td.columns, ∀ nm, c.col_en_nm = some nm → nm ≠ "" →
    ∃ exr, lookupA db.columns (table_id, nm) = some exr ∧
      ((c.col_cn_nm.getD "") ≠ "" → exr.description ≠ "")

/-- The invariant `_process_table_data` leaves behind for one consolidated
record: its table row exists, and (unless the record is EXTERNAL) the
stored provenance is either the record's own or a non-DDL non-EXTERNAL
one with the record also non-DDL, with all contributed columns present. -/
def PostTD (db : DB) (sid : String) (td : TableData) : Prop :=
  ∃ row, lookupA db.tables (tidOf td (some sid)) = some row ∧
    (td.data_source ≠ "EXTERNAL" →
      ((row.data_source = td.data_source ∨
        (row.data_source ∉ ddlTypes ∧ row.data_source ≠ "EXTERNAL" ∧
          td.data_source ∉ ddlTypes)) ∧
       ColOK db (tidOf td (some sid)) td))

theorem mergeStep_frame (db : DB) (table_id : String) (td : TableData)
    (script_id : Option String) (k : String × String) (x : ColInfo)
    (hx : (table_id, x.col_en_nm.getD "") ≠ k) (d : DB) :
    lookupA (mergeStep db table_id td script_id d x).columns k =
      lookupA d.columns k := by
  unfold mergeStep
  dsimp only
  split
  · split
    · rfl
    · split
      · show lookupA (updA d.columns (table_id, x.col_en_nm.getD "")
            (fun r => { r with description := x.col_cn_nm.getD "" })) k =
          lookupA d.columns k
        exact lookupA_updA_ne _ _ _ _ (Ne.symm hx)
      · rfl
  · show lookupA
      (insertSingleColumn d table_id td.schema_name td.table_name x script_id).columns k = _
    unfold insertSingleColumn
    dsimp only
    exact lookupA_setA_ne _ _ _ _ hx

theorem mergeStep_id (db : DB) (table_id : String) (td : TableData)
    (script_id : Option String) (x : ColInfo) (nm : String)
    (hnm : x.col_en_nm = some nm) (hne : nm ≠ "") (exr : ColumnRow)
    (hex : lookupA db.columns (table_id, nm) = some exr)
    (hdesc : (x.col_cn_nm.getD "") ≠ "" → exr.description ≠ "") (d : DB) :
    mergeStep db table_id td script_id d x = d := by
  have hgnm : x.col_en_nm.getD "" = nm := by rw [hnm]; rfl
  unfold mergeStep
  dsimp only
  split
  · rename_i ex heq
    rw [hgnm, hex] at heq
    cases heq
    split
    · rfl
    · split
      · rename_i hb1 hb2
        exact absurd hb2.2 (hdesc hb2.1)
      · rfl
  · rename_i heq
    rw [hgnm, hex] at heq
    exact Option.noConfusion heq

theorem mergeStatementInfo_noop (db : DB) (table_id : String) (td : TableData)
    (script_id : Option String)
    (hnames : ∀ c ∈ td.columns, ∃ nm, c.col_en_nm = some nm ∧ nm ≠ "")
    (hok : ColOK db table_id td) :
    mergeStatementInfo db table_id td script_id = db := by
  rw [mergeStatementInfo_eq_foldl]
  apply foldl_id
  intro x hx d
  obtain ⟨nm, hnm, hne⟩ := hnames x hx
  obtain ⟨exr, hex, hdesc⟩ := hok x hx nm hnm hne
  exact mergeStep_id db table_id td script_id x nm hnm hne exr hex hdesc d

theorem mergeStatementInfo_columns_ne (db : DB) (table_id : String)
    (td : TableData) (script_id : Option String) (k : String × String)
    (hk : k.1 ≠ table_id) :
    lookupA (mergeStatementInfo db table_id td script_id).columns k =
      lookupA db.columns k := by
  rw [mergeStatementInfo_eq_foldl]
  apply foldl_columns_frame
  intro x _ d
  apply mergeStep_frame
  intro hkk
  exact hk (by rw [← hkk])

/-- The row `_insert_single_column` stores for a contributed column. -/
def singleRowOf (td : TableData) (nm : String) (c : ColInfo)
    (script_id : Option String) : ColumnRow :=
  { id := (generateColumnId td.schema_name td.table_name nm
      (if sidTruthy script_id then script_id else none))
    data_type := c.data_type.getD ""
    is_nullable := c.is_null.getD true
    default_value := c.default_value.getD ""
    is_primary_key := c.is_pri_key.getD false
    is_foreign_key := c.is_foreign_key.getD false
    description := c.col_cn_nm.getD ""
    ordinal_position := some (c.col_no.getD 1) }

theorem mergeStep_self (db : DB) (table_id : String) (td : TableData)
    (script_id : Option String) (d : DB) (c : ColInfo) (nm : String)
    (hnm : c.col_en_nm = some nm)
    (hd : lookupA d.columns (table_id, nm) = lookupA db.columns (table_id, nm)) :
    ∃ exr, lookupA (mergeStep db table_id td script_id d c).columns
        (table_id, nm) = some exr ∧
      ((c.col_cn_nm.getD "") ≠ "" → exr.description ≠ "") := by
  have hgnm : c.col_en_nm.getD "" = nm := by rw [hnm]; rfl
  unfold mergeStep
  dsimp only
  rw [hgnm]
  split
  · rename_i ex heq
    split
    · rename_i hb1
      exact ⟨ex, by rw [hd]; exact heq, fun _ => hb1.2.1⟩
    · split
      · rename_i hb1 hb2
        refine ⟨{ ex with description := c.col_cn_nm.getD "" }, ?_, ?_⟩
        · show lookupA (updA d.columns (table_id, nm)
              (fun r => { r with description := c.col_cn_nm.getD "" })) (table_id, nm) = _
          rw [lookupA_updA_self, hd, heq]
          rfl
        · intro hcn
          simpa using hcn
      · rename_i hb1 hb2
        exact ⟨ex, by rw [hd]; exact heq, fun hcn hdesc => hb2 ⟨hcn, hdesc⟩⟩
  · rename_i heq
    refine ⟨singleRowOf td nm c script_id, ?_, fun hcn => hcn⟩
    show lookupA (insertSingleColumn d table_id td.schema_name td.table_name
      c script_id).columns (table_id, nm) = _
    unfold insertSingleColumn
    dsimp only
    rw [hgnm]
    exact lookupA_setA_self _ _ _

theorem mergeStatementInfo_colOK (db : DB) (table_id : String) (td : TableData)
    (script_id : Option String) (hwf : ColsWF td.columns) :
    ColOK (mergeStatementInfo db table_id td script_id) table_id td := by
  intro c hc nm hnm hne
  rw [mergeStatementInfo_eq_foldl]
  obtain ⟨l1, l2, hcols⟩ := List.append_of_mem hc
  have hnodup := hwf.2
  rw [hcols, List.map_append, List.map_cons] at hnodup
  have hl2 : ∀ x ∈ l2, x.col_en_nm ≠ some nm := by
    intro x hx hxn
    have h1 := (List.nodup_append.mp hnodup).2.1
    rw [List.nodup_cons] at h1
    apply h1.1
    rw [hnm, ← hxn]
    exact List.mem_map_of_mem ColInfo.col_en_nm hx
  have hl1 : ∀ x ∈ l1, x.col_en_nm ≠ some nm := by
    intro x hx hxn
    have h2 := (List.nodup_append.mp hnodup).2.2
    have hm1 : some nm ∈ l1.map ColInfo.col_en_nm := by
      rw [← hxn]
      exact List.mem_map_of_mem ColInfo.col_en_nm hx
    have hm2 : some nm ∈ c.col_en_nm :: l2.map ColInfo.col_en_nm := by
      rw [← hnm]
      exact List.mem_cons_self _ _
    exact h2 hm1 hm2
  have hframe : ∀ l : List ColInfo, (∀ x ∈ l, x.col_en_nm ≠ some nm) →
      ∀ x ∈ l, ∀ d : DB,
        lookupA (mergeStep db table_id td script_id d x).columns (table_id, nm) =
          lookupA d.columns (table_id, nm) := by
    intro l hl x hx d
    apply mergeStep_frame
    intro hkk
    have hg : x.col_en_nm.getD "" = nm := by
      have := congrArg Prod.snd hkk
      simpa using this
    rcases hx' : x.col_en_nm with _ | nmx
    · rw [hx'] at hg
      apply hne
      have hen : ("" : String) = nm := by simpa using hg
      exact hen.symm
    · rw [hx'] at hg
      apply hl x hx
      rw [hx']
      simp only [Option.getD_some] at hg
      rw [hg]
  rw [hcols]
  have hsp := foldl_split_lookup (mergeStep db table_id td script_id) (table_id, nm)
    l1 l2 c db (hframe l1 hl1) (hframe l2 hl2)
  rw [hsp.1]
  exact mergeStep_self db table_id td script_id _ c nm hnm hsp.2

/-- The table row `_update_table_with_statement` stores. -/
def updateRowOf (td : TableData) (script_id : Option String)
    (new_data_source : String) : TableRow :=
  { database_id := if td.schema_name ≠ "" then td.schema_name else ""
    schema_name := td.schema_name
    table_name := td.table_name
    table_type := td.table_type
    description := td.table_cn_name
    data_source := if new_data_source ≠ "" then new_data_source else td.data_source
    script_id := if td.table_type = "TMP_TABLE" then script_id else some "" }

theorem updateTableWithStatement_tables (db : DB) (table_id : String)
    (td : TableData) (script_id : Option String) (new_data_source : String) :
    (updateTableWithStatement db table_id td script_id new_data_source).tables =
      updA db.tables table_id (fun _ => updateRowOf td script_id new_data_source) := by
  show (insertColumns _ table_id td.schema_name td.table_name td.columns
    script_id).tables = _
  rw [(insertColumns_onlyColumns _ _ _ _ _ _).2.1]
  rfl

theorem updateTableWithStatement_columns_ne (db : DB) (table_id : String)
    (td : TableData) (script_id : Option String) (new_data_source : String)
    (k : String × String) (hk : k.1 ≠ table_id) :
    lookupA (updateTableWithStatement db table_id td script_id new_data_source).columns
        k = lookupA db.columns k := by
  show lookupA (insertColumns _ table_id td.schema_name td.table_name td.columns
    script_id).columns k = _
  rw [insertColumns_lookup_ne _ _ _ _ _ _ _ hk]
  show lookupA (db.columns.filter (fun p => !(p.1.1 = table_id))) k = _
  exact lookupA_filter_fst_ne _ _ _ hk

theorem updateTableWithStatement_colOK (db : DB) (table_id : String)
    (td : TableData) (script_id : Option String) (new_data_source : String)
    (hwf : ColsWF td.columns) :
    ColOK (updateTableWithStatement db table_id td script_id new_data_source)
      table_id td := by
  intro c hc nm hnm hne
  refine ⟨insRowOf td.schema_name td.table_name nm c script_id, ?_, fun hcn => hcn⟩
  show lookupA (insertColumns _ table_id td.schema_name td.table_name td.columns
    script_id).columns (table_id, nm) = _
  exact insertColumns_lookup_self _ _ _ _ _ _ c hc nm hnm hne hwf.2

/-- The database-record step at the head of `_insert_new_table`. -/
def insertNewTableBase (db : DB) (td : TableData) : DB :=
  if td.schema_name ≠ "" then
    match lookupA db.databases td.schema_name with
    | some _ => db
    | none => { db with databases := setA db.databases td.schema_name td.schema_name }
  else db

/-- The table row `_insert_new_table` stores. -/
def insertRowOf (td : TableData) (current_sid : Option String) : TableRow :=
  { database_id := if td.schema_name ≠ "" then td.schema_name else ""
    schema_name := td.schema_name
    table_name := td.table_name
    table_type := td.table_type
    description := td.table_cn_name
    data_source := td.data_source
    script_id := some (current_sid.getD "") }

theorem insertNewTable_eq (db : DB) (td : TableData) (current_sid : Option String) :
    insertNewTable db td current_sid =
      insertColumns
        { insertNewTableBase db td with
            tables := (setA (insertNewTableBase db td).tables
              (generateTableId td.schema_name td.table_name current_sid)
              (insertRowOf td current_sid)) }
        (generateTableId td.schema_name td.table_name current_sid)
        td.schema_name td.table_name td.columns current_sid := rfl

theorem insertNewTableBase_tc (db : DB) (td : TableData) :
    (insertNewTableBase db td).tables = db.tables ∧
    (insertNewTableBase db td).columns = db.columns := by
  unfold insertNewTableBase
  split
  · split
    · exact ⟨rfl, rfl⟩
    · exact ⟨rfl, rfl⟩
  · exact ⟨rfl, rfl⟩

theorem insertNewTable_tables_self (db : DB) (td : TableData)
    (current_sid : Option String) :
    lookupA (insertNewTable db td current_sid).tables
        (generateTableId td.schema_name td.table_name current_sid) =
      some (insertRowOf td current_sid) := by
  rw [insertNewTable_eq, (insertColumns_onlyColumns _ _ _ _ _ _).2.1]
  exact lookupA_setA_self _ _ _

theorem insertNewTable_tables_ne (db : DB) (td : TableData)
    (current_sid : Option String) (tid : String)
    (hne : generateTableId td.schema_name td.table_name current_sid ≠ tid) :
    lookupA (insertNewTable db td current_sid).tables tid =
      lookupA db.tables tid := by
  rw [insertNewTable_eq, (insertColumns_onlyColumns _ _ _ _ _ _).2.1]
  show lookupA (setA (insertNewTableBase db td).tables _ _) tid = _
  rw [lookupA_setA_ne _ _ _ _ hne, (insertNewTableBase_tc db td).1]

theorem insertNewTable_columns_ne (db : DB) (td : TableData)
    (current_sid : Option String) (k : String × String)
    (hk : k.1 ≠ generateTableId td.schema_name td.table_name current_sid) :
    lookupA (insertNewTable db td current_sid).columns k =
      lookupA db.columns k := by
  rw [insertNewTable_eq, insertColumns_lookup_ne _ _ _ _ _ _ _ hk]
  show lookupA (insertNewTableBase db td).columns k = _
  rw [(insertNewTableBase_tc db td).2]

theorem insertNewTable_colOK (db : DB) (td : TableData)
    (current_sid : Option String) (hwf : ColsWF td.columns) :
    ColOK (insertNewTable db td current_sid)
      (generateTableId td.schema_name td.table_name current_sid) td := by
  intro c hc nm hnm hne
  rw [insertNewTable_eq]
  refine ⟨insRowOf td.schema_name td.table_name nm c current_sid, ?_, fun hcn => hcn⟩
  exact insertColumns_lookup_self _ _ _ _ _ _ c hc nm hnm hne hwf.2

theorem getConflictStrategy_ddl_cases (e n : String)
    (h : e ∈ ddlTypes ∨ n ∈ ddlTypes) :
    getConflictStrategy e n = "ERROR" ∨
      getConflictStrategy e n = "KEEP_CREATE_TABLE" := by
  unfold getConflictStrategy
  rw [if_pos h]
  split
  · split
    · exact Or.inl rfl
    · split
      · exact Or.inr rfl
      · exact Or.inr rfl
  · exact Or.inr rfl

theorem processTableData_establishes (db db' : DB) (td : TableData) (sid : String)
    (h : processTableData db td (some sid) = .ok db') (hwf : ColsWF td.columns) :
    PostTD db' sid td := by
  unfold PostTD
  rw [show tidOf td (some sid) = generateTableId td.schema_name td.table_name
      (if td.table_type = "TMP_TABLE" then (some sid : Option String) else none) from rfl]
  simp only [processTableData] at h
  generalize hcs : (if td.table_type = "TMP_TABLE" then (some sid : Option String)
    else none) = csid at h ⊢
  split at h
  · rename_i existing hex
    split_ifs at h with h1 h2 h3 h4 h5
    · cases h
      exact ⟨existing, hex, fun hne => absurd h1 hne⟩
    · cases h
      refine ⟨updateRowOf td csid td.data_source, ?_, fun hne => ⟨Or.inl ?_, ?_⟩⟩
      · rw [updateTableWithStatement_tables, lookupA_updA_self, hex]
        rfl
      · show (if td.data_source ≠ "" then td.data_source else td.data_source) =
          td.data_source
        split <;> rfl
      · exact updateTableWithStatement_colOK db _ td _ td.data_source hwf
    · cases h
      refine ⟨updateRowOf td csid td.data_source, ?_, fun hne => ⟨Or.inl ?_, ?_⟩⟩
      · rw [updateTableWithStatement_tables, lookupA_updA_self, hex]
        rfl
      · show (if td.data_source ≠ "" then td.data_source else td.data_source) =
          td.data_source
        split <;> rfl
      · exact updateTableWithStatement_colOK db _ td _ td.data_source hwf
    · exact absurd h5 (getConflictStrategy_ne_supplement _ _)
    · cases h
      have hmem : ¬(existing.data_source ∈ ddlTypes ∨ td.data_source ∈ ddlTypes) := by
        intro hmem
        rcases getConflictStrategy_ddl_cases _ _ hmem with hE | hK
        · exact h3 hE
        · exact h4 hK
      refine ⟨existing, ?_,
        fun hne => ⟨Or.inr ⟨fun hx => hmem (Or.inl hx), h2, fun hx => hmem (Or.inr hx)⟩,
          ?_⟩⟩
      · rw [(mergeStatementInfo_onlyColumns _ _ _ _).2.1]
        exact hex
      · exact mergeStatementInfo_colOK db _ td _ hwf
  · rename_i hnone
    cases h
    exact ⟨insertRowOf td csid,
      insertNewTable_tables_self db td _,
      fun hne => ⟨Or.inl rfl, insertNewTable_colOK db td _ hwf⟩⟩

theorem processTableData_frame (db db' : DB) (td : TableData) (sid : String)
    (h : processTableData db td (some sid) = .ok db') (tid : String)
    (hne : tidOf td (some sid) ≠ tid) :
    lookupA db'.tables tid = lookupA db.tables tid ∧
    ∀ nm, lookupA db'.columns (tid, nm) = lookupA db.columns (tid, nm) := by
  simp only [processTableData] at h
  generalize hcs : (if td.table_type = "TMP_TABLE" then (some sid : Option String)
    else none) = csid at h
  have hne' : generateTableId td.schema_name td.table_name csid ≠ tid := by
    rw [← hcs]
    exact hne
  split at h
  · rename_i existing hex
    split_ifs at h with h1 h2 h3 h4 h5
    · cases h
      exact ⟨rfl, fun nm => rfl⟩
    · cases h
      constructor
      · rw [updateTableWithStatement_tables]
        exact lookupA_updA_ne _ _ _ _ (Ne.symm hne')
      · intro nm
        exact updateTableWithStatement_columns_ne _ _ _ _ _ _ (Ne.symm hne')
    · cases h
      constructor
      · rw [updateTableWithStatement_tables]
        exact lookupA_updA_ne _ _ _ _ (Ne.symm hne')
      · intro nm
        exact updateTableWithStatement_columns_ne _ _ _ _ _ _ (Ne.symm hne')
    · exact absurd h5 (getConflictStrategy_ne_supplement _ _)
    · cases h
      constructor
      · rw [(mergeStatementInfo_onlyColumns _ _ _ _).2.1]
      · intro nm
        exact mergeStatementInfo_columns_ne _ _ _ _ _ (Ne.symm hne')
  · cases h
    constructor
    · exact insertNewTable_tables_ne _ _ _ _ hne'
    · intro nm
      exact insertNewTable_columns_ne _ _ _ _ (Ne.symm hne')

theorem processTableData_rerun (db : DB) (td : TableData) (sid : String)
    (hpost : PostTD db sid td) (hwf : ColsWF td.columns) :
    processTableData db td (some sid) = .ok db ∨
      ∃ e, processTableData db td (some sid) = .error e := by
  obtain ⟨row, hrow, hspec⟩ := hpost
  have hrow' : lookupA db.tables (generateTableId td.schema_name td.table_name
      (if td.table_type = "TMP_TABLE" then (some sid : Option String) else none)) =
      some row := hrow
  by_cases hext : td.data_source = "EXTERNAL"
  · left
    simp [processTableData, hrow', hext]
  · obtain ⟨hds, hok⟩ := hspec hext
    have hnoop := mergeStatementInfo_noop db
      (generateTableId td.schema_name td.table_name
        (if td.table_type = "TMP_TABLE" then (some sid : Option String) else none)) td
      (if td.table_type = "TMP_TABLE" then (some sid : Option String) else none)
      hwf.1 hok
    rcases hds with heq | ⟨hnd1, hnexr, hnd2⟩
    · have hnexr : row.data_source ≠ "EXTERNAL" := by
        rw [heq]
        exact hext
      by_cases hddl : td.data_source ∈ ddlTypes
      · right
        have hstrat : getConflictStrategy row.data_source td.data_source = "ERROR" :=
          (getConflictStrategy_error_iff _ _).mpr ⟨by rw [heq]; exact hddl, hddl, heq⟩
        refine ⟨"table " ++ td.schema_name ++ "." ++ td.table_name ++
          " conflict not allowed: " ++ row.data_source ++ " vs " ++ td.data_source, ?_⟩
        simp [processTableData, hrow', hext, hnexr, hstrat]
      · left
        have hstrat : getConflictStrategy row.data_source td.data_source =
            "MERGE_INFO" := getConflictStrategy_merge _ _ (by rw [heq]; exact hddl) hddl
        have hne1 : getConflictStrategy row.data_source td.data_source ≠ "ERROR" := by
          rw [hstrat]
          decide
        have hne2 : getConflictStrategy row.data_source td.data_source ≠
            "KEEP_CREATE_TABLE" := by
          rw [hstrat]
          decide
        have hne3 : getConflictStrategy row.data_source td.data_source ≠
            "SUPPLEMENT_CHINESE_NAMES" := by
          rw [hstrat]
          decide
        simp [processTableData, hrow', hext, hnexr, hne1, hne2, hne3, hnoop]
    · left
      have hstrat : getConflictStrategy row.data_source td.data_source =
          "MERGE_INFO" := getConflictStrategy_merge _ _ hnd1 hnd2
      have hne1 : getConflictStrategy row.data_source td.data_source ≠ "ERROR" := by
        rw [hstrat]
        decide
      have hne2 : getConflictStrategy row.data_source td.data_source ≠
          "KEEP_CREATE_TABLE" := by
        rw [hstrat]
        decide
      have hne3 : getConflictStrategy row.data_source td.data_source ≠
          "SUPPLEMENT_CHINESE_NAMES" := by
        rw [hstrat]
        decide
      simp [processTableData, hrow', hext, hnexr, hne1, hne2, hne3, hnoop]

theorem tablePhase_frame (tds : List (TKey × TableData)) (db db' : DB)
    (sid : String) (h : tablePhase db tds sid = .ok db') (tid : String)
    (hall : ∀ p ∈ tds, tidOf p.2 (some sid) ≠ tid) :
    lookupA db'.tables tid = lookupA db.tables tid ∧
    ∀ nm, lookupA db'.columns (tid, nm) = lookupA db.columns (tid, nm) := by
  induction tds generalizing db with
  | nil =>
    simp only [tablePhase, List.foldlM_nil] at h
    cases h
    exact ⟨rfl, fun nm => rfl⟩
  | cons q rest ih =>
    simp only [tablePhase, List.foldlM_cons] at h
    rcases hq : processTableData db q.2 (some sid) with e | d1
    · rw [hq] at h
      exact Except.noConfusion h
    · rw [hq] at h
      obtain ⟨ht1, hc1⟩ := processTableData_frame db d1 q.2 sid hq tid
        (hall q (List.mem_cons_self _ _))
      obtain ⟨ht2, hc2⟩ := ih d1 h
        (fun p hp => hall p (List.mem_cons_of_mem _ hp))
      exact ⟨ht2.trans ht1, fun nm => (hc2 nm).trans (hc1 nm)⟩

theorem tablePhase_post (tds : List (TKey × TableData)) (db db' : DB)
    (sid : String) (h : tablePhase db tds sid = .ok db')
    (hwf : ∀ p ∈ tds, ColsWF p.2.columns)
    (htids : (tds.map (fun p => tidOf p.2 (some sid))).Nodup) :
    ∀ p ∈ tds, PostTD db' sid p.2 := by
  induction tds generalizing db with
  | nil =>
    intro p hp
    cases hp
  | cons q rest ih =>
    simp only [tablePhase, List.foldlM_cons] at h
    rcases hq : processTableData db q.2 (some sid) with e | d1
    · rw [hq] at h
      exact Except.noConfusion h
    · rw [hq] at h
      rw [List.map_cons, List.nodup_cons] at htids
      intro p hp
      rcases List.mem_cons.mp hp with rfl | hp'
      · have hpost1 := processTableData_establishes db d1 p.2 sid hq
          (hwf p (List.mem_cons_self _ _))
        have hne : ∀ r ∈ rest, tidOf r.2 (some sid) ≠ tidOf p.2 (some sid) := by
          intro r hr heq
          exact htids.1 (heq ▸ List.mem_map_of_mem (fun x => tidOf x.2 (some sid)) hr)
        obtain ⟨hft, hfc⟩ := tablePhase_frame rest d1 db' sid h
          (tidOf p.2 (some sid)) hne
        obtain ⟨row, hrow, hspec⟩ := hpost1
        refine ⟨row, by rw [hft]; exact hrow, fun hne' => ⟨(hspec hne').1, ?_⟩⟩
        intro c hc nm hnm hnein
        obtain ⟨exr, hex, hdesc⟩ := (hspec hne').2 c hc nm hnm hnein
        exact ⟨exr, by rw [hfc nm]; exact hex, hdesc⟩
      · exact ih d1 h (fun r hr => hwf r (List.mem_cons_of_mem _ hr)) htids.2 p hp'

theorem tablePhase_rerun (tds : List (TKey × TableData)) (db : DB) (sid : String)
    (hpost : ∀ p ∈ tds, PostTD db sid p.2)
    (hwf : ∀ p ∈ tds, ColsWF p.2.columns) :
    tablePhase db tds sid = .ok db ∨ ∃ e, tablePhase db tds sid = .error e := by
  induction tds with
  | nil => exact Or.inl rfl
  | cons q rest ih =>
    rcases processTableData_rerun db q.2 sid (hpost q (List.mem_cons_self _ _))
        (hwf q (List.mem_cons_self _ _)) with hok | ⟨e, herr⟩
    · rcases ih (fun p hp => hpost p (List.mem_cons_of_mem _ hp))
          (fun p hp => hwf p (List.mem_cons_of_mem _ hp)) with hok2 | ⟨e, herr2⟩
      · left
        simp only [tablePhase, List.foldlM_cons]
        rw [hok]
        exact hok2
      · right
        refine ⟨e, ?_⟩
        simp only [tablePhase, List.foldlM_cons]
        rw [hok]
        exact herr2
    · right
      refine ⟨e, ?_⟩
      simp only [tablePhase, List.foldlM_cons]
      rw [herr]
      rfl

/-! ## The global lineage graph is stable under re-update (towards claim C7) -/

/-- The per-source step of `_update_global_lineage`, named for fold
reasoning. -/
def glInner (sql_file_path tgt : String) (g : GlobalGraph) (src : String) :
    GlobalGraph :=
  let g := ensureNode g src
  match lookupA g.edges (src, tgt) with
  | some paths =>
    if sql_file_path ∈ paths then g
    else { g with edges := setA g.edges (src, tgt) (paths ++ [sql_file_path]) }
  | none => { g with edges := setA g.edges (src, tgt) [sql_file_path] }

/-- The per-target step of `_update_global_lineage`. -/
def glOuter (sql_file_path : String) (sources : List String) (g : GlobalGraph)
    (tgt : String) : GlobalGraph :=
  sources.foldl (glInner sql_file_path tgt) (ensureNode g tgt)

theorem updateGlobalLineage_eq (fs : Option GlobalGraph) (sql_file_path : String)
    (targets sources : List String) :
    updateGlobalLineage fs sql_file_path targets sources =
      some (targets.foldl (glOuter sql_file_path sources)
        (fs.getD { nodes := [], edges := [] })) := rfl

theorem ensureNode_edges (g : GlobalGraph) (nm : String) :
    (ensureNode g nm).edges = g.edges := by
  unfold ensureNode
  split
  · rfl
  · rfl

theorem ensureNode_nodes_mono (g : GlobalGraph) (nm k : String)
    (h : (lookupA g.nodes k).isSome = true) :
    (lookupA (ensureNode g nm).nodes k).isSome = true := by
  unfold ensureNode
  split
  · exact h
  · show (lookupA (setA g.nodes nm (parseFullTableName nm)) k).isSome = true
    by_cases hk : nm = k
    · rw [← hk, lookupA_setA_self]
      rfl
    · rw [lookupA_setA_ne _ _ _ _ hk]
      exact h

theorem ensureNode_nodes_self (g : GlobalGraph) (nm : String) :
    (lookupA (ensureNode g nm).nodes nm).isSome = true := by
  unfold ensureNode
  split
  · rename_i v heq
    rw [heq]
    rfl
  · show (lookupA (setA g.nodes nm (parseFullTableName nm)) nm).isSome = true
    rw [lookupA_setA_self]
    rfl

theorem ensureNode_of_present (g : GlobalGraph) (nm : String)
    (h : (lookupA g.nodes nm).isSome = true) : ensureNode g nm = g := by
  unfold ensureNode
  split
  · rfl
  · rename_i heq
    rw [heq] at h
    exact Bool.noConfusion h

theorem glInner_nodes (sql_file_path tgt : String) (g : GlobalGraph) (src : String) :
    (glInner sql_file_path tgt g src).nodes = (ensureNode g src).nodes := by
  unfold glInner
  dsimp only
  split
  · split
    · rfl
    · rfl
  · rfl

theorem glInner_edge_mono (sql_file_path tgt : String) (g : GlobalGraph)
    (src : String) (s t : String) (ps : List String)
    (hps : lookupA g.edges (s, t) = some ps) (hm : sql_file_path ∈ ps) :
    ∃ ps', lookupA (glInner sql_file_path tgt g src).edges (s, t) = some ps' ∧
      sql_file_path ∈ ps' := by
  unfold glInner
  dsimp only
  have hps' : lookupA (ensureNode g src).edges (s, t) = some ps := by
    rw [ensureNode_edges]
    exact hps
  split
  · rename_i paths heq
    split
    · exact ⟨ps, hps', hm⟩
    · by_cases hk : ((src, tgt) : String × String) = (s, t)
      · refine ⟨paths ++ [sql_file_path], ?_, List.mem_append_right _
          (List.mem_singleton_self _)⟩
        show lookupA (setA (ensureNode g src).edges (src, tgt) _) (s, t) = _
        rw [hk, lookupA_setA_self]
      · refine ⟨ps, ?_, hm⟩
        show lookupA (setA (ensureNode g src).edges (src, tgt) _) (s, t) = _
        rw [lookupA_setA_ne _ _ _ _ hk]
        exact hps'
  · rename_i heq
    by_cases hk : ((src, tgt) : String × String) = (s, t)
    · rw [hk] at heq
      rw [hps'] at heq
      exact Option.noConfusion heq
    · refine ⟨ps, ?_, hm⟩
      show lookupA (setA (ensureNode g src).edges (src, tgt) _) (s, t) = _
      rw [lookupA_setA_ne _ _ _ _ hk]
      exact hps'

theorem glInner_edge_self (sql_file_path tgt : String) (g : GlobalGraph)
    (src : String) :
    ∃ ps, lookupA (glInner sql_file_path tgt g src).edges (src, tgt) = some ps ∧
      sql_file_path ∈ ps := by
  unfold glInner
  dsimp only
  split
  · rename_i paths heq
    split
    · rename_i hmem
      exact ⟨paths, heq, hmem⟩
    · refine ⟨paths ++ [sql_file_path], ?_, List.mem_append_right _
        (List.mem_singleton_self _)⟩
      show lookupA (setA (ensureNode g src).edges (src, tgt) _) (src, tgt) = _
      rw [lookupA_setA_self]
  · refine ⟨[sql_file_path], ?_, List.mem_singleton_self _⟩
    show lookupA (setA (ensureNode g src).edges (src, tgt) _) (src, tgt) = _
    rw [lookupA_setA_self]

theorem glInnerFold_post (sql_file_path tgt : String) (sources : List String) :
    ∀ g : GlobalGraph,
      (∀ k, (lookupA g.nodes k).isSome = true →
        (lookupA (sources.foldl (glInner sql_file_path tgt) g).nodes k).isSome = true) ∧
      (∀ s t ps, lookupA g.edges (s, t) = some ps → sql_file_path ∈ ps →
        ∃ ps', lookupA (sources.foldl (glInner sql_file_path tgt) g).edges (s, t) =
          some ps' ∧ sql_file_path ∈ ps') ∧
      (∀ s ∈ sources,
        (lookupA (sources.foldl (glInner sql_file_path tgt) g).nodes s).isSome = true ∧
        ∃ ps, lookupA (sources.foldl (glInner sql_file_path tgt) g).edges (s, tgt) =
          some ps ∧ sql_file_path ∈ ps) := by
  induction sources with
  | nil =>
    intro g
    exact ⟨fun k h => h, fun s t ps h hm => ⟨ps, h, hm⟩,
      fun s hs => absurd hs (List.not_mem_nil s)⟩
  | cons s0 rest ih =>
    intro g
    rw [List.foldl_cons]
    obtain ⟨ihn, ihe, ihs⟩ := ih (glInner sql_file_path tgt g s0)
    refine ⟨?_, ?_, ?_⟩
    · intro k hk
      apply ihn
      rw [glInner_nodes]
      exact ensureNode_nodes_mono g s0 k hk
    · intro s t ps hps hm
      obtain ⟨ps1, hps1, hm1⟩ := glInner_edge_mono sql_file_path tgt g s0 s t ps hps hm
      exact ihe s t ps1 hps1 hm1
    · intro s hs
      rcases List.mem_cons.mp hs with rfl | hs'
      · constructor
        · apply ihn
          rw [glInner_nodes]
          exact ensureNode_nodes_self g s
        · obtain ⟨ps, hps, hm⟩ := glInner_edge_self sql_file_path tgt g s
          obtain ⟨ps', hps', hm'⟩ := ihe s tgt ps hps hm
          exact ⟨ps', hps', hm'⟩
      · exact ihs s hs'

theorem glOuterFold_mono (sql_file_path : String) (sources targets : List String) :
    ∀ g : GlobalGraph,
      (∀ k, (lookupA g.nodes k).isSome = true →
        (lookupA (targets.foldl (glOuter sql_file_path sources) g).nodes k).isSome
          = true) ∧
      (∀ s t ps, lookupA g.edges (s, t) = some ps → sql_file_path ∈ ps →
        ∃ ps', lookupA (targets.foldl (glOuter sql_file_path sources) g).edges (s, t) =
          some ps' ∧ sql_file_path ∈ ps') := by
  induction targets with
  | nil => exact fun g => ⟨fun k h => h, fun s t ps h hm => ⟨ps, h, hm⟩⟩
  | cons t0 rest ih =>
    intro g
    rw [List.foldl_cons]
    obtain ⟨ihn, ihe⟩ := ih (glOuter sql_file_path sources g t0)
    constructor
    · intro k hk
      apply ihn
      exact (glInnerFold_post sql_file_path t0 sources (ensureNode g t0)).1 k
        (ensureNode_nodes_mono g t0 k hk)
    · intro s t ps hps hm
      obtain ⟨ps1, hps1, hm1⟩ :=
        (glInnerFold_post sql_file_path t0 sources (ensureNode g t0)).2.1 s t ps
          (by rw [ensureNode_edges]; exact hps) hm
      exact ihe s t ps1 hps1 hm1

theorem glOuterFold_post (sql_file_path : String) (sources targets : List String) :
    ∀ g : GlobalGraph, ∀ t ∈ targets,
      (lookupA (targets.foldl (glOuter sql_file_path sources) g).nodes t).isSome
        = true ∧
      ∀ s ∈ sources,
        (lookupA (targets.foldl (glOuter sql_file_path sources) g).nodes s).isSome
          = true ∧
        ∃ ps, lookupA (targets.foldl (glOuter sql_file_path sources) g).edges (s, t) =
          some ps ∧ sql_file_path ∈ ps := by
  induction targets with
  | nil =>
    intro g t ht
    cases ht
  | cons t0 rest ih =>
    intro g t ht
    rw [List.foldl_cons]
    rcases List.mem_cons.mp ht with rfl | ht'
    · obtain ⟨hin, hie, his⟩ :=
        glInnerFold_post sql_file_path t sources (ensureNode g t)
      obtain ⟨hmn, hme⟩ := glOuterFold_mono sql_file_path sources rest
        (glOuter sql_file_path sources g t)
      constructor
      · apply hmn
        exact hin t (ensureNode_nodes_self g t)
      · intro s hs
        obtain ⟨hns, ps, hps, hm⟩ := his s hs
        refine ⟨hmn s hns, ?_⟩
        exact hme s t ps hps hm
    · exact ih (glOuter sql_file_path sources g t0) t ht'

theorem updateGlobalLineage_post (fs : Option GlobalGraph) (sql_file_path : String)
    (targets sources : List String) (g' : GlobalGraph)
    (h : updateGlobalLineage fs sql_file_path targets sources = some g') :
    ∀ t ∈ targets,
      (lookupA g'.nodes t).isSome = true ∧
      ∀ s ∈ sources,
        (lookupA g'.nodes s).isSome = true ∧
        ∃ ps, lookupA g'.edges (s, t) = some ps ∧ sql_file_path ∈ ps := by
  rw [updateGlobalLineage_eq] at h
  cases h
  exact glOuterFold_post sql_file_path sources targets _

theorem foldl_fixed {α β : Type} (l : List α) (f : β → α → β) (b : β)
    (h : ∀ x ∈ l, f b x = b) : l.foldl f b = b := by
  induction l with
  | nil => rfl
  | cons a as ih =>
    rw [List.foldl_cons, h a (List.mem_cons_self _ _)]
    exact ih (fun x hx => h x (List.mem_cons_of_mem _ hx))

theorem glInner_fixed (sql_file_path tgt : String) (g : GlobalGraph) (src : String)
    (hn : (lookupA g.nodes src).isSome = true)
    (he : ∃ ps, lookupA g.edges (src, tgt) = some ps ∧ sql_file_path ∈ ps) :
    glInner sql_file_path tgt g src = g := by
  unfold glInner
  dsimp only
  rw [ensureNode_of_present g src hn]
  obtain ⟨ps, hps, hm⟩ := he
  split
  · rename_i paths heq
    rw [hps] at heq
    cases heq
    rw [if_pos hm]
  · rename_i heq
    rw [hps] at heq
    exact Option.noConfusion heq

theorem glOuter_fixed (sql_file_path : String) (sources : List String)
    (g : GlobalGraph) (tgt : String)
    (hn : (lookupA g.nodes tgt).isSome = true)
    (hs : ∀ s ∈ sources,
      (lookupA g.nodes s).isSome = true ∧
      ∃ ps, lookupA g.edges (s, tgt) = some ps ∧ sql_file_path ∈ ps) :
    glOuter sql_file_path sources g tgt = g := by
  unfold glOuter
  rw [ensureNode_of_present g tgt hn]
  exact foldl_fixed sources _ g
    (fun s hsm => glInner_fixed sql_file_path tgt g s (hs s hsm).1 (hs s hsm).2)

theorem updateGlobalLineage_idem (g1 : GlobalGraph) (sql_file_path : String)
    (targets sources : List String)
    (hpost : ∀ t ∈ targets,
      (lookupA g1.nodes t).isSome = true ∧
      ∀ s ∈ sources,
        (lookupA g1.nodes s).isSome = true ∧
        ∃ ps, lookupA g1.edges (s, t) = some ps ∧ sql_file_path ∈ ps) :
    updateGlobalLineage (some g1) sql_file_path targets sources = some g1 := by
  rw [updateGlobalLineage_eq]
  have hfold : targets.foldl (glOuter sql_file_path sources)
      ((some g1).getD { nodes := [], edges := [] }) = g1 :=
    foldl_fixed _ _ _
      (fun t ht => glOuter_fixed sql_file_path sources g1 t (hpost t ht).1
        (hpost t ht).2)
  rw [hfold]

/-! ## Claim C7: re-running a script is idempotent -/

theorem processScriptCore_ok_eq (db : DB) (fs : Option GlobalGraph)
    (path sid : String) (facts : List Fact) (parsed : List (Option PStmt))
    (content : String) (ts : List String × List String) (db1 db2 : DB)
    (hf : ¬facts.isEmpty)
    (hct : checkTargets (buildDependencyGraph facts) = .ok ts)
    (htp : tablePhase db (consolidateMetadata facts) sid = .ok db1)
    (hpp : populateScriptTables db1 content facts parsed sid = .ok db2) :
    processScriptCore db fs path sid facts parsed content =
      (.ok (), db2, updateGlobalLineage fs path ts.1 ts.2) := by
  rw [processScriptCore, if_neg hf]
  simp only [hct, htp, hpp]

theorem processScriptCore_tablePhase_error_eq (db : DB) (fs : Option GlobalGraph)
    (path sid : String) (facts : List Fact) (parsed : List (Option PStmt))
    (content : String) (ts : List String × List String) (e : String)
    (hf : ¬facts.isEmpty)
    (hct : checkTargets (buildDependencyGraph facts) = .ok ts)
    (htp : tablePhase db (consolidateMetadata facts) sid = .error e) :
    processScriptCore db fs path sid facts parsed content = (.error e, db, fs) := by
  rw [processScriptCore, if_neg hf]
  simp only [hct, htp]

/-- Claim C7: processing the same script twice against the same persisted
store leaves exactly the same persisted state (tables, columns, databases,
script/statement/lineage rows and the global lineage graph) as processing
it once.  Hypotheses: extracted columns are named, the consolidated
records resolve to distinct table ids, and the initial store is a
consistent lineage store for this script id (no orphaned child rows
without the `sql_scripts` row, and no rows of other scripts stored under
key patterns carrying this script's id). -/
theorem claim_C7_rerun_idempotent (db : DB) (fs : Option GlobalGraph)
    (path sid : String) (facts : List Fact) (parsed : List (Option PStmt))
    (content : String)
    (hnames : ∀ f ∈ facts, ∀ c ∈ f.target_columns,
      ∃ nm, c.col_en_nm = some nm ∧ nm ≠ "")
    (htids : ((consolidateMetadata facts).map (fun p => tidOf p.2 (some sid))).Nodup)
    (horph : lookupA db.sql_scripts sid = none →
      (∀ p ∈ db.script_statements, ¬(p.2.script_id = sid)) ∧
      (∀ p ∈ db.data_lineage_detail, ¬(p.2.script_id = sid)) ∧
      (∀ p ∈ db.data_lineage_summary, ¬(p.2.script_id = sid)))
    (hkey1 : ∀ p ∈ db.script_statements,
      strContainsSub p.1 (sid ++ "__STMT_") = true → p.2.script_id = sid)
    (hkey2 : ∀ p ∈ db.data_lineage_detail,
      strContainsSub p.1 (sid ++ "__STMT_") = true → p.2.script_id = sid)
    (hkey3 : ∀ p ∈ db.data_lineage_summary,
      strEndsWith p.1 ("__" ++ sid) = true → p.2.script_id = sid) :
    (processScriptCore
        (processScriptCore db fs path sid facts parsed content).2.1
        (processScriptCore db fs path sid facts parsed content).2.2
        path sid facts parsed content).2 =
      (processScriptCore db fs path sid facts parsed content).2 := by
  by_cases hf : facts.isEmpty
  · simp [processScriptCore, hf]
  · cases hct : checkTargets (buildDependencyGraph facts) with
    | error e0 => simp [processScriptCore, hf, hct]
    | ok ts =>
      cases htp : tablePhase db (consolidateMetadata facts) sid with
      | error e0 => simp [processScriptCore, hf, hct, htp]
      | ok db1 =>
        cases hpp : populateScriptTables db1 content facts parsed sid with
        | error e0 => simp [processScriptCore, hf, hct, htp, hpp]
        | ok db2 =>
          have hrun1 : processScriptCore db fs path sid facts parsed content =
              (.ok (), db2, updateGlobalLineage fs path ts.1 ts.2) :=
            processScriptCore_ok_eq db fs path sid facts parsed content ts db1 db2
              hf hct htp hpp
          rw [hrun1]
          obtain ⟨g1, hg1⟩ : ∃ g1, updateGlobalLineage fs path ts.1 ts.2 = some g1 :=
            ⟨_, updateGlobalLineage_eq fs path ts.1 ts.2⟩
          rw [hg1]
          have htc := tablePhase_onlyTC (consolidateMetadata facts) db db1 sid htp
          have hwfall := consolidate_wf facts hnames
          obtain ⟨hpop2, hT, hC, hD⟩ := populate_idem db1 content facts parsed sid db2
            hpp
            (fun p hp => hkey1 p (htc.2.1 ▸ hp))
            (fun p hp => hkey2 p (htc.2.2.1 ▸ hp))
            (fun p hp => hkey3 p (htc.2.2.2 ▸ hp))
            (by
              intro hnone
              rw [htc.1] at hnone
              obtain ⟨o1, o2, o3⟩ := horph hnone
              exact ⟨fun p hp => o1 p (htc.2.1 ▸ hp),
                fun p hp => o2 p (htc.2.2.1 ▸ hp),
                fun p hp => o3 p (htc.2.2.2 ▸ hp)⟩)
          have hposts := tablePhase_post (consolidateMetadata facts) db db1 sid htp
            hwfall htids
          have hposts2 : ∀ p ∈ consolidateMetadata facts, PostTD db2 sid p.2 := by
            intro p hp
            obtain ⟨row, hrow, hsp⟩ := hposts p hp
            refine ⟨row, by rw [hT]; exact hrow, fun hne => ⟨(hsp hne).1, ?_⟩⟩
            intro c hc nm hnm hnein
            obtain ⟨exr, hex, hdesc⟩ := (hsp hne).2 c hc nm hnm hnein
            exact ⟨exr, by rw [hC]; exact hex, hdesc⟩
          rcases tablePhase_rerun (consolidateMetadata facts) db2 sid hposts2 hwfall
            with htp2 | ⟨e2, htp2⟩
          · have hgidem := updateGlobalLineage_idem g1 path ts.1 ts.2
              (updateGlobalLineage_post fs path ts.1 ts.2 g1 hg1)
            show (processScriptCore db2 (some g1) path sid facts parsed content).2 =
              (db2, some g1)
            rw [processScriptCore_ok_eq db2 (some g1) path sid facts parsed content
              ts db2 db2 hf hct htp2 hpop2]
            show (db2, updateGlobalLineage (some g1) path ts.1 ts.2) = (db2, some g1)
            rw [hgidem]
          · show (processScriptCore db2 (some g1) path sid facts parsed content).2 =
              (db2, some g1)
            rw [processScriptCore_tablePhase_error_eq db2 (some g1) path sid facts
              parsed content ts e2 hf hct htp2]

/-- The fact record of the claim C7 witness: a `CREATE TABLE` for `w.t`
with one named column, reading from source `w.src`. -/
def c7Fact : Fact :=
  { target_table := { schema_nm := "w", tbl_en_nm := "t", tbl_cn_nm := "" }
    statement_type := "CREATE_TABLE"
    table_type := "TABLE"
    target_columns := [{ col_no := some 1, col_en_nm := some "c", col_cn_nm := some "X" }]
    source_tables := [{ schema_nm := "w", tbl_en_nm := "src" }] }

/-- The parsed statement list of the claim C7 witness. -/
def c7Parsed : List (Option PStmt) :=
  [some { ast := .create (some "TABLE") false, content := "CREATE" }]

theorem claim_C7_rerun_idempotent_witness :
    (processScriptCore
        (processScriptCore DB.empty none "d/s.sql" "S" [c7Fact] c7Parsed "CREATE").2.1
        (processScriptCore DB.empty none "d/s.sql" "S" [c7Fact] c7Parsed "CREATE").2.2
        "d/s.sql" "S" [c7Fact] c7Parsed "CREATE").2 =
      (processScriptCore DB.empty none "d/s.sql" "S" [c7Fact] c7Parsed "CREATE").2 :=
  claim_C7_rerun_idempotent DB.empty none "d/s.sql" "S" [c7Fact] c7Parsed "CREATE"
    (by
      intro f hf c hc
      rw [List.mem_singleton] at hf
      subst hf
      rw [show c7Fact.target_columns =
        [{ col_no := some 1, col_en_nm := some "c", col_cn_nm := some "X" }] from rfl,
        List.mem_singleton] at hc
      subst hc
      exact ⟨"c", rfl, by decide⟩)
    (by decide)
    (by
      intro _
      exact ⟨fun p hp => absurd hp (List.not_mem_nil p),
        fun p hp => absurd hp (List.not_mem_nil p),
        fun p hp => absurd hp (List.not_mem_nil p)⟩)
    (by intro p hp; exact absurd hp (List.not_mem_nil p))
    (by intro p hp; exact absurd hp (List.not_mem_nil p))
    (by intro p hp; exact absurd hp (List.not_mem_nil p))

end MetadataExtractor
